import Mathlib

/-!
# Neon Tetris: board, piece and engine

A shallow embedding of `Piece.js`, `Tetris Game/Board.js` and the engine part of
`Game.js` (input resolution, move, rotate, spawn, hold, drop, lock, scoring, update).

Modelling conventions.
* Cell values and piece-type ids are natural numbers (0 = empty, `SHAPES` holds 0..7).
* Coordinates, timers and elapsed times are integers (milliseconds for times).
* A JavaScript object reference is modelled by its value; the engine only ever passes
  the active piece `this.board.piece` to `move` and `rotate`, so these act on the
  active-piece slot of the state.
* A dereference of `null` (TypeError) and the table lookup `points[n]` outside the
  table (the score would become NaN) are modelled by `none`.
* `Math.random` is an explicit stream `rand : Nat → Fin 7` giving the value of
  `Math.floor(Math.random() * 7)` at each call; the state counts the calls made.
* Canvas drawing and DOM updates are not modelled.
-/

namespace NeonTetris

/-! ## Piece.js -/

/-- A shape matrix: a list of rows of cell values. -/
abbrev Shape := List (List Nat)

/-- The grid of locked cells: a list of rows of cell values. -/
abbrev Grid := List (List Nat)

/-- `SHAPES` of Piece.js, after the assignment `SHAPES[4] = [[4, 4], [4, 4]]`. -/
def SHAPES : List Shape :=
  [ [],
    [[0, 0, 0, 0], [1, 1, 1, 1], [0, 0, 0, 0], [0, 0, 0, 0]],
    [[2, 0, 0], [2, 2, 2], [0, 0, 0]],
    [[0, 0, 3], [3, 3, 3], [0, 0, 0]],
    [[4, 4], [4, 4]],
    [[0, 5, 5], [5, 5, 0], [0, 0, 0]],
    [[0, 6, 0], [6, 6, 6], [0, 0, 0]],
    [[7, 7, 0], [0, 7, 7], [0, 0, 0]] ]

/-- A piece: `typeId`, `shape`, `x`, `y` (the colour is only used for drawing). -/
structure Piece where
  typeId : Nat
  shape : Shape
  x : Int
  y : Int
  deriving DecidableEq, Repr

/-- The constructor `new Piece(typeId)`. -/
def Piece.new (typeId : Nat) : Piece :=
  { typeId := typeId, shape := SHAPES.getD typeId [], x := 0, y := 0 }

/-- The read `m[y][x]` of a matrix; a read outside the matrix (`undefined` in
JavaScript, which fails every `> 0` test) is 0. -/
def matGet (m : List (List Nat)) (y x : Nat) : Nat :=
  (m.getD y []).getD x 0

/-- The write `m[r][c] = v` inside the matrix. -/
def matSet (m : List (List Nat)) (r c : Nat) (v : Nat) : List (List Nat) :=
  m.set r ((m.getD r []).set c v)

/-- The fresh matrix `Array.from({ length: N }, () => Array(N).fill(0))`. -/
def zeroMatrix (N : Nat) : List (List Nat) :=
  List.replicate N (List.replicate N 0)

/-- The loops of `rotateCW`: `newShape[x][N - 1 - y] = this.shape[y][x]`. -/
def rotateCWShape (shape : Shape) : Shape :=
  let N := shape.length
  (List.range N).foldl
    (fun acc y => (List.range N).foldl
      (fun acc x => matSet acc x (N - 1 - y) (matGet shape y x)) acc)
    (zeroMatrix N)

/-- The loops of `rotateCCW`: `newShape[N - 1 - x][y] = this.shape[y][x]`. -/
def rotateCCWShape (shape : Shape) : Shape :=
  let N := shape.length
  (List.range N).foldl
    (fun acc y => (List.range N).foldl
      (fun acc x => matSet acc (N - 1 - x) y (matGet shape y x)) acc)
    (zeroMatrix N)

/-- The method `rotateCW`. -/
def Piece.rotateCW (p : Piece) : Piece := { p with shape := rotateCWShape p.shape }

/-- The method `rotateCCW`. -/
def Piece.rotateCCW (p : Piece) : Piece := { p with shape := rotateCCWShape p.shape }

/-- The method `clone`: a deep copy, which is the same value. -/
def Piece.clone (p : Piece) : Piece := p

/-! ## Board.js -/

/-- The row `Array(10).fill(0)`. -/
def emptyRow : List Nat := List.replicate 10 0

/-- The method `getEmptyGrid`: 20 rows of 10 zeros. -/
def getEmptyGrid : Grid := List.replicate 20 emptyRow

/-- A grid of 20 rows of 10 cells. -/
def GridOk (grid : Grid) : Prop :=
  grid.length = 20 ∧ ∀ row ∈ grid, row.length = 10

/-- The read `this.grid[newY][newX]`, made by `isValid` only after the tests
`0 <= newX < 10` and `0 <= newY < 20`; on a grid of 20 rows of 10 cells the read is
inside the grid. -/
def cellAt (grid : Grid) (newY newX : Int) : Nat :=
  matGet grid newY.toNat newX.toNat

/-- The inner loop of `isValid` over the cells of shape row `y`, from column `x` on. -/
def isValidRow (grid : Grid) (px py : Int) (y : Nat) : Nat → List Nat → Bool
  | _, [] => true
  | x, v :: vs =>
    if v > 0 then
      let newX := px + x
      let newY := py + y
      if newX < 0 || newX ≥ 10 || newY ≥ 20 then false
      else if newY ≥ 0 && cellAt grid newY newX > 0 then false
      else isValidRow grid px py y (x + 1) vs
    else isValidRow grid px py y (x + 1) vs

/-- The outer loop of `isValid` over the shape rows, from row `y` on. -/
def isValidRows (grid : Grid) (px py : Int) : Nat → List (List Nat) → Bool
  | _, [] => true
  | y, row :: rows => isValidRow grid px py y 0 row && isValidRows grid px py (y + 1) rows

/-- The method `Board.isValid`. -/
def isValid (grid : Grid) (p : Piece) : Bool :=
  isValidRows grid p.x p.y 0 p.shape

/-- The write `this.grid[p.y + y][p.x + x] = p.typeId` of `merge`, for a cell that lies
on the board; `merge` is only specified for such cells. Outside the board the JavaScript
write throws a TypeError (row 20 or more) or grows the row (column 10 or more), while
this definition leaves the grid as it is. The definition agrees with the code exactly
when the non-empty cells of the piece lie in columns 0..9 and in rows below 20 of a grid
of 20 rows of 10 cells; the specifications of `merge` and `drop` carry this as a
hypothesis, and it holds in every reachable state. -/
def gridSet (grid : Grid) (r c : Int) (v : Nat) : Grid :=
  if 0 ≤ r ∧ 0 ≤ c then matSet grid r.toNat c.toNat v else grid

/-- The inner loop of `merge` over the cells of shape row `y`, from column `x` on. -/
def mergeRow (p : Piece) (y : Nat) : Nat → List Nat → Grid → Grid
  | _, [], grid => grid
  | x, v :: vs, grid =>
    if v > 0 then
      if p.y + y < 0 then mergeRow p y (x + 1) vs grid
      else mergeRow p y (x + 1) vs (gridSet grid (p.y + y) (p.x + x) p.typeId)
    else mergeRow p y (x + 1) vs grid

/-- The outer loop of `merge` over the shape rows, from row `y` on. -/
def mergeRows (p : Piece) : Nat → List (List Nat) → Grid → Grid
  | _, [], grid => grid
  | y, row :: rows, grid => mergeRows p (y + 1) rows (mergeRow p y 0 row grid)

/-- The method `Board.merge`. -/
def merge (grid : Grid) (p : Piece) : Grid :=
  mergeRows p 0 p.shape grid

/-- The loop `for (i < lines) newGrid.unshift(Array(10).fill(0))`. -/
def unshiftEmpty : Nat → Grid → Grid
  | 0, grid => grid
  | n + 1, grid => unshiftEmpty n (emptyRow :: grid)

/-- The method `Board.clearLines`: the new grid and the returned count. -/
def clearLines (grid : Grid) : Grid × Int :=
  let newGrid := grid.filter (fun row => row.any (fun value => value == 0))
  let lines : Int := 20 - (newGrid.length : Int)
  (unshiftEmpty lines.toNat newGrid, lines)

/-- A row is full when every cell is non-empty. -/
def rowFull (row : List Nat) : Bool := row.all (fun value => value != 0)

/-! ## Game.js -/

/-- The key flags `this.keys` (and the snapshot `this.prevKeys`). -/
structure Keys where
  left : Bool
  right : Bool
  down : Bool
  rotateCW : Bool
  rotateCCW : Bool
  hold : Bool
  deriving DecidableEq, Repr

/-- The state of `Game` together with its `Board`: the grid, the three piece slots,
the statistics, the flags, the timers and the number of `Math.random` calls made. -/
structure Game where
  grid : Grid
  piece : Option Piece
  nextPiece : Option Piece
  holdPiece : Option Piece
  score : Int
  lines : Int
  level : Int
  gameOver : Bool
  isPaused : Bool
  dropCounter : Int
  dropInterval : Int
  keys : Keys
  prevKeys : Keys
  leftTimer : Int
  rightTimer : Int
  downTimer : Int
  canHold : Bool
  draws : Nat
  deriving DecidableEq, Repr

/-- The field `dasDelay`, set once in the constructor. -/
def dasDelay : Int := 160

/-- The field `arrDelay`, set once in the constructor. -/
def arrDelay : Int := 30

/-- The field `downInterval`, set once in the constructor. -/
def downInterval : Int := 50

/-- No key held. -/
def noKeys : Keys :=
  { left := false, right := false, down := false,
    rotateCW := false, rotateCCW := false, hold := false }

/-- The state built by the constructor of `Game`. -/
def Game.new : Game :=
  { grid := getEmptyGrid, piece := none, nextPiece := none, holdPiece := none,
    score := 0, lines := 0, level := 1, gameOver := false, isPaused := false,
    dropCounter := 0, dropInterval := 1000, keys := noKeys, prevKeys := noKeys,
    leftTimer := 0, rightTimer := 0, downTimer := 0, canHold := true, draws := 0 }

/-- The method `togglePause` (the overlay and `lastTime` are not modelled). -/
def togglePause (s : Game) : Game :=
  if s.gameOver then s else { s with isPaused := !s.isPaused }

/-- The method `createPiece`, at the `n`-th call of `Math.random`. -/
def createPiece (rand : Nat → Fin 7) (n : Nat) : Piece :=
  Piece.new ((rand n).val + 1)

/-- The method `move(p, dx, dy)` with `p` the active piece: the state afterwards and
the returned flag. -/
def move (s : Game) (dx dy : Int) : Option (Game × Bool) :=
  match s.piece with
  | none => none
  | some p =>
    let p1 := { p with x := p.x + dx, y := p.y + dy }
    if !isValid s.grid p1 then
      some ({ s with piece := some { p1 with x := p1.x - dx, y := p1.y - dy } }, false)
    else some ({ s with piece := some p1 }, true)

/-- The wall-kick table of `rotate`. -/
def kicks : List Int := [-1, 1, -2, 2]

/-- The statement `if (dir > 0) p.rotateCW(); else p.rotateCCW();`. -/
def rotateDir (p : Piece) (dir : Int) : Piece :=
  if dir > 0 then p.rotateCW else p.rotateCCW

/-- The wall-kick loop of `rotate`, over the offsets still to try. -/
def rotateKicks (grid : Grid) (p clone : Piece) (dir : Int) : List Int → Piece
  | [] => p
  | k :: ks =>
    let clone1 := { clone with x := clone.x + k }
    if isValid grid clone1 then rotateDir { p with x := p.x + k } dir
    else rotateKicks grid p { clone1 with x := clone1.x - k } dir ks

/-- The method `rotate(p, dir)` with `p` the active piece. -/
def rotate (s : Game) (dir : Int) : Option Game :=
  match s.piece with
  | none => none
  | some p =>
    let clone := rotateDir p.clone dir
    if isValid s.grid clone then some { s with piece := some (rotateDir p dir) }
    else some { s with piece := some (rotateKicks s.grid p clone dir kicks) }

/-- The method `reset` (the overlay and the score display are not modelled). -/
def reset (rand : Nat → Fin 7) (s : Game) : Game :=
  { s with
    grid := getEmptyGrid, score := 0, lines := 0, level := 1, gameOver := false,
    isPaused := false, dropInterval := 1000, holdPiece := none, canHold := true,
    nextPiece := some (createPiece rand s.draws), draws := s.draws + 1 }

/-- The method `spawnPiece` (the overlay and `cancelAnimationFrame` are not modelled). -/
def spawnPiece (rand : Nat → Fin 7) (s : Game) : Option Game :=
  match s.nextPiece with
  | none => none
  | some np =>
    let piece := { np with x := 3, y := 0 }
    let s1 := { s with
      piece := some piece, nextPiece := some (createPiece rand s.draws),
      draws := s.draws + 1, canHold := true }
    if !isValid s1.grid piece then some { s1 with gameOver := true } else some s1

/-- The method `holdCurrentPiece`. -/
def holdCurrentPiece (rand : Nat → Fin 7) (s : Game) : Option Game :=
  if !s.canHold then some s
  else
    match s.holdPiece with
    | none =>
      match s.piece with
      | none => none
      | some p =>
        match spawnPiece rand { s with holdPiece := some { p with y := 0 } } with
        | none => none
        | some s2 => some { s2 with canHold := false }
    | some h =>
      match s.piece with
      | none => none
      | some p =>
        some { s with
          piece := some { h with y := 0, x := 3 }, holdPiece := some { p with y := 0 },
          canHold := false }

/-- The table `points` of `updateStats`. -/
def points : List Int := [0, 100, 300, 500, 800]

/-- The method `updateStats(linesCleared)`; `none` when `points[linesCleared]` is not
an entry of the table. -/
def updateStats (s : Game) (linesCleared : Int) : Option Game :=
  let lines := s.lines + linesCleared
  match (if 0 ≤ linesCleared then points[linesCleared.toNat]? else none) with
  | none => none
  | some pts =>
    let score := s.score + pts * s.level
    let level := lines / 10 + 1
    some { s with
      lines := lines, score := score, level := level,
      dropInterval := max 100 (1000 - (level - 1) * 100) }

/-- The method `lock`. -/
def lock (rand : Nat → Fin 7) (s : Game) : Option Game :=
  match s.piece with
  | none => none
  | some p =>
    let cl := clearLines (merge s.grid p)
    let s1 := { s with grid := cl.1 }
    match (if cl.2 > 0 then updateStats s1 cl.2 else some s1) with
    | none => none
    | some s2 => spawnPiece rand s2

/-- The method `drop`. -/
def drop (rand : Nat → Fin 7) (s : Game) : Option Game :=
  match s.piece with
  | none => none
  | some p =>
    let p1 := { p with y := p.y + 1 }
    if !isValid s.grid p1 then
      match lock rand { s with piece := some { p1 with y := p1.y - 1 } } with
      | none => none
      | some s1 => some { s1 with dropCounter := 0 }
    else some { s with piece := some p1, dropCounter := 0 }

/-- The loop `while (leftTimer > dasDelay + arrDelay) { move(p, -1, 0); leftTimer -= arrDelay }`,
run for at most `fuel` rounds; `none` also when the fuel does not suffice. -/
def leftRepeat : Nat → Game → Option Game
  | 0, s => if s.leftTimer > dasDelay + arrDelay then none else some s
  | fuel + 1, s =>
    if s.leftTimer > dasDelay + arrDelay then
      match move s (-1) 0 with
      | none => none
      | some r => leftRepeat fuel { r.1 with leftTimer := r.1.leftTimer - arrDelay }
    else some s

/-- The loop `while (rightTimer > dasDelay + arrDelay) { move(p, 1, 0); rightTimer -= arrDelay }`,
run for at most `fuel` rounds; `none` also when the fuel does not suffice. -/
def rightRepeat : Nat → Game → Option Game
  | 0, s => if s.rightTimer > dasDelay + arrDelay then none else some s
  | fuel + 1, s =>
    if s.rightTimer > dasDelay + arrDelay then
      match move s 1 0 with
      | none => none
      | some r => rightRepeat fuel { r.1 with rightTimer := r.1.rightTimer - arrDelay }
    else some s

/-- The loop `while (downTimer > downInterval) { drop(); downTimer -= downInterval }`,
run for at most `fuel` rounds; `none` also when the fuel does not suffice. -/
def downRepeat (rand : Nat → Fin 7) : Nat → Game → Option Game
  | 0, s => if s.downTimer > downInterval then none else some s
  | fuel + 1, s =>
    if s.downTimer > downInterval then
      match drop rand s with
      | none => none
      | some s1 => downRepeat rand fuel { s1 with downTimer := s1.downTimer - downInterval }
    else some s

/-- The horizontal-movement block of `handleInput` (DAS and ARR). Each round of a
repeat loop lowers the timer by 30, so the timer itself bounds the rounds. -/
def horizontalInput (s : Game) (deltaTime : Int) : Option Game :=
  if s.keys.left && s.keys.right then
    some { s with leftTimer := 0, rightTimer := 0 }
  else if s.keys.left then
    let s1 := { s with rightTimer := 0 }
    if !s1.prevKeys.left then
      match move s1 (-1) 0 with
      | none => none
      | some r => some { r.1 with leftTimer := 0 }
    else
      let s2 := { s1 with leftTimer := s1.leftTimer + deltaTime }
      if s2.leftTimer > dasDelay then leftRepeat s2.leftTimer.toNat s2 else some s2
  else if s.keys.right then
    let s1 := { s with leftTimer := 0 }
    if !s1.prevKeys.right then
      match move s1 1 0 with
      | none => none
      | some r => some { r.1 with rightTimer := 0 }
    else
      let s2 := { s1 with rightTimer := s1.rightTimer + deltaTime }
      if s2.rightTimer > dasDelay then rightRepeat s2.rightTimer.toNat s2 else some s2
  else some { s with leftTimer := 0, rightTimer := 0 }

/-- The soft-drop block of `handleInput`. Each round of the repeat loop lowers the
timer by 50, so the timer itself bounds the rounds. -/
def softDropInput (rand : Nat → Fin 7) (s : Game) (deltaTime : Int) : Option Game :=
  if s.keys.down then
    if !s.prevKeys.down then
      match drop rand s with
      | none => none
      | some s1 => some { s1 with downTimer := 0 }
    else
      let s1 := { s with downTimer := s.downTimer + deltaTime }
      if s1.downTimer > downInterval then downRepeat rand s1.downTimer.toNat s1 else some s1
  else some { s with downTimer := 0 }

/-- The rotation block of `handleInput`: each rotation acts on the press edge. -/
def rotateInput (s : Game) : Option Game :=
  match (if s.keys.rotateCW && !s.prevKeys.rotateCW then rotate s 1 else some s) with
  | none => none
  | some s1 => if s1.keys.rotateCCW && !s1.prevKeys.rotateCCW then rotate s1 (-1) else some s1

/-- The method `handleInput(deltaTime)`. -/
def handleInput (rand : Nat → Fin 7) (s : Game) (deltaTime : Int) : Option Game :=
  match s.piece with
  | none => some s
  | some _ =>
    match rotateInput s with
    | none => none
    | some s1 =>
      if s1.keys.hold && !s1.prevKeys.hold then holdCurrentPiece rand s1
      else
        match horizontalInput s1 deltaTime with
        | none => none
        | some s2 =>
          match softDropInput rand s2 deltaTime with
          | none => none
          | some s3 => some { s3 with prevKeys := s3.keys }

/-- The method `update(deltaTime)`. -/
def update (rand : Nat → Fin 7) (s : Game) (deltaTime : Int) : Option Game :=
  if s.gameOver || s.isPaused then some s
  else
    match handleInput rand s deltaTime with
    | none => none
    | some s1 =>
      let s2 := { s1 with dropCounter := s1.dropCounter + deltaTime }
      if s2.dropCounter > s2.dropInterval then drop rand s2 else some s2

/-- The game-state part of `start`: `reset` followed by `spawnPiece`. The call of
`animate` that follows is the first update tick. -/
def start (rand : Nat → Fin 7) (s : Game) : Option Game :=
  spawnPiece rand (reset rand s)

/-- One frame: the key events since the last frame have left the flags at `keys`, then
`animate` calls `update` with the elapsed time. -/
def tick (rand : Nat → Fin 7) (s : Game) (keys : Keys) (deltaTime : Int) : Option Game :=
  update rand { s with keys := keys } deltaTime

/-- A run of frames, each with its key flags and elapsed time. -/
def runTicks (rand : Nat → Fin 7) : Game → List (Keys × Int) → Option Game
  | s, [] => some s
  | s, (keys, deltaTime) :: rest =>
    match tick rand s keys deltaTime with
    | none => none
    | some s1 => runTicks rand s1 rest

/-- The states the engine can be in: after `start` from any prior state, and then
after any frame and any pause toggle. -/
inductive Reachable (rand : Nat → Fin 7) : Game → Prop
  | start (s0 s : Game) : start rand s0 = some s → Reachable rand s
  | tick (s s1 : Game) (keys : Keys) (deltaTime : Int) :
      Reachable rand s → tick rand s keys deltaTime = some s1 → Reachable rand s1
  | pause (s : Game) : Reachable rand s → Reachable rand (togglePause s)

/-! ## Definitions used to state the properties -/

/-- A shape cell at row `y`, column `x` of a piece at `(px, py)` that makes the piece
invalid: its column is off the board, or its row is below the board, or its row is on
the board and the grid cell there is occupied. -/
def CellBad (grid : Grid) (px py : Int) (y x : Nat) : Prop :=
  px + x < 0 ∨ px + x ≥ 10 ∨ py + y ≥ 20 ∨ (py + y ≥ 0 ∧ cellAt grid (py + y) (px + x) > 0)

/-- Decidability of `GridOk`, by its definition. -/
instance (grid : Grid) : Decidable (GridOk grid) := by
  unfold GridOk
  infer_instance

/-- The level and the drop interval are the functions of `lines` that `updateStats`
computes, and `lines` is not negative. -/
def StatsInv (s : Game) : Prop :=
  0 ≤ s.lines ∧ s.level = s.lines / 10 + 1 ∧
    s.dropInterval = max 100 (1000 - (s.level - 1) * 100)

/-- A step that keeps `StatsInv` and does not lower `lines`. -/
def StatsStep (s s1 : Game) : Prop :=
  StatsInv s → StatsInv s1 ∧ s.lines ≤ s1.lines

/-! ### Concrete pieces, states and runs -/

/-- The key flags in the order left, right, down, rotateCW, rotateCCW, hold. -/
def pressed (left right down rotateCW rotateCCW hold : Bool) : Keys :=
  { left := left, right := right, down := down,
    rotateCW := rotateCW, rotateCCW := rotateCCW, hold := hold }

/-- Only the hold key. -/
def keysHold : Keys := pressed false false false false false true

/-- Only the down key. -/
def keysDown : Keys := pressed false false true false false false

/-- The right key and the clockwise-rotation key. -/
def keysRotateRight : Keys := pressed false true false true false false

/-- The right key, the down key and the clockwise-rotation key. -/
def keysRotateRightDown : Keys := pressed false true true true false false

/-- The random stream that yields the listed values, then 0. -/
def randOf (l : List (Fin 7)) : Nat → Fin 7 := fun n => l.getD n 0

/-- An upright I piece against the left wall: its cells are in column 0, rows 0..3. -/
def uprightI : Piece := { (Piece.new 1).rotateCW with x := -2 }

/-- The constructor state with `uprightI` as the active piece. -/
def wallState : Game := { Game.new with piece := some uprightI }

/-- The constructor state with an I piece waiting as the next piece. -/
def nextState : Game := { Game.new with nextPiece := some (Piece.new 1) }

/-- The constructor state after a hold: `canHold` is false. -/
def heldState : Game :=
  { Game.new with
    piece := some (Piece.new 6), holdPiece := some (Piece.new 1),
    nextPiece := some (Piece.new 4), canHold := false }

/-- A grid whose only full row is row 19; row 18 holds two cells. -/
def lastRowFullGrid : Grid :=
  List.replicate 18 emptyRow ++
    [[0, 0, 0, 2, 2, 0, 0, 0, 0, 0], [1, 1, 1, 1, 4, 4, 6, 6, 6, 6]]

/-- Six I pieces, then O and T. -/
def stackRand : Nat → Fin 7 := randOf [0, 0, 0, 0, 0, 0, 3, 5]

/-- Frames that stand five I pieces upright in column 6, filling it from row 19 up to
row 0: each piece is rotated and shifted right on a press edge, then soft-dropped. The
last frame leaves the fifth piece resting at rows 0..3 with the down key released. -/
def stackInputs : List (Keys × Int) :=
  [(keysRotateRight, 10), (keysDown, 10), (keysDown, 801),
   (keysRotateRightDown, 10), (keysDown, 650),
   (keysRotateRightDown, 10), (keysDown, 450),
   (keysRotateRightDown, 10), (keysDown, 250),
   (keysRotateRight, 10)]

/-- Frames that first hold the I piece that `start` spawned, then stand the next five
I pieces upright in column 6 as in `stackInputs`, and lock the fifth. The O piece is
then active and the I piece is held. -/
def holdInputs : List (Keys × Int) :=
  [(keysHold, 10),
   (keysRotateRight, 10), (keysDown, 10), (keysDown, 801),
   (keysRotateRightDown, 10), (keysDown, 650),
   (keysRotateRightDown, 10), (keysDown, 450),
   (keysRotateRightDown, 10), (keysDown, 250),
   (keysRotateRightDown, 10), (keysDown, 50)]

/-- The active piece of a state passes `isValid`. -/
def activeValid (s : Game) : Bool :=
  match s.piece with
  | some p => isValid s.grid p
  | none => false

/-- An I piece as `spawnPiece` and the hold swap place it: unrotated at `(3, 0)`, its
cells in row 1, columns 3..6. -/
def spawnedI : Piece := { Piece.new 1 with x := 3, y := 0 }

/-- The check of the hold run: before the last frame the game is on, hold is allowed
and the active piece is valid; after a frame with the hold key pressed the game is
still on, the active piece is the I piece at `(3, 0)`, the grid cell at row 1, column 6
is locked and the active piece fails `isValid`. -/
def holdCheck (s : Game) : Bool :=
  !s.gameOver && s.canHold && activeValid s &&
  match tick stackRand s keysHold 10 with
  | some s1 =>
    !s1.gameOver && s1.piece == some spawnedI && cellAt s1.grid 1 6 == 1 &&
      !isValid s1.grid spawnedI
  | none => false

/-- The check of the game-over run: the game is on; in a frame of 1001 ms with the down
key newly pressed, `handleInput` makes one spawn, of the I piece at `(3, 0)`, which fails
`isValid`, and sets `gameOver`; the rest of `update` makes one more spawn and changes
the grid and the next piece. -/
def overCheck (s : Game) : Bool :=
  !s.gameOver &&
  match handleInput stackRand { s with keys := keysDown } 1001,
    tick stackRand s keysDown 1001 with
  | some s1, some s2 =>
    s1.gameOver && s1.draws == s.draws + 1 && s1.piece == some spawnedI &&
      !isValid s1.grid spawnedI &&
      s2.gameOver && s2.draws == s1.draws + 1 && s2.grid != s1.grid &&
      s2.nextPiece != s1.nextPiece
  | _, _ => false

/-- A matrix of `R` rows of `C` cells. -/
def MatDims (m : List (List Nat)) (R C : Nat) : Prop :=
  m.length = R ∧ ∀ i, i < R → (m.getD i []).length = C

/-- The writes `m[w.1][w.2.1] = w.2.2` of a list of writes, in order. -/
def applyWrites (m : List (List Nat)) (ws : List (Nat × Nat × Nat)) : List (List Nat) :=
  ws.foldl (fun acc w => matSet acc w.1 w.2.1 w.2.2) m

/-- A square shape matrix: every row is as long as the matrix has rows. -/
def Square (shape : Shape) : Prop := ∀ row ∈ shape, row.length = shape.length

/-- The cell `res` holds `v` when the condition `A` holds, and `old` otherwise. -/
def WrittenOr (A : Prop) (res v old : Nat) : Prop :=
  (A → res = v) ∧ (¬ A → res = old)

/-- An engine state with a T piece at `(5, 7)`, an I piece held and hold allowed. -/
def swapState : Game :=
  { Game.new with
    piece := some { Piece.new 6 with x := 5, y := 7 },
    holdPiece := some { Piece.new 1 with x := 3, y := 0 },
    nextPiece := some (Piece.new 4), canHold := true }

/-- A state in which the game is over. -/
def overState : Game := { swapState with gameOver := true }

/-- A state in which the game is paused. -/
def pausedState : Game := { swapState with isPaused := true }

/-- Up to `n` calls `move(p, dx, 0)` in a row, each on the state the one before left. -/
def moveTimes (dx : Int) : Nat → Game → Game
  | 0, s => s
  | n + 1, s =>
    match move s dx 0 with
    | some r => moveTimes dx n r.1
    | none => s

/-- The number of rounds of a horizontal repeat loop entered with the timer at `timer`:
none up to 190, and above 190 one for every 30 begun beyond 190, which is
`ceil((timer - 190) / 30)`. -/
def repeatCount (timer : Int) : Nat :=
  if timer > 190 then ((timer - 161) / 30).toNat else 0

/-- Only the left key. -/
def keysLeft : Keys := pressed true false false false false false

/-- The check of the shift run: a frame with the left key newly pressed moves the piece
one column; a frame 170 ms later with the key still down brings the left timer to 170,
above the delay of 160, and leaves the piece where it is although the column to its
left is free. -/
def shiftCheck (s0 : Game) : Bool :=
  match tick stackRand s0 keysLeft 10 with
  | some s1 =>
    s1.leftTimer == 0 && s1.piece == some { spawnedI with x := 2 } &&
    (match tick stackRand s1 keysLeft 170 with
      | some s2 =>
        s2.leftTimer == 170 && s2.piece == some { spawnedI with x := 2 } &&
          isValid s2.grid { spawnedI with x := 1 }
      | none => false)
  | none => false

/-- The input fields that only `handleInput` itself writes: the two horizontal timers,
the key flags and the key snapshot. -/
def SameInput (s s1 : Game) : Prop :=
  s1.leftTimer = s.leftTimer ∧ s1.rightTimer = s.rightTimer ∧ s1.keys = s.keys ∧
    s1.prevKeys = s.prevKeys

/-- A state in the middle of a left shift: T piece at `(5, 7)`, left key held since an
earlier frame, left timer at 150. -/
def shiftState : Game :=
  { swapState with keys := keysLeft, prevKeys := keysLeft, leftTimer := 150 }

/-- A state with both horizontal keys held: T piece at `(5, 7)`, both timers running. -/
def bothKeysState : Game :=
  { swapState with
    keys := pressed true true false false false false,
    prevKeys := keysLeft, leftTimer := 175, rightTimer := 20 }

/-- The hold key and the clockwise-rotation key. -/
def keysHoldRotate : Keys := pressed false false false true false true

/-- The check of the hold-press run: after one frame with the hold key newly pressed the
key snapshot still shows no key; after three frames with hold and rotateCW held down
all the time the snapshot still shows no key and the active piece, spawned in the first
frame, has been rotated in the second and again in the third. -/
def snapshotCheck (s0 : Game) : Bool :=
  (match handleInput stackRand { s0 with keys := keysHold } 10 with
    | some s1 => s1.keys == keysHold && s1.prevKeys == noKeys
    | none => false) &&
  (match runTicks stackRand s0
      [(keysHoldRotate, 10), (keysHoldRotate, 10), (keysHoldRotate, 10)] with
    | some s3 =>
      s3.keys == keysHoldRotate && s3.prevKeys == noKeys &&
        s3.piece == some { spawnedI with shape := rotateCWShape (rotateCWShape spawnedI.shape) }
    | none => false)

/-- Two states that differ at most in the timers, the gravity counter, the key flags,
the key snapshot and the pause flag. -/
def SameCore (s s1 : Game) : Prop :=
  s1.grid = s.grid ∧ s1.piece = s.piece ∧ s1.nextPiece = s.nextPiece ∧
  s1.holdPiece = s.holdPiece ∧ s1.score = s.score ∧ s1.lines = s.lines ∧
  s1.level = s.level ∧ s1.gameOver = s.gameOver ∧ s1.dropInterval = s.dropInterval ∧
  s1.canHold = s.canHold ∧ s1.draws = s.draws

/-- A property of states that the engine keeps: it does not depend on the timers, the
key flags and the pause flag, and `move`, `rotate`, `holdCurrentPiece` and `drop` keep
it. -/
structure EngineInv (rand : Nat → Fin 7) (P : Game → Prop) : Prop where
  frame : ∀ {s s1 : Game}, SameCore s s1 → P s → P s1
  move : ∀ {s : Game} {dx dy : Int} {r : Game × Bool}, move s dx dy = some r → P s → P r.1
  rotate : ∀ {s s1 : Game} {dir : Int}, rotate s dir = some s1 → P s → P s1
  hold : ∀ {s s1 : Game}, holdCurrentPiece rand s = some s1 → P s → P s1
  drop : ∀ {s s1 : Game}, drop rand s = some s1 → P s → P s1

/-- A well-formed piece: a type id in 1..7 and a square shape of side at most 4. -/
def PieceOk (p : Piece) : Prop :=
  1 ≤ p.typeId ∧ p.typeId ≤ 7 ∧ p.shape.length ≤ 4 ∧ Square p.shape

/-- The non-empty cells of the piece lie in columns 0..9 and in rows below 20, so that
`merge` writes them inside the grid. -/
def PieceInside (p : Piece) : Prop :=
  ∀ y x : Nat, matGet p.shape y x > 0 → 0 ≤ p.x + x ∧ p.x + x < 10 ∧ p.y + y < 20

/-- Every cell of the grid holds a value in 0..7. -/
def CellsOk (grid : Grid) : Prop := ∀ row ∈ grid, ∀ v ∈ row, v ≤ 7

/-- The board invariant: the grid has 20 rows of 10 cells with values in 0..7, the
pieces in the three slots are well formed, and the active piece lies inside the board
columns and above the floor. -/
def BoardInv (s : Game) : Prop :=
  GridOk s.grid ∧ CellsOk s.grid ∧
  (∀ p, s.piece = some p → PieceOk p ∧ PieceInside p) ∧
  (∀ p, s.nextPiece = some p → PieceOk p) ∧
  (∀ p, s.holdPiece = some p → PieceOk p)

/-- The number of non-empty cells of a shape matrix. -/
def cellCount (shape : Shape) : Nat :=
  (shape.map (fun row => row.countP (fun v => v > 0))).sum

/-- No row of the grid is full. -/
def NoFullRow (grid : Grid) : Prop := ∀ row ∈ grid, rowFull row = false

/-- The play invariant: the board invariant, no full row in the grid, the statistics
invariant, a score that is not negative, and an active and a next piece present. -/
def PlayInv (s : Game) : Prop :=
  BoardInv s ∧ NoFullRow s.grid ∧ StatsInv s ∧ 0 ≤ s.score ∧
  (∃ p, s.piece = some p) ∧ (∃ n, s.nextPiece = some n)

/-- A T piece resting on the floor: its cells are in rows 18 and 19, columns 5..7. -/
def floorPiece : Piece := { Piece.new 6 with x := 5, y := 18 }

/-- A state with the T piece resting on the floor of the empty grid and an O piece next. -/
def floorState : Game := { swapState with piece := some floorPiece }

/-! ## Board validity -/

/-- A cell of `v :: vs` is the head or a cell of the tail, one index further. -/
theorem exists_getD_cons {α : Type} (d : α) (v : α) (vs : List α) (P : α → Nat → Prop) (x0 : Nat) :
    (∃ i, P ((v :: vs).getD i d) (x0 + i)) ↔
      (P v x0 ∨ ∃ i, P (vs.getD i d) (x0 + 1 + i)) := by
  constructor
  · rintro ⟨i, h⟩
    cases i with
    | zero => left; simpa using h
    | succ i =>
      right
      refine ⟨i, ?_⟩
      have e : x0 + 1 + i = x0 + (i + 1) := by omega
      rw [e]
      simpa using h
  · rintro (h | ⟨i, h⟩)
    · exact ⟨0, by simpa using h⟩
    · refine ⟨i + 1, ?_⟩
      have e : x0 + (i + 1) = x0 + 1 + i := by omega
      rw [e]
      simpa using h

/-- The inner loop of `isValid` fails exactly when a cell of the row is occupied and bad. -/
theorem isValidRow_false_iff (grid : Grid) (px py : Int) (y : Nat) (row : List Nat) :
    ∀ x0, isValidRow grid px py y x0 row = false ↔
      ∃ i, row.getD i 0 > 0 ∧ CellBad grid px py y (x0 + i) := by
  induction row with
  | nil => intro x0; simp [isValidRow]
  | cons v vs ih =>
    intro x0
    rw [exists_getD_cons 0 v vs (fun c i => c > 0 ∧ CellBad grid px py y i) x0, ← ih (x0 + 1)]
    rw [isValidRow]
    by_cases hv : v > 0
    · by_cases hb : CellBad grid px py y x0
      · have hb2 := hb
        unfold CellBad at hb2
        simp only [hv, if_true]
        rcases hb2 with h | h | h | ⟨h1, h2⟩
        · simp [h, hb]
        · simp [h, hb]
        · simp [h, hb]
        · by_cases hc : (px + ↑x0 < 0 ∨ px + ↑x0 ≥ 10 ∨ py + ↑y ≥ 20)
          · rcases hc with h | h | h <;> simp [h, hb]
          · push_neg at hc
            obtain ⟨c1, c2, c3⟩ := hc
            simp [h1, h2, hb, c1, c2, c3]
      · have hb2 := hb
        unfold CellBad at hb2
        push_neg at hb2
        obtain ⟨c1, c2, c3, c4⟩ := hb2
        simp only [hv, if_true]
        have e1 : (decide (px + ↑x0 < 0) || decide (px + ↑x0 ≥ 10) || decide (py + ↑y ≥ 20)) = false := by
          simp; omega
        have e2 : (decide (py + ↑y ≥ 0) && decide (cellAt grid (py + ↑y) (px + ↑x0) > 0)) = false := by
          simp; intro h; have := c4 h; omega
        simp [e1, e2, hb]
    · simp [hv]

/-- The outer loop of `isValid` fails exactly when a cell of the shape is occupied and bad. -/
theorem isValidRows_false_iff (grid : Grid) (px py : Int) (rows : List (List Nat)) :
    ∀ y0, isValidRows grid px py y0 rows = false ↔
      ∃ j i, (rows.getD j []).getD i 0 > 0 ∧ CellBad grid px py (y0 + j) i := by
  induction rows with
  | nil => intro y0; simp [isValidRows]
  | cons row rows ih =>
    intro y0
    rw [exists_getD_cons [] row rows
      (fun r j => ∃ i, r.getD i 0 > 0 ∧ CellBad grid px py j i) y0, ← ih (y0 + 1)]
    rw [isValidRows, Bool.and_eq_false_iff, isValidRow_false_iff]
    simp

/-- On a grid of 20 rows of 10 cells a read at a row in 0..19 and a column in 0..9 is
a read of an element of the grid. -/
theorem cellAt_inside (grid : Grid) (hg : GridOk grid) (r c : Int)
    (hr0 : 0 ≤ r) (hr : r < 20) (hc0 : 0 ≤ c) (hc : c < 10) :
    (grid[r.toNat]?).bind (fun row => row[c.toNat]?) = some (cellAt grid r c) := by
  have hlen : r.toNat < grid.length := by rw [hg.1]; omega
  have hrow : (grid[r.toNat]).length = 10 := hg.2 _ (List.getElem_mem hlen)
  have hcl : c.toNat < (grid[r.toNat]).length := by rw [hrow]; omega
  simp [cellAt, matGet, List.getD_eq_getElem?_getD, List.getElem?_eq_getElem hlen,
    List.getElem?_eq_getElem hcl]

/-- C1. On a grid of 20 rows of 10 cells, `isValid(p)` is false exactly when some
non-empty shape cell `(x, y)` of `p` has its column `p.x + x` outside 0..9, or its row
`p.y + y` at 20 or more, or its row at 0 or more and the grid cell there non-empty.
Hence when every non-empty shape cell lies above the board (row below 0), `isValid(p)`
is true exactly when every such cell has its column in 0..9. The grid reads that
`isValid` makes (row in 0..19, column in 0..9) are reads of elements of the grid. -/
theorem isValid_false_iff (grid : Grid) (p : Piece) (hg : GridOk grid) :
    (isValid grid p = false ↔
      ∃ y x, matGet p.shape y x > 0 ∧
        (p.x + x < 0 ∨ p.x + x ≥ 10 ∨ p.y + y ≥ 20 ∨
          (p.y + y ≥ 0 ∧ cellAt grid (p.y + y) (p.x + x) > 0))) ∧
    ((∀ y x, matGet p.shape y x > 0 → p.y + y < 0) →
      (isValid grid p = true ↔
        ∀ y x, matGet p.shape y x > 0 → 0 ≤ p.x + x ∧ p.x + x < 10)) ∧
    (∀ r c : Int, 0 ≤ r → r < 20 → 0 ≤ c → c < 10 →
      (grid[r.toNat]?).bind (fun row => row[c.toNat]?) = some (cellAt grid r c)) := by
  have main : isValid grid p = false ↔
      ∃ y x, matGet p.shape y x > 0 ∧ CellBad grid p.x p.y y x := by
    unfold isValid
    rw [isValidRows_false_iff]
    simp [matGet]
  refine ⟨main, ?_, cellAt_inside grid hg⟩
  intro habove
  rw [← Bool.not_eq_false, main]
  constructor
  · intro h y x hc
    by_contra hcon
    apply h
    refine ⟨y, x, hc, ?_⟩
    unfold CellBad
    omega
  · rintro h ⟨y, x, hc, hb⟩
    have h1 := h y x hc
    have h2 := habove y x hc
    unfold CellBad at hb
    omega

/-- Witness of C1: the upright I piece in column 0 of the empty grid. -/
theorem isValid_false_iff_witness :
    GridOk getEmptyGrid ∧
    ((isValid getEmptyGrid uprightI = false ↔
      ∃ y x, matGet uprightI.shape y x > 0 ∧
        (uprightI.x + x < 0 ∨ uprightI.x + x ≥ 10 ∨ uprightI.y + y ≥ 20 ∨
          (uprightI.y + y ≥ 0 ∧ cellAt getEmptyGrid (uprightI.y + y) (uprightI.x + x) > 0))) ∧
    ((∀ y x, matGet uprightI.shape y x > 0 → uprightI.y + y < 0) →
      (isValid getEmptyGrid uprightI = true ↔
        ∀ y x, matGet uprightI.shape y x > 0 → 0 ≤ uprightI.x + x ∧ uprightI.x + x < 10)) ∧
    (∀ r c : Int, 0 ≤ r → r < 20 → 0 ≤ c → c < 10 →
      (getEmptyGrid[r.toNat]?).bind (fun row => row[c.toNat]?) =
        some (cellAt getEmptyGrid r c))) :=
  ⟨by decide, isValid_false_iff getEmptyGrid uprightI (by decide)⟩

/-! ## Line clearing -/

/-- The filter test `row.some(value => value === 0)` is the negation of fullness. -/
theorem any_zero_eq_not_rowFull (row : List Nat) :
    row.any (fun value => value == 0) = !rowFull row := by
  induction row with
  | nil => rfl
  | cons v vs ih =>
    simp only [List.any_cons, rowFull, List.all_cons, Bool.not_and] at *
    rw [ih]
    cases h : (v == 0) <;> simp [bne, h]

/-- The unshift loop prepends `n` empty rows. -/
theorem unshiftEmpty_eq (n : Nat) : ∀ grid : Grid,
    unshiftEmpty n grid = List.replicate n emptyRow ++ grid := by
  induction n with
  | zero => intro grid; rfl
  | succ n ih =>
    intro grid
    rw [unshiftEmpty, ih, List.replicate_succ']
    simp

/-- The grid left by `clearLines`, for any grid. -/
theorem clearLines_grid (grid : Grid) :
    (clearLines grid).1 =
      List.replicate (20 - (grid.filter (fun row => !rowFull row)).length) emptyRow ++
        grid.filter (fun row => !rowFull row) := by
  have e : (fun row : List Nat => row.any (fun value => value == 0)) =
      (fun row => !rowFull row) := funext any_zero_eq_not_rowFull
  unfold clearLines
  simp only [e, unshiftEmpty_eq]
  congr 2
  omega

/-- The count returned by `clearLines`, for any grid. -/
theorem clearLines_count (grid : Grid) :
    (clearLines grid).2 = 20 - ((grid.filter (fun row => !rowFull row)).length : Int) := by
  have e : (fun row : List Nat => row.any (fun value => value == 0)) =
      (fun row => !rowFull row) := funext any_zero_eq_not_rowFull
  unfold clearLines
  simp only [e]

/-- The rows of a grid are the non-full rows and the full rows. -/
theorem filter_notFull_length (grid : Grid) :
    (grid.filter (fun row => !rowFull row)).length + grid.countP rowFull = grid.length := by
  induction grid with
  | nil => rfl
  | cons r rs ih =>
    cases h : rowFull r <;> simp [List.filter_cons, List.countP_cons, h] <;> omega


/-- On 20 rows of 10 cells `clearLines` returns the number of full rows and leaves that
many empty rows followed by the non-full rows, again 20 rows of 10 cells. -/
theorem clearLines_spec (grid : Grid) (hg : GridOk grid) :
    (clearLines grid).2 = (grid.countP rowFull : Int) ∧
    (clearLines grid).1 =
      List.replicate (grid.countP rowFull) emptyRow ++ grid.filter (fun row => !rowFull row) ∧
    GridOk (clearLines grid).1 := by
  have hlen := filter_notFull_length grid
  have h20 : grid.length = 20 := hg.1
  have hk : 20 - (grid.filter (fun row => !rowFull row)).length = grid.countP rowFull := by omega
  refine ⟨?_, ?_, ?_, ?_⟩
  · rw [clearLines_count]; omega
  · rw [clearLines_grid, hk]
  · rw [clearLines_grid, hk]; simp; omega
  · rw [clearLines_grid]
    intro row hrow
    rcases List.mem_append.1 hrow with h | h
    · rw [List.eq_of_mem_replicate h]; rfl
    · exact hg.2 row (List.mem_filter.1 h).1

/-- When only the last of 20 rows is full, the non-full rows are the first 19 rows. -/
theorem filter_notFull_of_last (grid : Grid) (hg : grid.length = 20)
    (hfull : rowFull (grid.getD 19 []) = true)
    (hrest : ∀ i, i < 19 → rowFull (grid.getD i []) = false) :
    grid.filter (fun row => !rowFull row) = grid.take 19 := by
  have hsplit : grid = grid.take 19 ++ [grid.getD 19 []] := by
    apply List.ext_getElem
    · simp; omega
    · intro i h1 h2
      by_cases hi : i < 19
      · rw [List.getElem_append_left (by simp; omega)]
        simp
      · have : i = 19 := by omega
        subst this
        rw [List.getElem_append_right (by simp)]
        simp [List.getD_eq_getElem?_getD, h1]
  have hkeep : ∀ row ∈ grid.take 19, (fun row => !rowFull row) row = true := by
    intro row hrow
    obtain ⟨i, hi, rfl⟩ := List.getElem_of_mem hrow
    have hi19 : i < 19 := by simp at hi; omega
    have := hrest i hi19
    simp only [List.getElem_take]
    rw [List.getD_eq_getElem?_getD, List.getElem?_eq_getElem (by omega)] at this
    simpa using this
  conv_lhs => rw [hsplit]
  rw [List.filter_append, List.filter_eq_self.2 hkeep]
  rw [List.getD_eq_getElem?_getD] at hfull
  simp [hfull]

/-- C2. On a grid of 20 rows of 10 cells `clearLines` returns `k`, the number of full
rows, the new grid is `k` all-zero rows followed by the non-full rows of the old grid in
their order, and it again has 20 rows of 10 cells; when only row 19 is full it returns 1,
the new grid is an empty row followed by old rows 0..18, so old row 18 is the new row 19
and row 0 is empty. -/
theorem clearLines_full_rows (grid : Grid) (hg : GridOk grid) :
    (clearLines grid).2 = (grid.countP rowFull : Int) ∧
    (clearLines grid).1 =
      List.replicate (grid.countP rowFull) (List.replicate 10 0) ++
        grid.filter (fun row => !rowFull row) ∧
    GridOk (clearLines grid).1 ∧
    ((rowFull (grid.getD 19 []) = true ∧ ∀ i, i < 19 → rowFull (grid.getD i []) = false) →
      (clearLines grid).2 = 1 ∧
      (clearLines grid).1 = List.replicate 10 0 :: grid.take 19 ∧
      (clearLines grid).1.getD 19 [] = grid.getD 18 [] ∧
      (clearLines grid).1.getD 0 [] = List.replicate 10 0) := by
  obtain ⟨h1, h2, h3⟩ := clearLines_spec grid hg
  refine ⟨h1, h2, h3, ?_⟩
  rintro ⟨hfull, hrest⟩
  have hf := filter_notFull_of_last grid hg.1 hfull hrest
  have hlen := filter_notFull_length grid
  have h20 : grid.length = 20 := hg.1
  have hk : grid.countP rowFull = 1 := by
    rw [hf] at hlen
    simp at hlen
    omega
  have hgrid : (clearLines grid).1 = List.replicate 10 0 :: grid.take 19 := by
    rw [h2, hk, hf]; rfl
  refine ⟨by rw [h1, hk]; rfl, hgrid, ?_, ?_⟩
  · rw [hgrid]
    simp [List.getD_eq_getElem?_getD, List.getElem?_take]
  · rw [hgrid]; rfl

/-- Witness of C2: a grid whose only full row is row 19. -/
theorem clearLines_full_rows_witness :
    GridOk lastRowFullGrid ∧
    ((clearLines lastRowFullGrid).2 = (lastRowFullGrid.countP rowFull : Int) ∧
    (clearLines lastRowFullGrid).1 =
      List.replicate (lastRowFullGrid.countP rowFull) (List.replicate 10 0) ++
        lastRowFullGrid.filter (fun row => !rowFull row) ∧
    GridOk (clearLines lastRowFullGrid).1 ∧
    ((rowFull (lastRowFullGrid.getD 19 []) = true ∧
        ∀ i, i < 19 → rowFull (lastRowFullGrid.getD i []) = false) →
      (clearLines lastRowFullGrid).2 = 1 ∧
      (clearLines lastRowFullGrid).1 = List.replicate 10 0 :: lastRowFullGrid.take 19 ∧
      (clearLines lastRowFullGrid).1.getD 19 [] = lastRowFullGrid.getD 18 [] ∧
      (clearLines lastRowFullGrid).1.getD 0 [] = List.replicate 10 0)) :=
  ⟨by decide, clearLines_full_rows lastRowFullGrid (by decide)⟩

/-! ## Move and rotate -/

/-- The rotation statement changes the shape only. -/
theorem rotateDir_fields (p : Piece) (dir : Int) :
    (rotateDir p dir).x = p.x ∧ (rotateDir p dir).y = p.y ∧
    (rotateDir p dir).typeId = p.typeId ∧
    (rotateDir p dir).shape = if dir > 0 then rotateCWShape p.shape else rotateCCWShape p.shape := by
  unfold rotateDir
  split <;> simp [Piece.rotateCW, Piece.rotateCCW]

/-- Shifting a piece and rotating it commute. -/
theorem rotateDir_withX (p : Piece) (dir k : Int) :
    rotateDir { p with x := p.x + k } dir = { rotateDir p dir with x := p.x + k } := by
  unfold rotateDir
  split <;> simp [Piece.rotateCW, Piece.rotateCCW]

/-- The wall-kick loop commits the first offset of the list at which the rotated piece
is valid, and leaves the piece as it was when there is none. -/
theorem rotateKicks_eq (grid : Grid) (p : Piece) (dir : Int) (ks : List Int) :
    rotateKicks grid p (rotateDir p dir) dir ks =
      match ks.find? (fun k => isValid grid { rotateDir p dir with x := p.x + k }) with
      | some k => { rotateDir p dir with x := p.x + k }
      | none => p := by
  have hx := (rotateDir_fields p dir).1
  induction ks with
  | nil => rfl
  | cons k ks ih =>
    rw [rotateKicks]
    simp only [hx]
    by_cases hv : isValid grid { rotateDir p dir with x := p.x + k } = true
    · simp [hv, List.find?_cons, rotateDir_withX]
    · have hback : ({ rotateDir p dir with x := p.x + k - k } : Piece) = rotateDir p dir := by
        have : p.x + k - k = (rotateDir p dir).x := by rw [hx]; omega
        rw [this]
      simp only [hv, List.find?_cons]
      simp only [Bool.false_eq_true, if_false]
      rw [hback]
      exact ih

/-- C4. `rotate(p, dir)` on the active piece `p`, with `r` the piece `p` carrying the
rotated shape (clockwise when `dir > 0`, counter-clockwise otherwise): if `r` is valid in
place, `p` becomes `r` (x unchanged); otherwise, for the first `k` of `[-1, 1, -2, 2]` with
`r` valid at `(p.x + k, p.y)`, `p` becomes `r` at x `p.x + k`; if there is no such `k`, `p`
is unchanged. Nothing but the active piece changes, and its y never changes. -/
theorem rotate_spec (s : Game) (p : Piece) (dir : Int) (hp : s.piece = some p) :
    let r : Piece :=
      { p with shape := if dir > 0 then rotateCWShape p.shape else rotateCCWShape p.shape }
    let firstKick : Option Int :=
      ([-1, 1, -2, 2] : List Int).find? (fun k => isValid s.grid { r with x := p.x + k })
    ∃ q, rotate s dir = some { s with piece := some q } ∧
      (isValid s.grid r = true → q = r) ∧
      (isValid s.grid r = false → ∀ k, firstKick = some k → q = { r with x := p.x + k }) ∧
      (isValid s.grid r = false → firstKick = none → q = p) ∧
      q.y = p.y := by
  intro r firstKick
  have hr : rotateDir p dir = r := by
    by_cases hd : dir > 0 <;> simp [rotateDir, hd, r, Piece.rotateCW, Piece.rotateCCW]
  have hk : rotateKicks s.grid p r dir kicks =
      match firstKick with
      | some k => { r with x := p.x + k }
      | none => p := by
    have := rotateKicks_eq s.grid p dir kicks
    rw [hr] at this
    exact this
  by_cases hv : isValid s.grid r = true
  · refine ⟨r, ?_, fun _ => rfl, ?_, ?_, rfl⟩
    · simp [rotate, hp, Piece.clone, hr, hv]
    · intro h; rw [h] at hv; exact absurd hv (by decide)
    · intro h; rw [h] at hv; exact absurd hv (by decide)
  · refine ⟨rotateKicks s.grid p r dir kicks, ?_, fun h => absurd h hv, ?_, ?_, ?_⟩
    · simp [rotate, hp, Piece.clone, hr, hv]
    · intro _ k hfk
      rw [hk, hfk]
    · intro _ hfk
      rw [hk, hfk]
    · rw [hk]
      cases firstKick <;> rfl

/-- Witness of C4: an upright I piece in column 0 rotated clockwise is kicked by +2. -/
theorem rotate_spec_witness :
    wallState.piece = some uprightI ∧
    (let r : Piece :=
      { uprightI with
        shape := if (1 : Int) > 0 then rotateCWShape uprightI.shape
          else rotateCCWShape uprightI.shape }
    let firstKick : Option Int :=
      ([-1, 1, -2, 2] : List Int).find?
        (fun k => isValid wallState.grid { r with x := uprightI.x + k })
    ∃ q, rotate wallState 1 = some { wallState with piece := some q } ∧
      (isValid wallState.grid r = true → q = r) ∧
      (isValid wallState.grid r = false →
        ∀ k, firstKick = some k → q = { r with x := uprightI.x + k }) ∧
      (isValid wallState.grid r = false → firstKick = none → q = uprightI) ∧
      q.y = uprightI.y) :=
  ⟨rfl, rotate_spec wallState uprightI 1 rfl⟩

/-- C5. `move(p, dx, dy)` on the active piece `p` returns true exactly when `p` is valid
at `(x + dx, y + dy)`; it then leaves `p` there, and otherwise returns false and leaves
`p` exactly where it was. The shape of `p`, the grid and every other part of the state
are unchanged in both cases. -/
theorem move_spec (s : Game) (p : Piece) (dx dy : Int) (hp : s.piece = some p) :
    ∃ s1 b, move s dx dy = some (s1, b) ∧
      (b = true ↔ isValid s.grid { p with x := p.x + dx, y := p.y + dy } = true) ∧
      (b = true → s1.piece = some { p with x := p.x + dx, y := p.y + dy }) ∧
      (b = false → s1.piece = some p) ∧
      (∀ q, s1.piece = some q → q.shape = p.shape ∧ q.typeId = p.typeId) ∧
      s1.grid = s.grid ∧
      s1 = { s with piece := s1.piece } := by
  by_cases hv : isValid s.grid { p with x := p.x + dx, y := p.y + dy } = true
  · refine ⟨{ s with piece := some { p with x := p.x + dx, y := p.y + dy } }, true, ?_⟩
    simp [move, hp, hv]
  · refine ⟨s, false, ?_⟩
    simp [move, hp, hv]
    cases s
    simp_all


/-- Witness of C5: the upright I piece in column 0 cannot move left. -/
theorem move_spec_witness :
    wallState.piece = some uprightI ∧
    ∃ s1 b, move wallState (-1) 0 = some (s1, b) ∧
      (b = true ↔
        isValid wallState.grid { uprightI with x := uprightI.x + (-1), y := uprightI.y + 0 }
          = true) ∧
      (b = true →
        s1.piece = some { uprightI with x := uprightI.x + (-1), y := uprightI.y + 0 }) ∧
      (b = false → s1.piece = some uprightI) ∧
      (∀ q, s1.piece = some q → q.shape = uprightI.shape ∧ q.typeId = uprightI.typeId) ∧
      s1.grid = wallState.grid ∧
      s1 = { wallState with piece := s1.piece } :=
  ⟨rfl, move_spec wallState uprightI (-1) 0 rfl⟩

/-! ## The repeat loops end by their own test -/

/-- `move` leaves the three timers alone. -/
theorem move_timers {s : Game} {dx dy : Int} {r : Game × Bool} (h : move s dx dy = some r) :
    r.1.leftTimer = s.leftTimer ∧ r.1.rightTimer = s.rightTimer ∧
      r.1.downTimer = s.downTimer := by
  unfold move at h
  cases hp : s.piece with
  | none => simp [hp] at h
  | some p =>
    simp only [hp] at h
    split at h <;> simp at h <;> subst h <;> exact ⟨rfl, rfl, rfl⟩

/-- `spawnPiece` leaves the soft-drop timer alone. -/
theorem spawnPiece_downTimer {rand : Nat → Fin 7} {s s1 : Game}
    (h : spawnPiece rand s = some s1) : s1.downTimer = s.downTimer := by
  unfold spawnPiece at h
  cases hp : s.nextPiece with
  | none => simp [hp] at h
  | some p =>
    simp only [hp] at h
    split at h <;> simp at h <;> subst h <;> rfl

/-- `updateStats` leaves the soft-drop timer alone. -/
theorem updateStats_downTimer {s s1 : Game} {n : Int} (h : updateStats s n = some s1) :
    s1.downTimer = s.downTimer := by
  unfold updateStats at h
  split at h
  · simp at h
  · simp at h; subst h; rfl

/-- `lock` leaves the soft-drop timer alone. -/
theorem lock_downTimer {rand : Nat → Fin 7} {s s1 : Game} (h : lock rand s = some s1) :
    s1.downTimer = s.downTimer := by
  unfold lock at h
  cases hp : s.piece with
  | none => simp [hp] at h
  | some p =>
    simp only [hp] at h
    split at h
    · simp at h
    · rename_i s2 hs2
      rw [spawnPiece_downTimer h]
      split at hs2
      · rw [updateStats_downTimer hs2]
      · simp at hs2; subst hs2; rfl

/-- `drop` leaves the soft-drop timer alone. -/
theorem drop_downTimer {rand : Nat → Fin 7} {s s1 : Game} (h : drop rand s = some s1) :
    s1.downTimer = s.downTimer := by
  unfold drop at h
  cases hp : s.piece with
  | none => simp [hp] at h
  | some p =>
    simp only [hp] at h
    split at h
    · split at h
      · simp at h
      · rename_i s2 hs2
        simp at h; subst h
        have := lock_downTimer hs2
        simpa using this
    · simp at h; subst h; rfl

/-- Once the fuel of the left repeat loop reaches the timer, more fuel changes nothing:
the loop ends by its own test. -/
theorem leftRepeat_fuel (fuel : Nat) : ∀ s : Game, s.leftTimer ≤ fuel →
    leftRepeat (fuel + 1) s = leftRepeat fuel s := by
  induction fuel with
  | zero =>
    intro s hs
    have hn : ¬ s.leftTimer > dasDelay + arrDelay := by unfold dasDelay arrDelay; omega
    simp [leftRepeat, hn]
  | succ fuel ih =>
    intro s hs
    rw [leftRepeat, leftRepeat.eq_def (fuel + 1)]
    by_cases hc : s.leftTimer > dasDelay + arrDelay
    · simp only [hc, if_true]
      cases hm : move s (-1) 0 with
      | none => rfl
      | some r =>
        simp only []
        apply ih
        have := (move_timers hm).1
        simp only [this]
        unfold arrDelay
        push_cast at hs
        omega
    · simp only [hc, if_false]

/-- Once the fuel of the right repeat loop reaches the timer, more fuel changes nothing:
the loop ends by its own test. -/
theorem rightRepeat_fuel (fuel : Nat) : ∀ s : Game, s.rightTimer ≤ fuel →
    rightRepeat (fuel + 1) s = rightRepeat fuel s := by
  induction fuel with
  | zero =>
    intro s hs
    have hn : ¬ s.rightTimer > dasDelay + arrDelay := by unfold dasDelay arrDelay; omega
    simp [rightRepeat, hn]
  | succ fuel ih =>
    intro s hs
    rw [rightRepeat, rightRepeat.eq_def (fuel + 1)]
    by_cases hc : s.rightTimer > dasDelay + arrDelay
    · simp only [hc, if_true]
      cases hm : move s 1 0 with
      | none => rfl
      | some r =>
        simp only []
        apply ih
        have := (move_timers hm).2.1
        simp only [this]
        unfold arrDelay
        push_cast at hs
        omega
    · simp only [hc, if_false]

/-- Once the fuel of the soft-drop repeat loop reaches the timer, more fuel changes
nothing: the loop ends by its own test. -/
theorem downRepeat_fuel (rand : Nat → Fin 7) (fuel : Nat) : ∀ s : Game, s.downTimer ≤ fuel →
    downRepeat rand (fuel + 1) s = downRepeat rand fuel s := by
  induction fuel with
  | zero =>
    intro s hs
    have hn : ¬ s.downTimer > downInterval := by unfold downInterval; omega
    simp [downRepeat, hn]
  | succ fuel ih =>
    intro s hs
    rw [downRepeat, downRepeat.eq_def rand (fuel + 1)]
    by_cases hc : s.downTimer > downInterval
    · simp only [hc, if_true]
      cases hm : drop rand s with
      | none => rfl
      | some s1 =>
        simp only []
        apply ih
        have := drop_downTimer hm
        simp only [this]
        unfold downInterval
        push_cast at hs
        omega
    · simp only [hc, if_false]

/-! ## Scoring, spawn and hold -/

/-- C6. For `n` in 1..4, `updateStats(n)` adds `basePoints[n]` times the level held
before the call to the score, with `basePoints = [0, 100, 300, 500, 800]`: at level 1 one
line adds 100, at level 3 four lines add 2400. -/
theorem updateStats_score (s : Game) (n : Int) (h1 : 1 ≤ n) (h4 : n ≤ 4) :
    ∃ s1, updateStats s n = some s1 ∧
      s1.score = s.score + ([0, 100, 300, 500, 800] : List Int).getD n.toNat 0 * s.level ∧
      (n = 1 → s.level = 1 → s1.score = s.score + 100) ∧
      (n = 4 → s.level = 3 → s1.score = s.score + 2400) := by
  have hn : n = 1 ∨ n = 2 ∨ n = 3 ∨ n = 4 := by omega
  rcases hn with h | h | h | h <;> subst h <;>
    exact ⟨_, by simp [updateStats, points]; rfl, by simp, by intros; simp_all, by intros; simp_all⟩

/-- Witness of C6: four lines at level 3. -/
theorem updateStats_score_witness :
    (1 : Int) ≤ 4 ∧ (4 : Int) ≤ 4 ∧
    ∃ s1, updateStats { Game.new with level := 3 } 4 = some s1 ∧
      s1.score = ({ Game.new with level := 3 } : Game).score +
        ([0, 100, 300, 500, 800] : List Int).getD (4 : Int).toNat 0 *
          ({ Game.new with level := 3 } : Game).level ∧
      ((4 : Int) = 1 → ({ Game.new with level := 3 } : Game).level = 1 →
        s1.score = ({ Game.new with level := 3 } : Game).score + 100) ∧
      ((4 : Int) = 4 → ({ Game.new with level := 3 } : Game).level = 3 →
        s1.score = ({ Game.new with level := 3 } : Game).score + 2400) :=
  ⟨by decide, by decide, updateStats_score { Game.new with level := 3 } 4 (by decide) (by decide)⟩

/-- C9. With a next piece `np`, `spawnPiece` makes `np` the active piece at `(3, 0)` with
its shape unchanged, installs as next piece a fresh piece `new Piece(typeId)` with
`typeId` in 1..7, sets `canHold`, sets `gameOver` when the new active piece fails
`isValid` and leaves `gameOver` as it was otherwise; the grid, the score, `lines` and
the level are unchanged. -/
theorem spawnPiece_spec (rand : Nat → Fin 7) (s : Game) (np : Piece) (hn : s.nextPiece = some np) :
    ∃ s1 nx, spawnPiece rand s = some s1 ∧
      s1.piece = some { np with x := 3, y := 0 } ∧
      s1.nextPiece = some nx ∧ nx = createPiece rand s.draws ∧ nx = Piece.new nx.typeId ∧ 1 ≤ nx.typeId ∧ nx.typeId ≤ 7 ∧
      s1.canHold = true ∧
      (isValid s.grid { np with x := 3, y := 0 } = false → s1.gameOver = true) ∧
      (isValid s.grid { np with x := 3, y := 0 } = true → s1.gameOver = s.gameOver) ∧
      s1.grid = s.grid ∧ s1.score = s.score ∧ s1.lines = s.lines ∧ s1.level = s.level := by
  have hr : (rand s.draws).val < 7 := (rand s.draws).isLt
  by_cases hv : isValid s.grid { np with x := 3, y := 0 } = true
  · refine ⟨_, createPiece rand s.draws, by simp only [spawnPiece, hn, hv]; rfl, ?_⟩
    simp [createPiece, Piece.new, hv]
    omega
  · have hf : isValid s.grid { np with x := 3, y := 0 } = false := by simpa using hv
    refine ⟨_, createPiece rand s.draws, by simp only [spawnPiece, hn, hf]; rfl, ?_⟩
    simp [createPiece, Piece.new, hf]
    omega

/-- Witness of C9: an I piece waiting as next piece on the empty grid. -/
theorem spawnPiece_spec_witness :
    nextState.nextPiece = some (Piece.new 1) ∧
    ∃ s1 nx, spawnPiece stackRand nextState = some s1 ∧
      s1.piece = some { Piece.new 1 with x := 3, y := 0 } ∧
      s1.nextPiece = some nx ∧ nx = createPiece stackRand nextState.draws ∧
      nx = Piece.new nx.typeId ∧ 1 ≤ nx.typeId ∧ nx.typeId ≤ 7 ∧
      s1.canHold = true ∧
      (isValid nextState.grid { Piece.new 1 with x := 3, y := 0 } = false →
        s1.gameOver = true) ∧
      (isValid nextState.grid { Piece.new 1 with x := 3, y := 0 } = true →
        s1.gameOver = nextState.gameOver) ∧
      s1.grid = nextState.grid ∧ s1.score = nextState.score ∧
      s1.lines = nextState.lines ∧ s1.level = nextState.level :=
  ⟨rfl, spawnPiece_spec stackRand nextState (Piece.new 1) rfl⟩

/-- C10. With `canHold` false, `holdCurrentPiece` returns the state it was given: the
active, held and next pieces, the grid, `canHold`, `gameOver` and all the rest are as
before. -/
theorem hold_noop (rand : Nat → Fin 7) (s : Game) (hc : s.canHold = false) :
    holdCurrentPiece rand s = some s := by
  simp [holdCurrentPiece, hc]

/-- Witness of C10: a state in which a hold was already made. -/
theorem hold_noop_witness :
    heldState.canHold = false ∧ holdCurrentPiece stackRand heldState = some heldState :=
  ⟨rfl, hold_noop stackRand heldState rfl⟩

/-! ## The statistics invariant -/

/-- `StatsStep` is reflexive. -/
theorem statsStep_refl (s : Game) : StatsStep s s := fun h => ⟨h, le_refl _⟩

/-- `StatsStep` is transitive. -/
theorem statsStep_trans {s s1 s2 : Game} (h1 : StatsStep s s1) (h2 : StatsStep s1 s2) :
    StatsStep s s2 := fun h =>
  ⟨(h2 (h1 h).1).1, le_trans (h1 h).2 (h2 (h1 h).1).2⟩

/-- A step that leaves `lines`, the level and the drop interval alone is a `StatsStep`. -/
theorem statsStep_of_same {s s1 : Game} (h1 : s1.lines = s.lines) (h2 : s1.level = s.level)
    (h3 : s1.dropInterval = s.dropInterval) : StatsStep s s1 := by
  intro h
  unfold StatsInv at *
  rw [h1, h2, h3]
  exact ⟨h, le_refl _⟩

/-- `move` leaves the statistics alone. -/
theorem move_stats {s s1 : Game} {dx dy : Int} {b : Bool} (h : move s dx dy = some (s1, b)) :
    StatsStep s s1 := by
  unfold move at h
  cases hp : s.piece with
  | none => simp [hp] at h
  | some p =>
    simp only [hp] at h
    split at h <;> simp at h <;> obtain ⟨rfl, _⟩ := h <;> exact statsStep_of_same rfl rfl rfl

/-- `rotate` leaves the statistics alone. -/
theorem rotate_stats {s s1 : Game} {dir : Int} (h : rotate s dir = some s1) :
    StatsStep s s1 := by
  unfold rotate at h
  cases hp : s.piece with
  | none => simp [hp] at h
  | some p =>
    simp only [hp] at h
    split at h <;> simp at h <;> subst h <;> exact statsStep_of_same rfl rfl rfl

/-- `spawnPiece` leaves the statistics alone. -/
theorem spawnPiece_stats {rand : Nat → Fin 7} {s s1 : Game} (h : spawnPiece rand s = some s1) :
    StatsStep s s1 := by
  unfold spawnPiece at h
  cases hp : s.nextPiece with
  | none => simp [hp] at h
  | some p =>
    simp only [hp] at h
    split at h <;> simp at h <;> subst h <;> exact statsStep_of_same rfl rfl rfl

/-- What `updateStats(n)` leaves in `lines`, the level and the drop interval. -/
theorem updateStats_stats {s s1 : Game} {n : Int} (h : updateStats s n = some s1) :
    s1.lines = s.lines + n ∧ s1.level = s1.lines / 10 + 1 ∧
      s1.dropInterval = max 100 (1000 - (s1.level - 1) * 100) := by
  unfold updateStats at h
  split at h
  · simp at h
  · simp at h
    subst h
    simp

/-- `updateStats(n)` with `n > 0` is a `StatsStep`. -/
theorem updateStats_step {s s1 : Game} {n : Int} (hn : 0 < n) (h : updateStats s n = some s1) :
    StatsStep s s1 := by
  obtain ⟨h1, h2, h3⟩ := updateStats_stats h
  intro hi
  unfold StatsInv at *
  refine ⟨⟨by omega, h2, h3⟩, by omega⟩

/-- `lock` is a `StatsStep`. -/
theorem lock_stats {rand : Nat → Fin 7} {s s1 : Game} (h : lock rand s = some s1) :
    StatsStep s s1 := by
  unfold lock at h
  cases hp : s.piece with
  | none => simp [hp] at h
  | some p =>
    simp only [hp] at h
    split at h
    · simp at h
    · rename_i s2 hs2
      have h12 : StatsStep s s2 := by
        split at hs2
        · rename_i hpos
          refine statsStep_trans ?_ (updateStats_step hpos hs2)
          exact statsStep_of_same rfl rfl rfl
        · simp at hs2; subst hs2; exact statsStep_of_same rfl rfl rfl
      exact statsStep_trans h12 (spawnPiece_stats h)

/-- `drop` is a `StatsStep`. -/
theorem drop_stats {rand : Nat → Fin 7} {s s1 : Game} (h : drop rand s = some s1) :
    StatsStep s s1 := by
  unfold drop at h
  cases hp : s.piece with
  | none => simp [hp] at h
  | some p =>
    simp only [hp] at h
    split at h
    · split at h
      · simp at h
      · rename_i s2 hs2
        simp at h; subst h
        refine statsStep_trans (statsStep_trans ?_ (lock_stats hs2)) ?_
        · exact statsStep_of_same rfl rfl rfl
        · exact statsStep_of_same rfl rfl rfl
    · simp at h; subst h; exact statsStep_of_same rfl rfl rfl

/-- The left repeat loop is a `StatsStep`. -/
theorem leftRepeat_stats (fuel : Nat) : ∀ {s s1 : Game}, leftRepeat fuel s = some s1 →
    StatsStep s s1 := by
  induction fuel with
  | zero =>
    intro s s1 h
    unfold leftRepeat at h
    split at h <;> simp at h
    subst h; exact statsStep_refl _
  | succ fuel ih =>
    intro s s1 h
    unfold leftRepeat at h
    split at h
    · split at h
      · simp at h
      · rename_i r hr
        refine statsStep_trans (move_stats (b := r.2) hr) (statsStep_trans ?_ (ih h))
        exact statsStep_of_same rfl rfl rfl
    · simp at h; subst h; exact statsStep_refl _

/-- The right repeat loop is a `StatsStep`. -/
theorem rightRepeat_stats (fuel : Nat) : ∀ {s s1 : Game}, rightRepeat fuel s = some s1 →
    StatsStep s s1 := by
  induction fuel with
  | zero =>
    intro s s1 h
    unfold rightRepeat at h
    split at h <;> simp at h
    subst h; exact statsStep_refl _
  | succ fuel ih =>
    intro s s1 h
    unfold rightRepeat at h
    split at h
    · split at h
      · simp at h
      · rename_i r hr
        refine statsStep_trans (move_stats (b := r.2) hr) (statsStep_trans ?_ (ih h))
        exact statsStep_of_same rfl rfl rfl
    · simp at h; subst h; exact statsStep_refl _

/-- The soft-drop repeat loop is a `StatsStep`. -/
theorem downRepeat_stats (rand : Nat → Fin 7) (fuel : Nat) :
    ∀ {s s1 : Game}, downRepeat rand fuel s = some s1 → StatsStep s s1 := by
  induction fuel with
  | zero =>
    intro s s1 h
    unfold downRepeat at h
    split at h <;> simp at h
    subst h; exact statsStep_refl _
  | succ fuel ih =>
    intro s s1 h
    unfold downRepeat at h
    split at h
    · split at h
      · simp at h
      · rename_i s2 hs2
        refine statsStep_trans (drop_stats hs2) (statsStep_trans ?_ (ih h))
        exact statsStep_of_same rfl rfl rfl
    · simp at h; subst h; exact statsStep_refl _

/-- `holdCurrentPiece` is a `StatsStep`. -/
theorem holdCurrentPiece_stats {rand : Nat → Fin 7} {s s1 : Game}
    (h : holdCurrentPiece rand s = some s1) : StatsStep s s1 := by
  unfold holdCurrentPiece at h
  split at h
  · simp at h; subst h; exact statsStep_refl _
  · split at h
    · split at h
      · simp at h
      · split at h
        · simp at h
        · rename_i s2 hs2
          simp at h; subst h
          refine statsStep_trans (statsStep_trans ?_ (spawnPiece_stats hs2)) ?_
          · exact statsStep_of_same rfl rfl rfl
          · exact statsStep_of_same rfl rfl rfl
    · split at h
      · simp at h
      · simp at h; subst h; exact statsStep_of_same rfl rfl rfl

/-- The horizontal-movement block is a `StatsStep`. -/
theorem horizontalInput_stats {s s1 : Game} {dt : Int} (h : horizontalInput s dt = some s1) :
    StatsStep s s1 := by
  unfold horizontalInput at h
  dsimp only at h
  split at h
  · simp at h; subst h; exact statsStep_of_same rfl rfl rfl
  · split at h
    · split at h
      · split at h
        · simp at h
        · rename_i r hr
          simp at h; subst h
          refine statsStep_trans (statsStep_trans ?_ (move_stats (b := r.2) hr)) ?_
          · exact statsStep_of_same rfl rfl rfl
          · exact statsStep_of_same rfl rfl rfl
      · split at h
        · refine statsStep_trans ?_ (leftRepeat_stats _ h)
          exact statsStep_of_same rfl rfl rfl
        · simp at h; subst h; exact statsStep_of_same rfl rfl rfl
    · split at h
      · split at h
        · split at h
          · simp at h
          · rename_i r hr
            simp at h; subst h
            refine statsStep_trans (statsStep_trans ?_ (move_stats (b := r.2) hr)) ?_
            · exact statsStep_of_same rfl rfl rfl
            · exact statsStep_of_same rfl rfl rfl
        · split at h
          · refine statsStep_trans ?_ (rightRepeat_stats _ h)
            exact statsStep_of_same rfl rfl rfl
          · simp at h; subst h; exact statsStep_of_same rfl rfl rfl
      · simp at h; subst h; exact statsStep_of_same rfl rfl rfl

/-- The soft-drop block is a `StatsStep`. -/
theorem softDropInput_stats {rand : Nat → Fin 7} {s s1 : Game} {dt : Int}
    (h : softDropInput rand s dt = some s1) : StatsStep s s1 := by
  unfold softDropInput at h
  dsimp only at h
  split at h
  · split at h
    · split at h
      · simp at h
      · rename_i s2 hs2
        simp at h; subst h
        exact statsStep_trans (drop_stats hs2) (statsStep_of_same rfl rfl rfl)
    · split at h
      · refine statsStep_trans ?_ (downRepeat_stats rand _ h)
        exact statsStep_of_same rfl rfl rfl
      · simp at h; subst h; exact statsStep_of_same rfl rfl rfl
  · simp at h; subst h; exact statsStep_of_same rfl rfl rfl

/-- The rotation block is a `StatsStep`. -/
theorem rotateInput_stats {s s1 : Game} (h : rotateInput s = some s1) : StatsStep s s1 := by
  unfold rotateInput at h
  split at h
  · simp at h
  · rename_i s2 hs2
    have h12 : StatsStep s s2 := by
      split at hs2
      · exact rotate_stats hs2
      · simp at hs2; subst hs2; exact statsStep_refl _
    refine statsStep_trans h12 ?_
    split at h
    · exact rotate_stats h
    · simp at h; subst h; exact statsStep_refl _

/-- `handleInput` is a `StatsStep`. -/
theorem handleInput_stats {rand : Nat → Fin 7} {s s1 : Game} {dt : Int}
    (h : handleInput rand s dt = some s1) : StatsStep s s1 := by
  unfold handleInput at h
  split at h
  · simp at h; subst h; exact statsStep_refl _
  · split at h
    · simp at h
    · rename_i s2 hs2
      refine statsStep_trans (rotateInput_stats hs2) ?_
      split at h
      · exact holdCurrentPiece_stats h
      · split at h
        · simp at h
        · rename_i s3 hs3
          refine statsStep_trans (horizontalInput_stats hs3) ?_
          split at h
          · simp at h
          · rename_i s4 hs4
            simp at h; subst h
            exact statsStep_trans (softDropInput_stats hs4) (statsStep_of_same rfl rfl rfl)

/-- `update` is a `StatsStep`. -/
theorem update_stats {rand : Nat → Fin 7} {s s1 : Game} {dt : Int}
    (h : update rand s dt = some s1) : StatsStep s s1 := by
  unfold update at h
  dsimp only at h
  split at h
  · simp at h; subst h; exact statsStep_refl _
  · split at h
    · simp at h
    · rename_i s2 hs2
      refine statsStep_trans (handleInput_stats hs2) ?_
      split at h
      · refine statsStep_trans ?_ (drop_stats h)
        exact statsStep_of_same rfl rfl rfl
      · simp at h; subst h; exact statsStep_of_same rfl rfl rfl

/-- A frame is a `StatsStep`. -/
theorem tick_stats {rand : Nat → Fin 7} {s s1 : Game} {keys : Keys} {dt : Int}
    (h : tick rand s keys dt = some s1) : StatsStep s s1 := by
  unfold tick at h
  refine statsStep_trans ?_ (update_stats h)
  exact statsStep_of_same rfl rfl rfl

/-- `StatsInv` holds after `start`. -/
theorem start_stats {rand : Nat → Fin 7} {s0 s : Game} (h : start rand s0 = some s) :
    StatsInv s := by
  unfold start at h
  refine ((spawnPiece_stats h) ?_).1
  unfold StatsInv reset
  simp

/-- `StatsInv` holds in every reachable state. -/
theorem reachable_stats {rand : Nat → Fin 7} {s : Game} (h : Reachable rand s) : StatsInv s := by
  induction h with
  | start s0 s hs => exact start_stats hs
  | tick s s1 keys dt _ ht ih => exact (tick_stats ht ih).1
  | pause s _ ih =>
    unfold togglePause
    split
    · exact ih
    · exact ((statsStep_of_same (s := s) rfl rfl rfl) ih).1

/-- Under `StatsInv` the drop interval lies between 100 and 1000. -/
theorem statsInv_bounds {s : Game} (h : StatsInv s) :
    100 ≤ s.dropInterval ∧ s.dropInterval ≤ 1000 := by
  obtain ⟨h1, h2, h3⟩ := h
  rw [h3, h2]
  constructor
  · exact le_max_left _ _
  · apply max_le
    · omega
    · have : 0 ≤ s.lines / 10 := Int.ediv_nonneg h1 (by omega)
      omega

/-- Under `StatsInv` more lines never give a longer drop interval. -/
theorem statsInv_antitone {s s1 : Game} (h : StatsInv s) (h1 : StatsInv s1)
    (hl : s.lines ≤ s1.lines) : s1.dropInterval ≤ s.dropInterval := by
  obtain ⟨_, a2, a3⟩ := h
  obtain ⟨_, b2, b3⟩ := h1
  rw [a3, b3, a2, b2]
  have : s.lines / 10 ≤ s1.lines / 10 := Int.ediv_le_ediv (by omega) hl
  apply max_le_max (le_refl _)
  omega

/-- C7. After `reset`, `lines` is 0, the level is `floor(lines / 10) + 1` and the drop
interval is `max(100, 1000 - (level - 1) * 100)`; after `updateStats(n)`, `lines` has grown
by `n` and the level and the drop interval are again these functions of `lines`. Hence in
every reachable state both equations hold and the drop interval lies between 100 and
1000; a frame never lowers `lines` nor raises the drop interval, and of two reachable
states the one with more lines never has the longer drop interval. -/
theorem stats_invariant (rand : Nat → Fin 7) :
    (∀ s : Game,
      (reset rand s).lines = 0 ∧ (reset rand s).level = (reset rand s).lines / 10 + 1 ∧
      (reset rand s).dropInterval = max 100 (1000 - ((reset rand s).level - 1) * 100)) ∧
    (∀ (s s1 : Game) (n : Int), updateStats s n = some s1 →
      s1.lines = s.lines + n ∧ s1.level = s1.lines / 10 + 1 ∧
      s1.dropInterval = max 100 (1000 - (s1.level - 1) * 100)) ∧
    (∀ s : Game, Reachable rand s →
      s.level = s.lines / 10 + 1 ∧
      s.dropInterval = max 100 (1000 - (s.level - 1) * 100) ∧
      100 ≤ s.dropInterval ∧ s.dropInterval ≤ 1000) ∧
    (∀ (s s1 : Game) (keys : Keys) (deltaTime : Int),
      Reachable rand s → tick rand s keys deltaTime = some s1 →
      s.lines ≤ s1.lines ∧ s1.dropInterval ≤ s.dropInterval) ∧
    (∀ s s1 : Game, Reachable rand s → Reachable rand s1 →
      s.lines ≤ s1.lines → s1.dropInterval ≤ s.dropInterval) := by
  refine ⟨?_, ?_, ?_, ?_, ?_⟩
  · intro s
    simp [reset]
  · intro s s1 n h
    exact updateStats_stats h
  · intro s hs
    have hi := reachable_stats hs
    exact ⟨hi.2.1, hi.2.2, statsInv_bounds hi⟩
  · intro s s1 keys deltaTime hs ht
    have hi := reachable_stats hs
    have h1 := tick_stats ht hi
    exact ⟨h1.2, statsInv_antitone hi h1.1 h1.2⟩
  · intro s s1 hs hs1 hl
    exact statsInv_antitone (reachable_stats hs) (reachable_stats hs1) hl

/-- Witness of C7: the state after `start` from the constructor state is reachable and
its drop interval lies between 100 and 1000. -/
theorem stats_invariant_witness :
    ∃ s : Game, start stackRand Game.new = some s ∧ Reachable stackRand s ∧
      s.level = s.lines / 10 + 1 ∧
      s.dropInterval = max 100 (1000 - (s.level - 1) * 100) ∧
      100 ≤ s.dropInterval ∧ s.dropInterval ≤ 1000 :=
  ⟨_, rfl, Reachable.start Game.new _ rfl,
    (stats_invariant stackRand).2.2.1 _ (Reachable.start Game.new _ rfl)⟩

/-! ## Runs of the engine -/

/-- A run of frames from a reachable state ends in a reachable state. -/
theorem runTicks_reachable (rand : Nat → Fin 7) (inputs : List (Keys × Int)) :
    ∀ s s1 : Game, Reachable rand s → runTicks rand s inputs = some s1 → Reachable rand s1 := by
  induction inputs with
  | nil => intro s s1 hs h; simp [runTicks] at h; subst h; exact hs
  | cons a rest ih =>
    intro s s1 hs h
    obtain ⟨keys, dt⟩ := a
    unfold runTicks at h
    split at h
    · simp at h
    · rename_i s2 hs2
      exact ih s2 s1 (Reachable.tick s s2 keys dt hs hs2) h


/-- The hold run passes its check. -/
theorem holdRun_check :
    ((start stackRand Game.new).bind (fun s0 => runTicks stackRand s0 holdInputs)).any
      holdCheck = true := by
  decide

/-- The game-over run passes its check. -/
theorem overRun_check :
    ((start stackRand Game.new).bind (fun s0 => runTicks stackRand s0 stackInputs)).any
      overCheck = true := by
  decide

/-- C3 fails on the code. After `start` and the frames `holdInputs` the game is on, hold
is allowed and the active O piece is valid; column 6 is filled up to row 0 and an I piece
is held. A frame with the hold key pressed swaps the two pieces: the game is still on
(`gameOver` false) and the active I piece at `(3, 0)` overlaps the locked cell at row 1,
column 6, so it fails `isValid`. -/
theorem hold_swap_invalid_active_piece :
    ∃ s0 s s1, start stackRand Game.new = some s0 ∧
      runTicks stackRand s0 holdInputs = some s ∧ Reachable stackRand s ∧
      s.gameOver = false ∧ s.canHold = true ∧ activeValid s = true ∧
      tick stackRand s keysHold 10 = some s1 ∧ Reachable stackRand s1 ∧
      s1.gameOver = false ∧ s1.piece = some spawnedI ∧ cellAt s1.grid 1 6 = 1 ∧
      isValid s1.grid spawnedI = false := by
  have key := holdRun_check
  cases h0 : start stackRand Game.new with
  | none => rw [h0] at key; exact absurd key (by decide)
  | some s0 =>
    rw [h0] at key
    cases h1 : runTicks stackRand s0 holdInputs with
    | none => simp [h1] at key
    | some s =>
      simp only [Option.some_bind, h1, Option.any_some] at key
      have hs : Reachable stackRand s :=
        runTicks_reachable stackRand holdInputs s0 s (Reachable.start Game.new s0 h0) h1
      unfold holdCheck at key
      cases h2 : tick stackRand s keysHold 10 with
      | none => simp [h2] at key
      | some s1 =>
        simp only [h2, Bool.and_eq_true, Bool.not_eq_true', beq_iff_eq] at key
        obtain ⟨⟨⟨k1, k2⟩, k3⟩, ⟨⟨k4, k5⟩, k6⟩, k7⟩ := key
        exact ⟨s0, s, s1, rfl, h1, hs, k1, k2, k3, h2,
          Reachable.tick s s1 keysHold 10 hs h2, k4, k5, k6, k7⟩

/-- C8 fails on the code. After `start` and the frames `stackInputs` the game is on and
an I piece rests on the filled column 6. In a frame of 1001 ms with the down key newly
pressed, `handleInput` drops once: the piece locks, `spawnPiece` puts an I piece at
`(3, 0)` on the locked cell at row 1, column 6 and sets `gameOver`. The same `update`
then finds the gravity counter above the drop interval and calls `drop` again, which
locks the colliding piece and spawns once more: the grid and the next piece change and
one more piece is generated after `gameOver` was set. -/
theorem spawn_after_gameOver_in_same_update :
    ∃ s0 s s1 s2, start stackRand Game.new = some s0 ∧
      runTicks stackRand s0 stackInputs = some s ∧ Reachable stackRand s ∧
      s.gameOver = false ∧
      handleInput stackRand { s with keys := keysDown } 1001 = some s1 ∧
      s1.gameOver = true ∧ s1.draws = s.draws + 1 ∧ s1.piece = some spawnedI ∧
      isValid s1.grid spawnedI = false ∧
      update stackRand { s with keys := keysDown } 1001 = some s2 ∧
      s2.gameOver = true ∧ s2.draws = s1.draws + 1 ∧ s2.grid ≠ s1.grid ∧
      s2.nextPiece ≠ s1.nextPiece := by
  have key := overRun_check
  cases h0 : start stackRand Game.new with
  | none => rw [h0] at key; exact absurd key (by decide)
  | some s0 =>
    rw [h0] at key
    cases h1 : runTicks stackRand s0 stackInputs with
    | none => simp [h1] at key
    | some s =>
      simp only [Option.some_bind, h1, Option.any_some] at key
      have hs : Reachable stackRand s :=
        runTicks_reachable stackRand stackInputs s0 s (Reachable.start Game.new s0 h0) h1
      unfold overCheck at key
      cases h2 : handleInput stackRand { s with keys := keysDown } 1001 with
      | none => simp [h2] at key
      | some s1 =>
        cases h3 : tick stackRand s keysDown 1001 with
        | none => simp [h2, h3] at key
        | some s2 =>
          simp only [h2, h3, Bool.and_eq_true, Bool.not_eq_true', beq_iff_eq,
            bne_iff_ne, ne_eq] at key
          obtain ⟨k0, ⟨⟨⟨⟨⟨⟨k1, k2⟩, k3⟩, k4⟩, k5⟩, k6⟩, k7⟩, k8⟩ := key
          exact ⟨s0, s, s1, s2, rfl, h1, hs, k0, h2, k1, k2, k3, k4, h3, k5, k6, k7, k8⟩

/-! ## Matrices and rotation -/

/-- A write keeps the number of rows. -/
theorem matSet_length (m : List (List Nat)) (r c v : Nat) :
    (matSet m r c v).length = m.length := by
  simp [matSet]

/-- A write keeps the length of every row. -/
theorem matSet_rowLength (m : List (List Nat)) (r c v i : Nat) :
    ((matSet m r c v).getD i []).length = (m.getD i []).length := by
  unfold matSet
  simp only [List.getD_eq_getElem?_getD, List.getElem?_set]
  by_cases hi : r = i
  · subst hi
    by_cases hl : r < m.length
    · simp [hl]
    · have hn : m[r]? = none := List.getElem?_eq_none (by omega)
      simp [hl, hn]
  · simp [hi]

/-- A read after a write: the written value at the written cell when that cell is inside
the matrix, the old value everywhere else. -/
theorem matGet_matSet (m : List (List Nat)) (r c v i j : Nat) :
    matGet (matSet m r c v) i j =
      if i = r ∧ j = c ∧ r < m.length ∧ c < (m.getD r []).length then v else matGet m i j := by
  unfold matSet matGet
  simp only [List.getD_eq_getElem?_getD, List.getElem?_set]
  by_cases hi : r = i
  · subst hi
    by_cases hl : r < m.length
    · simp only [hl, if_true, true_and, Option.getD_some, List.getElem?_set]
      by_cases hj : c = j
      · subst hj
        by_cases hc : c < (m[r]?.getD []).length
        · simp [hc]
        · have hn : (m[r]?.getD [])[c]? = none := List.getElem?_eq_none (by omega)
          simp [hc, hn]
      · have hj2 : ¬ j = c := fun h => hj h.symm
        simp [hj, hj2]
    · have hn : m[r]? = none := List.getElem?_eq_none (by omega)
      simp [hl, hn]
  · have hi2 : ¬ i = r := fun h => hi h.symm
    simp [hi, hi2]

/-- A write keeps the dimensions. -/
theorem matSet_dims {m : List (List Nat)} {R C : Nat} (h : MatDims m R C) (r c v : Nat) :
    MatDims (matSet m r c v) R C :=
  ⟨by rw [matSet_length]; exact h.1, fun i hi => by rw [matSet_rowLength]; exact h.2 i hi⟩


/-- A list of writes keeps the dimensions. -/
theorem applyWrites_dims (ws : List (Nat × Nat × Nat)) :
    ∀ {m : List (List Nat)} {R C : Nat}, MatDims m R C → MatDims (applyWrites m ws) R C := by
  induction ws with
  | nil => intro m R C h; exact h
  | cons w ws ih =>
    intro m R C h
    exact ih (matSet_dims h w.1 w.2.1 w.2.2)

/-- A cell that holds `v` or is written at least once, and to which every write writes `v`,
holds `v` after the writes. -/
theorem applyWrites_get (ws : List (Nat × Nat × Nat)) (R C i j v : Nat)
    (hi : i < R) (hj : j < C) :
    ∀ m : List (List Nat), MatDims m R C →
      (∀ w ∈ ws, w.1 = i → w.2.1 = j → w.2.2 = v) →
      (matGet m i j = v ∨ ∃ w ∈ ws, w.1 = i ∧ w.2.1 = j) →
      matGet (applyWrites m ws) i j = v := by
  induction ws with
  | nil =>
    intro m _ _ h
    rcases h with h | ⟨w, hw, _⟩
    · exact h
    · cases hw
  | cons w ws ih =>
    intro m hm hall h
    have hm1 := matSet_dims hm w.1 w.2.1 w.2.2
    refine ih (matSet m w.1 w.2.1 w.2.2) hm1
      (fun w1 hw1 => hall w1 (List.mem_cons_of_mem _ hw1)) ?_
    by_cases hhit : w.1 = i ∧ w.2.1 = j
    · left
      rw [matGet_matSet]
      have hv := hall w (List.mem_cons_self _ _) hhit.1 hhit.2
      have hrow : (m.getD w.1 []).length = C := by rw [hhit.1]; exact hm.2 i hi
      have hcond : i = w.1 ∧ j = w.2.1 ∧ w.1 < m.length ∧ w.2.1 < (m.getD w.1 []).length := by
        refine ⟨hhit.1.symm, hhit.2.symm, ?_, ?_⟩
        · rw [hm.1, hhit.1]; exact hi
        · rw [hrow, hhit.2]; exact hj
      rw [if_pos hcond, hv]
    · rcases h with h | ⟨w1, hw1, h1⟩
      · left
        rw [matGet_matSet]
        have : ¬ (i = w.1 ∧ j = w.2.1 ∧ w.1 < m.length ∧ w.2.1 < (m.getD w.1 []).length) :=
          fun hc => hhit ⟨hc.1.symm, hc.2.1.symm⟩
        rw [if_neg this, h]
      · rcases List.mem_cons.1 hw1 with he | hin
        · subst he; exact absurd h1 hhit
        · right; exact ⟨w1, hin, h1⟩

/-- Two nested loops of writes are one list of writes. -/
theorem foldl_nested_writes (xs : List Nat) (w : Nat → Nat → Nat × Nat × Nat) (ys : List Nat) :
    ∀ m : List (List Nat),
      ys.foldl (fun acc y => xs.foldl
        (fun acc x => matSet acc (w y x).1 (w y x).2.1 (w y x).2.2) acc) m =
      applyWrites m (ys.flatMap (fun y => xs.map (w y))) := by
  induction ys with
  | nil => intro m; rfl
  | cons y ys ih =>
    intro m
    rw [List.foldl_cons, ih, List.flatMap_cons]
    unfold applyWrites
    rw [List.foldl_append, List.foldl_map]

/-- The fresh matrix is `N` by `N`. -/
theorem zeroMatrix_dims (N : Nat) : MatDims (zeroMatrix N) N N := by
  refine ⟨by simp [zeroMatrix], fun i hi => ?_⟩
  simp [zeroMatrix, List.getD_eq_getElem?_getD, List.getElem?_replicate, hi]

/-- The fresh matrix holds zeros. -/
theorem zeroMatrix_get (N i j : Nat) : matGet (zeroMatrix N) i j = 0 := by
  unfold matGet zeroMatrix
  simp only [List.getD_eq_getElem?_getD, List.getElem?_replicate]
  by_cases hi : i < N
  · by_cases hj : j < N <;> simp [hi, hj]
  · simp [hi]

/-- A read outside the dimensions gives 0. -/
theorem matGet_outside {m : List (List Nat)} {R C : Nat} (h : MatDims m R C) (i j : Nat)
    (hout : R ≤ i ∨ C ≤ j) : matGet m i j = 0 := by
  unfold matGet
  by_cases hi : i < R
  · have hj : C ≤ j := by omega
    have hrow := h.2 i hi
    have hn : (m.getD i [])[j]? = none := List.getElem?_eq_none (by omega)
    rw [List.getD_eq_getElem?_getD (l := m.getD i []), hn]
    rfl
  · have hn : m[i]? = none := List.getElem?_eq_none (by rw [h.1]; omega)
    simp [List.getD_eq_getElem?_getD, hn]

/-- Two matrices of the same dimensions with the same cells are equal. -/
theorem mat_ext {m1 m2 : List (List Nat)} {R C : Nat} (h1 : MatDims m1 R C)
    (h2 : MatDims m2 R C) (h : ∀ i j, i < R → j < C → matGet m1 i j = matGet m2 i j) :
    m1 = m2 := by
  apply List.ext_getElem (by rw [h1.1, h2.1])
  intro i hi1 hi2
  have hi : i < R := by rw [← h1.1]; exact hi1
  have r1 := h1.2 i hi
  have r2 := h2.2 i hi
  have e1 : m1.getD i [] = m1[i] := by
    simp [List.getD_eq_getElem?_getD, List.getElem?_eq_getElem hi1]
  have e2 : m2.getD i [] = m2[i] := by
    simp [List.getD_eq_getElem?_getD, List.getElem?_eq_getElem hi2]
  rw [e1] at r1
  rw [e2] at r2
  apply List.ext_getElem (by rw [r1, r2])
  intro j hj1 hj2
  have hj : j < C := by rw [← r1]; exact hj1
  have := h i j hi hj
  unfold matGet at this
  rw [e1, e2] at this
  simpa [List.getD_eq_getElem?_getD, List.getElem?_eq_getElem hj1,
    List.getElem?_eq_getElem hj2] using this

/-- The loops of `rotateCW` as a list of writes. -/
theorem rotateCWShape_eq_writes (shape : Shape) :
    rotateCWShape shape =
      applyWrites (zeroMatrix shape.length)
        ((List.range shape.length).flatMap (fun y => (List.range shape.length).map
          (fun x => (x, shape.length - 1 - y, matGet shape y x)))) :=
  foldl_nested_writes (List.range shape.length)
    (fun y x => (x, shape.length - 1 - y, matGet shape y x)) (List.range shape.length)
    (zeroMatrix shape.length)

/-- The loops of `rotateCCW` as a list of writes. -/
theorem rotateCCWShape_eq_writes (shape : Shape) :
    rotateCCWShape shape =
      applyWrites (zeroMatrix shape.length)
        ((List.range shape.length).flatMap (fun y => (List.range shape.length).map
          (fun x => (shape.length - 1 - x, y, matGet shape y x)))) :=
  foldl_nested_writes (List.range shape.length)
    (fun y x => (shape.length - 1 - x, y, matGet shape y x)) (List.range shape.length)
    (zeroMatrix shape.length)

/-- `rotateCW` builds an `N` by `N` matrix, `N` the number of rows of the shape. -/
theorem rotateCWShape_dims (shape : Shape) :
    MatDims (rotateCWShape shape) shape.length shape.length := by
  rw [rotateCWShape_eq_writes]
  exact applyWrites_dims _ (zeroMatrix_dims _)

/-- `rotateCCW` builds an `N` by `N` matrix, `N` the number of rows of the shape. -/
theorem rotateCCWShape_dims (shape : Shape) :
    MatDims (rotateCCWShape shape) shape.length shape.length := by
  rw [rotateCCWShape_eq_writes]
  exact applyWrites_dims _ (zeroMatrix_dims _)

/-- The cells after `rotateCW`: `new[i][j] = old[N - 1 - j][i]`. -/
theorem rotateCWShape_get (shape : Shape) (i j : Nat) (hi : i < shape.length)
    (hj : j < shape.length) :
    matGet (rotateCWShape shape) i j = matGet shape (shape.length - 1 - j) i := by
  rw [rotateCWShape_eq_writes]
  apply applyWrites_get _ shape.length shape.length i j _ hi hj _ (zeroMatrix_dims _)
  · intro w hw h1 h2
    simp only [List.mem_flatMap, List.mem_map, List.mem_range] at hw
    obtain ⟨y, hy, x, hx, rfl⟩ := hw
    simp only at h1 h2 ⊢
    have : y = shape.length - 1 - j := by omega
    rw [this, h1]
  · right
    refine ⟨(i, shape.length - 1 - (shape.length - 1 - j),
      matGet shape (shape.length - 1 - j) i), ?_, rfl, by simp only; omega⟩
    simp only [List.mem_flatMap, List.mem_map, List.mem_range]
    exact ⟨shape.length - 1 - j, by omega, i, hi, rfl⟩

/-- The cells after `rotateCCW`: `new[i][j] = old[j][N - 1 - i]`. -/
theorem rotateCCWShape_get (shape : Shape) (i j : Nat) (hi : i < shape.length)
    (hj : j < shape.length) :
    matGet (rotateCCWShape shape) i j = matGet shape j (shape.length - 1 - i) := by
  rw [rotateCCWShape_eq_writes]
  apply applyWrites_get _ shape.length shape.length i j _ hi hj _ (zeroMatrix_dims _)
  · intro w hw h1 h2
    simp only [List.mem_flatMap, List.mem_map, List.mem_range] at hw
    obtain ⟨y, hy, x, hx, rfl⟩ := hw
    simp only at h1 h2 ⊢
    have : x = shape.length - 1 - i := by omega
    rw [this, h2]
  · right
    refine ⟨(shape.length - 1 - (shape.length - 1 - i), j,
      matGet shape j (shape.length - 1 - i)), ?_, by simp only; omega, rfl⟩
    simp only [List.mem_flatMap, List.mem_map, List.mem_range]
    exact ⟨j, hj, shape.length - 1 - i, by omega, rfl⟩

/-- A square matrix is `N` by `N`. -/
theorem square_dims {shape : Shape} (h : Square shape) :
    MatDims shape shape.length shape.length := by
  refine ⟨rfl, fun i hi => ?_⟩
  have : shape.getD i [] = shape[i] := by
    simp [List.getD_eq_getElem?_getD, List.getElem?_eq_getElem hi]
  rw [this]
  exact h _ (List.getElem_mem hi)

/-- An `N` by `N` matrix is square. -/
theorem dims_square {m : List (List Nat)} {N : Nat} (h : MatDims m N N) : Square m := by
  intro row hrow
  obtain ⟨i, hi, rfl⟩ := List.getElem_of_mem hrow
  have := h.2 i (by rw [← h.1]; exact hi)
  rw [List.getD_eq_getElem?_getD, List.getElem?_eq_getElem hi] at this
  rw [h.1]
  simpa using this

/-- `rotateCW` keeps the number of rows. -/
theorem rotateCWShape_length (shape : Shape) : (rotateCWShape shape).length = shape.length :=
  (rotateCWShape_dims shape).1

/-- `rotateCCW` keeps the number of rows. -/
theorem rotateCCWShape_length (shape : Shape) : (rotateCCWShape shape).length = shape.length :=
  (rotateCCWShape_dims shape).1

/-- Four clockwise rotations of a square matrix give the matrix back. -/
theorem rotateCWShape_four (shape : Shape) (h : Square shape) :
    rotateCWShape (rotateCWShape (rotateCWShape (rotateCWShape shape))) = shape := by
  have l1 := rotateCWShape_length shape
  have l2 := rotateCWShape_length (rotateCWShape shape)
  have l3 := rotateCWShape_length (rotateCWShape (rotateCWShape shape))
  have d4 := rotateCWShape_dims (rotateCWShape (rotateCWShape (rotateCWShape shape)))
  rw [l3, l2, l1] at d4
  apply mat_ext d4 (square_dims h)
  intro i j hi hj
  rw [rotateCWShape_get _ i j (by omega) (by omega), l3, l2, l1,
    rotateCWShape_get _ _ _ (by omega) (by omega), l2, l1,
    rotateCWShape_get _ _ _ (by omega) (by omega), l1,
    rotateCWShape_get _ _ _ (by omega) (by omega)]
  congr 1 <;> omega

/-- Four counter-clockwise rotations of a square matrix give the matrix back. -/
theorem rotateCCWShape_four (shape : Shape) (h : Square shape) :
    rotateCCWShape (rotateCCWShape (rotateCCWShape (rotateCCWShape shape))) = shape := by
  have l1 := rotateCCWShape_length shape
  have l2 := rotateCCWShape_length (rotateCCWShape shape)
  have l3 := rotateCCWShape_length (rotateCCWShape (rotateCCWShape shape))
  have d4 := rotateCCWShape_dims (rotateCCWShape (rotateCCWShape (rotateCCWShape shape)))
  rw [l3, l2, l1] at d4
  apply mat_ext d4 (square_dims h)
  intro i j hi hj
  rw [rotateCCWShape_get _ i j (by omega) (by omega), l3, l2, l1,
    rotateCCWShape_get _ _ _ (by omega) (by omega), l2, l1,
    rotateCCWShape_get _ _ _ (by omega) (by omega), l1,
    rotateCCWShape_get _ _ _ (by omega) (by omega)]
  congr 1 <;> omega

/-- `rotateCW` builds a square matrix. -/
theorem rotateCWShape_square (shape : Shape) : Square (rotateCWShape shape) :=
  dims_square (rotateCWShape_dims shape)

/-- `rotateCCW` builds a square matrix. -/
theorem rotateCCWShape_square (shape : Shape) : Square (rotateCCWShape shape) :=
  dims_square (rotateCCWShape_dims shape)

/-- C12. For a piece whose shape is a square matrix, four calls of `rotateCW` give the
piece back, and so do four calls of `rotateCCW`. Each rotation leaves a square matrix,
and the shape of each of the seven piece types is square, so this holds for every
tetromino in every rotation state. -/
theorem rotate_four_times (p : Piece) (hsq : Square p.shape) :
    p.rotateCW.rotateCW.rotateCW.rotateCW = p ∧
    p.rotateCCW.rotateCCW.rotateCCW.rotateCCW = p ∧
    Square p.rotateCW.shape ∧ Square p.rotateCCW.shape ∧
    (∀ t, 1 ≤ t → t ≤ 7 → Square (Piece.new t).shape) := by
  refine ⟨?_, ?_, rotateCWShape_square _, rotateCCWShape_square _, ?_⟩
  · cases p
    simp only [Piece.rotateCW, Piece.mk.injEq, true_and, and_true]
    exact rotateCWShape_four _ hsq
  · cases p
    simp only [Piece.rotateCCW, Piece.mk.injEq, true_and, and_true]
    exact rotateCCWShape_four _ hsq
  · intro t h1 h7
    have : t = 1 ∨ t = 2 ∨ t = 3 ∨ t = 4 ∨ t = 5 ∨ t = 6 ∨ t = 7 := by omega
    rcases this with h | h | h | h | h | h | h <;> subst h <;> unfold Square <;> decide

/-- Witness of C12: the T piece. -/
theorem rotate_four_times_witness :
    Square (Piece.new 6).shape ∧
    ((Piece.new 6).rotateCW.rotateCW.rotateCW.rotateCW = Piece.new 6 ∧
    (Piece.new 6).rotateCCW.rotateCCW.rotateCCW.rotateCCW = Piece.new 6 ∧
    Square (Piece.new 6).rotateCW.shape ∧ Square (Piece.new 6).rotateCCW.shape ∧
    (∀ t, 1 ≤ t → t ≤ 7 → Square (Piece.new t).shape)) :=
  ⟨by unfold Square; decide, rotate_four_times (Piece.new 6) (by unfold Square; decide)⟩

/-! ## Merge -/

/-- A grid of 20 rows of 10 cells has dimensions 20 by 10. -/
theorem gridOk_dims {grid : Grid} (h : GridOk grid) : MatDims grid 20 10 := by
  refine ⟨h.1, fun i hi => ?_⟩
  have hl : i < grid.length := by rw [h.1]; exact hi
  have : grid.getD i [] = grid[i] := by
    simp [List.getD_eq_getElem?_getD, List.getElem?_eq_getElem hl]
  rw [this]
  exact h.2 _ (List.getElem_mem hl)

/-- A matrix of dimensions 20 by 10 is a grid of 20 rows of 10 cells. -/
theorem dims_gridOk {grid : Grid} (h : MatDims grid 20 10) : GridOk grid := by
  refine ⟨h.1, fun row hrow => ?_⟩
  obtain ⟨i, hi, rfl⟩ := List.getElem_of_mem hrow
  have := h.2 i (by rw [← h.1]; exact hi)
  rw [List.getD_eq_getElem?_getD, List.getElem?_eq_getElem hi] at this
  simpa using this

/-- The write of `merge` keeps the dimensions. -/
theorem gridSet_dims {grid : Grid} {R C : Nat} (h : MatDims grid R C) (r c : Int) (v : Nat) :
    MatDims (gridSet grid r c v) R C := by
  unfold gridSet
  split
  · exact matSet_dims h _ _ _
  · exact h

/-- A read after the write of `merge`, at a cell inside the grid. -/
theorem gridSet_get {grid : Grid} {R C : Nat} (h : MatDims grid R C) (r c : Int) (v : Nat)
    (i j : Nat) (hi : i < R) (hj : j < C) :
    matGet (gridSet grid r c v) i j = if r = i ∧ c = j then v else matGet grid i j := by
  unfold gridSet
  by_cases hrc : 0 ≤ r ∧ 0 ≤ c
  · rw [if_pos hrc, matGet_matSet]
    by_cases hhit : r = i ∧ c = j
    · have h1 : r.toNat = i := by omega
      have h2 : c.toNat = j := by omega
      have hrow : (grid.getD r.toNat []).length = C := by rw [h1]; exact h.2 i hi
      have hcond : i = r.toNat ∧ j = c.toNat ∧ r.toNat < grid.length ∧
          c.toNat < (grid.getD r.toNat []).length :=
        ⟨h1.symm, h2.symm, by rw [h.1, h1]; exact hi, by rw [hrow, h2]; exact hj⟩
      rw [if_pos hcond, if_pos hhit]
    · have hcond : ¬ (i = r.toNat ∧ j = c.toNat ∧ r.toNat < grid.length ∧
          c.toNat < (grid.getD r.toNat []).length) := by
        intro hc
        apply hhit
        omega
      rw [if_neg hcond, if_neg hhit]
  · rw [if_neg hrc]
    have hhit : ¬ (r = i ∧ c = j) := by
      intro hc
      apply hrc
      omega
    rw [if_neg hhit]

/-- The inner loop of `merge` keeps the dimensions. -/
theorem mergeRow_dims (p : Piece) (y : Nat) (vs : List Nat) :
    ∀ (x0 : Nat) {grid : Grid} {R C : Nat}, MatDims grid R C →
      MatDims (mergeRow p y x0 vs grid) R C := by
  induction vs with
  | nil => intro x0 grid R C h; exact h
  | cons v vs ih =>
    intro x0 grid R C h
    rw [mergeRow]
    split
    · split
      · exact ih _ h
      · exact ih _ (gridSet_dims h _ _ _)
    · exact ih _ h

/-- The outer loop of `merge` keeps the dimensions. -/
theorem mergeRows_dims (p : Piece) (rows : List (List Nat)) :
    ∀ (y0 : Nat) {grid : Grid} {R C : Nat}, MatDims grid R C →
      MatDims (mergeRows p y0 rows grid) R C := by
  induction rows with
  | nil => intro y0 grid R C h; exact h
  | cons row rows ih =>
    intro y0 grid R C h
    rw [mergeRows]
    exact ih _ (mergeRow_dims p y0 row 0 h)

/-- Two rounds of writes of the same value compose. -/
theorem writtenOr_trans {H T : Prop} {res mid v old : Nat} (h1 : WrittenOr T res v mid)
    (h2 : WrittenOr H mid v old) : WrittenOr (H ∨ T) res v old := by
  constructor
  · intro h
    by_cases ht : T
    · exact h1.1 ht
    · rw [h1.2 ht]
      rcases h with h | h
      · exact h2.1 h
      · exact absurd h ht
  · intro h
    have ht : ¬ T := fun c => h (Or.inr c)
    have hh : ¬ H := fun c => h (Or.inl c)
    rw [h1.2 ht, h2.2 hh]

/-- The condition of `WrittenOr` may be replaced by an equivalent one. -/
theorem writtenOr_congr {A B : Prop} {res v old : Nat} (hab : A ↔ B) (h : WrittenOr A res v old) :
    WrittenOr B res v old :=
  ⟨fun hb => h.1 (hab.2 hb), fun hb => h.2 (fun ha => hb (hab.1 ha))⟩

/-- A cell no write reaches keeps its value. -/
theorem writtenOr_false {A : Prop} {res v : Nat} (h : ¬ A) : WrittenOr A res v res :=
  ⟨fun ha => absurd ha h, fun _ => rfl⟩

/-- The inner loop of `merge` writes `typeId` to the cells under the occupied cells of the
row that are not above the board, and nothing else. -/
theorem mergeRow_get (p : Piece) (y : Nat) {R C : Nat} (i j : Nat) (hi : i < R) (hj : j < C)
    (vs : List Nat) :
    ∀ (x0 : Nat) (grid : Grid), MatDims grid R C →
      WrittenOr (∃ k, vs.getD k 0 > 0 ∧ p.y + y = i ∧ p.x + ((x0 + k : Nat) : Int) = j)
        (matGet (mergeRow p y x0 vs grid) i j) p.typeId (matGet grid i j) := by
  induction vs with
  | nil =>
    intro x0 grid _
    apply writtenOr_false
    simp
  | cons v vs ih =>
    intro x0 grid h
    rw [exists_getD_cons 0 v vs
      (fun c idx => c > 0 ∧ p.y + y = i ∧ p.x + ((idx : Nat) : Int) = j) x0]
    rw [mergeRow]
    by_cases hv : v > 0
    · rw [if_pos hv]
      by_cases hneg : p.y + y < 0
      · rw [if_pos hneg]
        refine writtenOr_trans (ih (x0 + 1) grid h) (writtenOr_false ?_)
        intro hc; omega
      · rw [if_neg hneg]
        refine writtenOr_trans (ih (x0 + 1) _ (gridSet_dims h _ _ _)) ?_
        rw [gridSet_get h _ _ _ i j hi hj]
        constructor
        · intro hc; rw [if_pos hc.2]
        · intro hc
          rw [if_neg]
          intro hh
          exact hc ⟨hv, hh⟩
    · rw [if_neg hv]
      exact writtenOr_trans (ih (x0 + 1) grid h) (writtenOr_false (fun hc => hv hc.1))

/-- The outer loop of `merge` writes `typeId` to the cells under the occupied cells of the
shape that are not above the board, and nothing else. -/
theorem mergeRows_get (p : Piece) {R C : Nat} (i j : Nat) (hi : i < R) (hj : j < C)
    (rows : List (List Nat)) :
    ∀ (y0 : Nat) (grid : Grid), MatDims grid R C →
      WrittenOr (∃ l k, (rows.getD l []).getD k 0 > 0 ∧ p.y + ((y0 + l : Nat) : Int) = i ∧
          p.x + (k : Int) = j)
        (matGet (mergeRows p y0 rows grid) i j) p.typeId (matGet grid i j) := by
  induction rows with
  | nil =>
    intro y0 grid _
    apply writtenOr_false
    simp
  | cons row rows ih =>
    intro y0 grid h
    rw [exists_getD_cons [] row rows
      (fun r idx => ∃ k, r.getD k 0 > 0 ∧ p.y + ((idx : Nat) : Int) = i ∧ p.x + (k : Int) = j) y0]
    rw [mergeRows]
    refine writtenOr_trans (ih (y0 + 1) _ (mergeRow_dims p y0 row 0 h)) ?_
    have := mergeRow_get p y0 i j hi hj row 0 grid h
    simpa only [Nat.zero_add] using this

/-- `merge` writes `typeId` to the cells under the occupied cells of the shape that are not
above the board, and nothing else. -/
theorem merge_get (grid : Grid) (p : Piece) {R C : Nat} (h : MatDims grid R C) (i j : Nat)
    (hi : i < R) (hj : j < C) :
    WrittenOr (∃ y x, matGet p.shape y x > 0 ∧ p.y + (y : Int) = i ∧ p.x + (x : Int) = j)
      (matGet (merge grid p) i j) p.typeId (matGet grid i j) := by
  unfold merge
  have := mergeRows_get p i j hi hj p.shape 0 grid h
  simpa only [Nat.zero_add, matGet] using this

/-- `merge` keeps the dimensions. -/
theorem merge_dims (grid : Grid) (p : Piece) {R C : Nat} (h : MatDims grid R C) :
    MatDims (merge grid p) R C :=
  mergeRows_dims p p.shape 0 h

/-- C15. On a grid of 20 rows of 10 cells, for a piece whose non-empty shape cells all
lie in columns 0..9 and in rows below 20, `merge(p)` leaves `typeId` in the grid cell at
`(p.y + y, p.x + x)` for every non-empty shape cell `(x, y)` with `p.y + y >= 0`, and
leaves every grid cell that is under no non-empty shape cell as it was; shape cells
above the board write nothing, so a piece wholly above the board leaves the grid as it
was. The grid keeps its 20 rows of 10 cells. -/
theorem merge_spec (grid : Grid) (p : Piece) (hg : GridOk grid)
    (hin : ∀ y x, matGet p.shape y x > 0 → 0 ≤ p.x + x ∧ p.x + x < 10 ∧ p.y + y < 20) :
    (∀ y x, matGet p.shape y x > 0 → 0 ≤ p.y + y →
      cellAt (merge grid p) (p.y + y) (p.x + x) = p.typeId) ∧
    (∀ r c : Int, 0 ≤ r → r < 20 → 0 ≤ c → c < 10 →
      (¬ ∃ y x, matGet p.shape y x > 0 ∧ p.y + (y : Int) = r ∧ p.x + (x : Int) = c) →
      cellAt (merge grid p) r c = cellAt grid r c) ∧
    ((∀ y x, matGet p.shape y x > 0 → p.y + y < 0) → merge grid p = grid) ∧
    GridOk (merge grid p) := by
  have hd := gridOk_dims hg
  have hd1 := merge_dims grid p hd
  refine ⟨?_, ?_, ?_, dims_gridOk hd1⟩
  · intro y x hc hy
    obtain ⟨h1, h2, h3⟩ := hin y x hc
    unfold cellAt
    refine (merge_get grid p hd _ _ (by omega) (by omega)).1 ⟨y, x, hc, ?_, ?_⟩ <;> omega
  · intro r c hr0 hr hc0 hc hno
    unfold cellAt
    refine (merge_get grid p hd _ _ (by omega) (by omega)).2 ?_
    rintro ⟨y, x, h1, h2, h3⟩
    exact hno ⟨y, x, h1, by omega, by omega⟩
  · intro habove
    apply mat_ext hd1 hd
    intro i j hi hj
    refine (merge_get grid p hd i j hi hj).2 ?_
    rintro ⟨y, x, h1, h2, h3⟩
    have := habove y x h1
    omega

/-- A non-zero read is a read inside the dimensions. -/
theorem matGet_pos_inside {m : List (List Nat)} {R C : Nat} (h : MatDims m R C) {i j : Nat}
    (hpos : matGet m i j > 0) : i < R ∧ j < C := by
  by_contra hc
  have := matGet_outside h i j (by omega)
  omega

/-- The cells of the I piece at `(3, 0)` lie on the board. -/
theorem spawnedI_inside :
    ∀ y x : Nat, matGet spawnedI.shape y x > 0 →
      0 ≤ spawnedI.x + x ∧ spawnedI.x + x < 10 ∧ spawnedI.y + y < 20 := by
  intro y x h
  have hd : MatDims spawnedI.shape 4 4 := square_dims (by unfold Square; decide)
  have := matGet_pos_inside hd h
  have hx : spawnedI.x = 3 := rfl
  have hy : spawnedI.y = 0 := rfl
  omega

/-- Witness of C15: the I piece at `(3, 0)` merged into the empty grid. -/
theorem merge_spec_witness :
    GridOk getEmptyGrid ∧
    (∀ y x : Nat, matGet spawnedI.shape y x > 0 →
      0 ≤ spawnedI.x + x ∧ spawnedI.x + x < 10 ∧ spawnedI.y + y < 20) ∧
    ((∀ y x, matGet spawnedI.shape y x > 0 → 0 ≤ spawnedI.y + y →
      cellAt (merge getEmptyGrid spawnedI) (spawnedI.y + y) (spawnedI.x + x) =
        spawnedI.typeId) ∧
    (∀ r c : Int, 0 ≤ r → r < 20 → 0 ≤ c → c < 10 →
      (¬ ∃ y x, matGet spawnedI.shape y x > 0 ∧ spawnedI.y + (y : Int) = r ∧
        spawnedI.x + (x : Int) = c) →
      cellAt (merge getEmptyGrid spawnedI) r c = cellAt getEmptyGrid r c) ∧
    ((∀ y x, matGet spawnedI.shape y x > 0 → spawnedI.y + y < 0) →
      merge getEmptyGrid spawnedI = getEmptyGrid) ∧
    GridOk (merge getEmptyGrid spawnedI)) :=
  ⟨by decide, spawnedI_inside, merge_spec getEmptyGrid spawnedI (by decide) spawnedI_inside⟩

/-! ## Line clearing without full rows, game over and pause, hold swap -/

/-- C20. On a grid of 20 rows the grid after `clearLines` has exactly 20 rows; and when no
row is full, `clearLines` returns 0 and leaves the grid as it was. -/
theorem clearLines_no_full_rows (grid : Grid) (h20 : grid.length = 20) :
    (clearLines grid).1.length = 20 ∧
    ((∀ row ∈ grid, rowFull row = false) →
      (clearLines grid).2 = 0 ∧ (clearLines grid).1 = grid) := by
  have hlen := filter_notFull_length grid
  constructor
  · rw [clearLines_grid]
    simp only [List.length_append, List.length_replicate]
    omega
  · intro hno
    have hf : grid.filter (fun row => !rowFull row) = grid := by
      apply List.filter_eq_self.2
      intro row hrow
      simp [hno row hrow]
    constructor
    · rw [clearLines_count, hf, h20]; rfl
    · rw [clearLines_grid, hf, h20]; rfl

/-- Witness of C20: the empty grid. -/
theorem clearLines_no_full_rows_witness :
    getEmptyGrid.length = 20 ∧
    ((clearLines getEmptyGrid).1.length = 20 ∧
    ((∀ row ∈ getEmptyGrid, rowFull row = false) →
      (clearLines getEmptyGrid).2 = 0 ∧ (clearLines getEmptyGrid).1 = getEmptyGrid)) :=
  ⟨rfl, clearLines_no_full_rows getEmptyGrid rfl⟩

/-- C13. With `gameOver` set, `update(deltaTime)` returns the state it was given, whatever
the elapsed time and the key flags, and so does `togglePause`; with `isPaused` set,
`update(deltaTime)` returns the state it was given. -/
theorem gameOver_and_pause_freeze (rand : Nat → Fin 7) (s : Game) (deltaTime : Int) :
    (s.gameOver = true →
      update rand s deltaTime = some s ∧ togglePause s = s ∧
      ∀ keys, tick rand s keys deltaTime = some { s with keys := keys }) ∧
    (s.isPaused = true →
      update rand s deltaTime = some s ∧
      ∀ keys, tick rand s keys deltaTime = some { s with keys := keys }) := by
  constructor
  · intro h
    refine ⟨by simp [update, h], by simp [togglePause, h], fun keys => by simp [tick, update, h]⟩
  · intro h
    exact ⟨by simp [update, h], fun keys => by simp [tick, update, h]⟩

/-- Witness of C13: a state with the game over and a paused state. -/
theorem gameOver_and_pause_freeze_witness :
    overState.gameOver = true ∧ pausedState.isPaused = true ∧
    update stackRand overState 1001 = some overState ∧ togglePause overState = overState ∧
    update stackRand pausedState 1001 = some pausedState :=
  ⟨rfl, rfl, ((gameOver_and_pause_freeze stackRand overState 1001).1 rfl).1,
    ((gameOver_and_pause_freeze stackRand overState 1001).1 rfl).2.1,
    ((gameOver_and_pause_freeze stackRand pausedState 1001).2 rfl).1⟩

/-- C11 as amended. With `canHold` true and a piece held, `holdCurrentPiece` makes the held
piece active at `(3, 0)`, holds the formerly active piece with its row set to 0 and its
column as it was, generates no piece (the next piece and the count of random draws are
unchanged) and clears `canHold`; nothing else changes. -/
theorem hold_swap_spec (rand : Nat → Fin 7) (s : Game) (p h : Piece)
    (hc : s.canHold = true) (hp : s.piece = some p) (hh : s.holdPiece = some h) :
    ∃ s1, holdCurrentPiece rand s = some s1 ∧
      s1.piece = some { h with x := 3, y := 0 } ∧
      s1.holdPiece = some { p with y := 0 } ∧
      s1.nextPiece = s.nextPiece ∧ s1.draws = s.draws ∧ s1.canHold = false ∧
      s1 = { s with piece := s1.piece, holdPiece := s1.holdPiece, canHold := false } := by
  refine ⟨_, by simp only [holdCurrentPiece, hc, hh, hp]; rfl, ?_⟩
  simp

/-- Witness of C11 as amended: a T piece at `(5, 7)` swapped with a held I piece. -/
theorem hold_swap_spec_witness :
    swapState.canHold = true ∧
    swapState.piece = some { Piece.new 6 with x := 5, y := 7 } ∧
    swapState.holdPiece = some { Piece.new 1 with x := 3, y := 0 } ∧
    ∃ s1, holdCurrentPiece stackRand swapState = some s1 ∧
      s1.piece = some { ({ Piece.new 1 with x := 3, y := 0 } : Piece) with x := 3, y := 0 } ∧
      s1.holdPiece = some { ({ Piece.new 6 with x := 5, y := 7 } : Piece) with y := 0 } ∧
      s1.nextPiece = swapState.nextPiece ∧ s1.draws = swapState.draws ∧ s1.canHold = false ∧
      s1 = { swapState with piece := s1.piece, holdPiece := s1.holdPiece, canHold := false } :=
  ⟨rfl, rfl, rfl, hold_swap_spec stackRand swapState _ _ rfl rfl rfl⟩

/-- C11 as stated fails: after the swap of a T piece at `(5, 7)` with a held I piece, the
held T piece has column 5 and row 0; it is not at `(3, 0)`. -/
theorem hold_swap_held_x_not_reset :
    swapState.canHold = true ∧
    swapState.piece = some { Piece.new 6 with x := 5, y := 7 } ∧
    swapState.holdPiece = some { Piece.new 1 with x := 3, y := 0 } ∧
    ∃ s1, holdCurrentPiece stackRand swapState = some s1 ∧
      s1.holdPiece = some { Piece.new 6 with x := 5, y := 0 } ∧
      s1.holdPiece ≠ some { Piece.new 6 with x := 3, y := 0 } :=
  ⟨rfl, rfl, rfl, _, rfl, rfl, by decide⟩

/-! ## Horizontal input: auto-repeat and cancel -/

/-- With an active piece `move` returns a state, again with an active piece. -/
theorem move_some {s : Game} {p : Piece} (hp : s.piece = some p) (dx dy : Int) :
    ∃ r q, move s dx dy = some r ∧ r.1.piece = some q := by
  unfold move
  simp only [hp]
  split <;> exact ⟨_, _, rfl, rfl⟩

/-- `move` does not read the left timer. -/
theorem move_setLeftTimer (s : Game) (t dx dy : Int) :
    move { s with leftTimer := t } dx dy =
      (move s dx dy).map (fun r => ({ r.1 with leftTimer := t }, r.2)) := by
  unfold move
  cases hp : s.piece with
  | none => simp [hp]
  | some p =>
    simp only [hp]
    split <;> rfl

/-- `move` does not read the right timer. -/
theorem move_setRightTimer (s : Game) (t dx dy : Int) :
    move { s with rightTimer := t } dx dy =
      (move s dx dy).map (fun r => ({ r.1 with rightTimer := t }, r.2)) := by
  unfold move
  cases hp : s.piece with
  | none => simp [hp]
  | some p =>
    simp only [hp]
    split <;> rfl

/-- Repeated moves do not read the left timer. -/
theorem moveTimes_setLeftTimer (dx : Int) (n : Nat) : ∀ (s : Game) (t : Int),
    moveTimes dx n { s with leftTimer := t } = { moveTimes dx n s with leftTimer := t } := by
  induction n with
  | zero => intro s t; rfl
  | succ n ih =>
    intro s t
    rw [moveTimes, moveTimes, move_setLeftTimer]
    cases hm : move s dx 0 with
    | none => rfl
    | some r => simp only [Option.map_some']; exact ih r.1 t

/-- Repeated moves do not read the right timer. -/
theorem moveTimes_setRightTimer (dx : Int) (n : Nat) : ∀ (s : Game) (t : Int),
    moveTimes dx n { s with rightTimer := t } = { moveTimes dx n s with rightTimer := t } := by
  induction n with
  | zero => intro s t; rfl
  | succ n ih =>
    intro s t
    rw [moveTimes, moveTimes, move_setRightTimer]
    cases hm : move s dx 0 with
    | none => rfl
    | some r => simp only [Option.map_some']; exact ih r.1 t

/-- Above 190 one round of a repeat loop lowers the timer by 30 and leaves one round less. -/
theorem repeatCount_step (t : Int) (h : t > 190) : repeatCount t = repeatCount (t - 30) + 1 := by
  unfold repeatCount
  rw [if_pos h]
  by_cases h2 : t - 30 > 190
  · rw [if_pos h2]; omega
  · rw [if_neg h2]; omega

/-- No round up to 190; above 190 at least one round, and the timer ends above 160 and at
most at 190. -/
theorem repeatCount_bounds (t : Int) :
    (t ≤ 190 → repeatCount t = 0) ∧
    (t > 190 → 1 ≤ repeatCount t ∧ 160 < t - 30 * repeatCount t ∧
      t - 30 * repeatCount t ≤ 190) := by
  unfold repeatCount
  constructor
  · intro h; rw [if_neg (by omega)]
  · intro h; rw [if_pos h]; omega

/-- The left repeat loop makes `repeatCount` moves to the left and lowers the timer by 30 for
each. -/
theorem leftRepeat_eq (fuel : Nat) : ∀ (s : Game) (p : Piece), s.piece = some p →
    s.leftTimer ≤ fuel →
    leftRepeat fuel s =
      some { moveTimes (-1) (repeatCount s.leftTimer) s with
        leftTimer := s.leftTimer - 30 * repeatCount s.leftTimer } := by
  induction fuel with
  | zero =>
    intro s p _ hf
    have h0 : repeatCount s.leftTimer = 0 := (repeatCount_bounds _).1 (by omega)
    have hn : ¬ s.leftTimer > dasDelay + arrDelay := by unfold dasDelay arrDelay; omega
    rw [leftRepeat, if_neg hn, h0]
    simp [moveTimes]
  | succ fuel ih =>
    intro s p hp hf
    rw [leftRepeat]
    by_cases hc : s.leftTimer > dasDelay + arrDelay
    · have hc2 : s.leftTimer > 190 := by unfold dasDelay arrDelay at hc; omega
      rw [if_pos hc]
      obtain ⟨r, q, hm, hq⟩ := move_some hp (-1) 0
      have ht := (move_timers hm).1
      rw [hm]
      simp only []
      rw [ih _ q (by simpa using hq) (by simp only [ht]; unfold arrDelay; push_cast at hf; omega)]
      rw [repeatCount_step _ hc2, moveTimes, hm]
      simp only [ht, arrDelay, moveTimes_setLeftTimer]
      congr 2
      push_cast
      ring
    · have h0 : repeatCount s.leftTimer = 0 :=
        (repeatCount_bounds _).1 (by unfold dasDelay arrDelay at hc; omega)
      rw [if_neg hc, h0]
      simp [moveTimes]

/-- The right repeat loop makes `repeatCount` moves to the right and lowers the timer by 30
for each. -/
theorem rightRepeat_eq (fuel : Nat) : ∀ (s : Game) (p : Piece), s.piece = some p →
    s.rightTimer ≤ fuel →
    rightRepeat fuel s =
      some { moveTimes 1 (repeatCount s.rightTimer) s with
        rightTimer := s.rightTimer - 30 * repeatCount s.rightTimer } := by
  induction fuel with
  | zero =>
    intro s p _ hf
    have h0 : repeatCount s.rightTimer = 0 := (repeatCount_bounds _).1 (by omega)
    have hn : ¬ s.rightTimer > dasDelay + arrDelay := by unfold dasDelay arrDelay; omega
    rw [rightRepeat, if_neg hn, h0]
    simp [moveTimes]
  | succ fuel ih =>
    intro s p hp hf
    rw [rightRepeat]
    by_cases hc : s.rightTimer > dasDelay + arrDelay
    · have hc2 : s.rightTimer > 190 := by unfold dasDelay arrDelay at hc; omega
      rw [if_pos hc]
      obtain ⟨r, q, hm, hq⟩ := move_some hp 1 0
      have ht := (move_timers hm).2.1
      rw [hm]
      simp only []
      rw [ih _ q (by simpa using hq) (by simp only [ht]; unfold arrDelay; push_cast at hf; omega)]
      rw [repeatCount_step _ hc2, moveTimes, hm]
      simp only [ht, arrDelay, moveTimes_setRightTimer]
      congr 2
      push_cast
      ring
    · have h0 : repeatCount s.rightTimer = 0 :=
        (repeatCount_bounds _).1 (by unfold dasDelay arrDelay at hc; omega)
      rw [if_neg hc, h0]
      simp [moveTimes]

/-- `SameInput` is reflexive. -/
theorem sameInput_refl (s : Game) : SameInput s s := ⟨rfl, rfl, rfl, rfl⟩

/-- `SameInput` is transitive. -/
theorem sameInput_trans {s s1 s2 : Game} (h1 : SameInput s s1) (h2 : SameInput s1 s2) :
    SameInput s s2 :=
  ⟨h2.1.trans h1.1, h2.2.1.trans h1.2.1, h2.2.2.1.trans h1.2.2.1, h2.2.2.2.trans h1.2.2.2⟩

/-- `spawnPiece` leaves the input fields alone. -/
theorem spawnPiece_sameInput {rand : Nat → Fin 7} {s s1 : Game}
    (h : spawnPiece rand s = some s1) : SameInput s s1 := by
  unfold spawnPiece at h
  cases hp : s.nextPiece with
  | none => simp [hp] at h
  | some p =>
    simp only [hp] at h
    split at h <;> simp at h <;> subst h <;> exact ⟨rfl, rfl, rfl, rfl⟩

/-- `updateStats` leaves the input fields alone. -/
theorem updateStats_sameInput {s s1 : Game} {n : Int} (h : updateStats s n = some s1) :
    SameInput s s1 := by
  unfold updateStats at h
  split at h
  · simp at h
  · simp at h; subst h; exact ⟨rfl, rfl, rfl, rfl⟩

/-- `lock` leaves the input fields alone. -/
theorem lock_sameInput {rand : Nat → Fin 7} {s s1 : Game} (h : lock rand s = some s1) :
    SameInput s s1 := by
  unfold lock at h
  cases hp : s.piece with
  | none => simp [hp] at h
  | some p =>
    simp only [hp] at h
    split at h
    · simp at h
    · rename_i s2 hs2
      refine sameInput_trans ?_ (spawnPiece_sameInput h)
      split at hs2
      · refine sameInput_trans ?_ (updateStats_sameInput hs2)
        exact ⟨rfl, rfl, rfl, rfl⟩
      · simp at hs2; subst hs2; exact ⟨rfl, rfl, rfl, rfl⟩

/-- `drop` leaves the input fields alone. -/
theorem drop_sameInput {rand : Nat → Fin 7} {s s1 : Game} (h : drop rand s = some s1) :
    SameInput s s1 := by
  unfold drop at h
  cases hp : s.piece with
  | none => simp [hp] at h
  | some p =>
    simp only [hp] at h
    split at h
    · split at h
      · simp at h
      · rename_i s2 hs2
        simp at h; subst h
        have := lock_sameInput hs2
        exact ⟨this.1, this.2.1, this.2.2.1, this.2.2.2⟩
    · simp at h; subst h; exact ⟨rfl, rfl, rfl, rfl⟩

/-- The soft-drop repeat loop leaves the input fields alone. -/
theorem downRepeat_sameInput (rand : Nat → Fin 7) (fuel : Nat) :
    ∀ {s s1 : Game}, downRepeat rand fuel s = some s1 → SameInput s s1 := by
  induction fuel with
  | zero =>
    intro s s1 h
    unfold downRepeat at h
    split at h <;> simp at h
    subst h; exact sameInput_refl _
  | succ fuel ih =>
    intro s s1 h
    unfold downRepeat at h
    split at h
    · split at h
      · simp at h
      · rename_i s2 hs2
        have h2 := ih h
        have h1 := drop_sameInput hs2
        exact ⟨h2.1.trans h1.1, h2.2.1.trans h1.2.1, h2.2.2.1.trans h1.2.2.1,
          h2.2.2.2.trans h1.2.2.2⟩
    · simp at h; subst h; exact sameInput_refl _

/-- The soft-drop block leaves the horizontal timers, the key flags and the snapshot alone. -/
theorem softDropInput_sameInput {rand : Nat → Fin 7} {s s1 : Game} {dt : Int}
    (h : softDropInput rand s dt = some s1) : SameInput s s1 := by
  unfold softDropInput at h
  dsimp only at h
  split at h
  · split at h
    · split at h
      · simp at h
      · rename_i s2 hs2
        simp at h; subst h
        have := drop_sameInput hs2
        exact ⟨this.1, this.2.1, this.2.2.1, this.2.2.2⟩
    · split at h
      · have := downRepeat_sameInput rand _ h
        exact ⟨this.1, this.2.1, this.2.2.1, this.2.2.2⟩
      · simp at h; subst h; exact ⟨rfl, rfl, rfl, rfl⟩
  · simp at h; subst h; exact ⟨rfl, rfl, rfl, rfl⟩

/-- With an active piece and no press edge of rotateCW, rotateCCW or hold, `handleInput` is
the horizontal block, then the soft-drop block, then the update of the key snapshot. -/
theorem handleInput_no_edges (rand : Nat → Fin 7) (s : Game) (dt : Int) (p : Piece)
    (hp : s.piece = some p)
    (hcw : (s.keys.rotateCW && !s.prevKeys.rotateCW) = false)
    (hccw : (s.keys.rotateCCW && !s.prevKeys.rotateCCW) = false)
    (hh : (s.keys.hold && !s.prevKeys.hold) = false) :
    handleInput rand s dt =
      (horizontalInput s dt).bind (fun s2 =>
        (softDropInput rand s2 dt).map (fun s3 => { s3 with prevKeys := s3.keys })) := by
  unfold handleInput
  simp only [hp, rotateInput, hcw, hccw, hh, Bool.false_eq_true, if_false]
  cases h2 : horizontalInput s dt with
  | none => simp
  | some s2 =>
    cases h3 : softDropInput rand s2 dt with
    | none => simp [h3]
    | some s3 => simp [h3]

/-- C18. With an active piece, left and right both held and no press edge of a rotation or
of hold, the horizontal block of `handleInput` makes no move: it only sets both
horizontal timers to 0, whatever the key snapshot and the timers were. The rest of
`handleInput` is the soft-drop block, which does not touch the two timers, so both are
0 when `handleInput` returns; with the down key up, the active piece and all the rest
of the state are as before. -/
theorem both_keys_cancel (rand : Nat → Fin 7) (s : Game) (deltaTime : Int) (p : Piece)
    (hp : s.piece = some p) (hl : s.keys.left = true) (hr : s.keys.right = true)
    (hcw : (s.keys.rotateCW && !s.prevKeys.rotateCW) = false)
    (hccw : (s.keys.rotateCCW && !s.prevKeys.rotateCCW) = false)
    (hh : (s.keys.hold && !s.prevKeys.hold) = false) :
    horizontalInput s deltaTime = some { s with leftTimer := 0, rightTimer := 0 } ∧
    handleInput rand s deltaTime =
      (softDropInput rand { s with leftTimer := 0, rightTimer := 0 } deltaTime).map
        (fun s3 => { s3 with prevKeys := s3.keys }) ∧
    (∀ s1, handleInput rand s deltaTime = some s1 → s1.leftTimer = 0 ∧ s1.rightTimer = 0) ∧
    (s.keys.down = false →
      handleInput rand s deltaTime =
        some { s with leftTimer := 0, rightTimer := 0, downTimer := 0, prevKeys := s.keys }) := by
  have hhor : horizontalInput s deltaTime = some { s with leftTimer := 0, rightTimer := 0 } := by
    simp [horizontalInput, hl, hr]
  have hin := handleInput_no_edges rand s deltaTime p hp hcw hccw hh
  rw [hhor] at hin
  simp only [Option.some_bind] at hin
  refine ⟨hhor, hin, ?_, ?_⟩
  · intro s1 h1
    rw [hin] at h1
    cases hsd : softDropInput rand { s with leftTimer := 0, rightTimer := 0 } deltaTime with
    | none => rw [hsd] at h1; simp at h1
    | some s3 =>
      rw [hsd] at h1
      simp at h1
      subst h1
      have := softDropInput_sameInput hsd
      exact ⟨this.1, this.2.1⟩
  · intro hd
    rw [hin]
    simp [softDropInput, hd]

/-- The shift run passes its check. -/
theorem shiftRun_check : (start stackRand Game.new).any shiftCheck = true := by
  decide

/-- C17 as stated fails: after `start`, a frame with the left key newly pressed and a frame
170 ms later with the key still down leave the left timer at 170, above the DAS delay
of 160, and yet no move is made in that frame: the piece stays at column 2 although it
is valid at column 1. -/
theorem das_no_move_between_160_and_190 :
    ∃ s0 s1 s2, start stackRand Game.new = some s0 ∧
      tick stackRand s0 keysLeft 10 = some s1 ∧
      s1.leftTimer = 0 ∧ s1.piece = some { spawnedI with x := 2 } ∧
      tick stackRand s1 keysLeft 170 = some s2 ∧
      s2.leftTimer = 170 ∧ s2.leftTimer > dasDelay ∧
      s2.piece = some { spawnedI with x := 2 } ∧
      isValid s2.grid { spawnedI with x := 1 } = true := by
  have key := shiftRun_check
  cases h0 : start stackRand Game.new with
  | none => rw [h0] at key; exact absurd key (by decide)
  | some s0 =>
    rw [h0] at key
    simp only [Option.any_some] at key
    unfold shiftCheck at key
    cases h1 : tick stackRand s0 keysLeft 10 with
    | none => simp [h1] at key
    | some s1 =>
      simp only [h1] at key
      cases h2 : tick stackRand s1 keysLeft 170 with
      | none => simp [h2] at key
      | some s2 =>
        simp only [h2, Bool.and_eq_true, beq_iff_eq] at key
        obtain ⟨⟨k1, k2⟩, ⟨k3, k4⟩, k5⟩ := key
        exact ⟨s0, s1, s2, rfl, h1, k1, k2, h2, k3, by rw [k3]; decide, k4, k5⟩

/-- C17 as amended. With an active piece and no press edge of a rotation or of hold,
`handleInput` is the horizontal block followed by the soft-drop block. When exactly one
horizontal key is held and was held on the frame before, the horizontal block zeroes
the other timer, adds `deltaTime` to the timer of the held direction, giving `T`, makes
`repeatCount T` one-column moves in that direction and subtracts 30 from the timer for
each. `repeatCount T` is 0 when `T` is at most 190 (the DAS delay 160 plus one ARR
interval 30); above 190 it is at least 1, it is `ceil((T - 190) / 30)`, and the timer
ends above 160 and at most at 190. -/
theorem das_repeat_spec (rand : Nat → Fin 7) (s : Game) (deltaTime : Int) (p : Piece)
    (hp : s.piece = some p)
    (hcw : (s.keys.rotateCW && !s.prevKeys.rotateCW) = false)
    (hccw : (s.keys.rotateCCW && !s.prevKeys.rotateCCW) = false)
    (hh : (s.keys.hold && !s.prevKeys.hold) = false) :
    handleInput rand s deltaTime =
      (horizontalInput s deltaTime).bind (fun s2 =>
        (softDropInput rand s2 deltaTime).map (fun s3 => { s3 with prevKeys := s3.keys })) ∧
    (s.keys.left = true → s.keys.right = false → s.prevKeys.left = true →
      horizontalInput s deltaTime =
        some { moveTimes (-1) (repeatCount (s.leftTimer + deltaTime))
            { s with rightTimer := 0, leftTimer := s.leftTimer + deltaTime } with
          leftTimer := s.leftTimer + deltaTime - 30 * repeatCount (s.leftTimer + deltaTime) }) ∧
    (s.keys.right = true → s.keys.left = false → s.prevKeys.right = true →
      horizontalInput s deltaTime =
        some { moveTimes 1 (repeatCount (s.rightTimer + deltaTime))
            { s with leftTimer := 0, rightTimer := s.rightTimer + deltaTime } with
          rightTimer :=
            s.rightTimer + deltaTime - 30 * repeatCount (s.rightTimer + deltaTime) }) ∧
    (∀ t : Int,
      (t ≤ 190 → repeatCount t = 0) ∧
      (t > 190 → 1 ≤ repeatCount t ∧ 30 * ((repeatCount t : Int) - 1) < t - 190 ∧
        t - 190 ≤ 30 * repeatCount t ∧
        160 < t - 30 * repeatCount t ∧ t - 30 * repeatCount t ≤ 190)) := by
  refine ⟨handleInput_no_edges rand s deltaTime p hp hcw hccw hh, ?_, ?_, ?_⟩
  · intro hl hr hpl
    unfold horizontalInput
    simp only [hl, hr, hpl, Bool.and_false, Bool.false_eq_true, if_false, if_true,
      Bool.not_true]
    by_cases hT : s.leftTimer + deltaTime > dasDelay
    · rw [if_pos hT]
      have hT2 : s.leftTimer + deltaTime > 160 := hT
      exact leftRepeat_eq (s.leftTimer + deltaTime).toNat
        { s with rightTimer := 0, leftTimer := s.leftTimer + deltaTime } p hp
        (by simp only []; omega)
    · rw [if_neg hT]
      have hT2 : ¬ s.leftTimer + deltaTime > 160 := hT
      have h0 : repeatCount (s.leftTimer + deltaTime) = 0 :=
        (repeatCount_bounds _).1 (by omega)
      rw [h0]
      simp [moveTimes]
  · intro hr hl hpr
    unfold horizontalInput
    simp only [hl, hr, hpr, Bool.false_and, Bool.false_eq_true, if_false, if_true,
      Bool.not_true]
    by_cases hT : s.rightTimer + deltaTime > dasDelay
    · rw [if_pos hT]
      have hT2 : s.rightTimer + deltaTime > 160 := hT
      exact rightRepeat_eq (s.rightTimer + deltaTime).toNat
        { s with leftTimer := 0, rightTimer := s.rightTimer + deltaTime } p hp
        (by simp only []; omega)
    · rw [if_neg hT]
      have hT2 : ¬ s.rightTimer + deltaTime > 160 := hT
      have h0 : repeatCount (s.rightTimer + deltaTime) = 0 :=
        (repeatCount_bounds _).1 (by omega)
      rw [h0]
      simp [moveTimes]
  · intro t
    have hb := repeatCount_bounds t
    refine ⟨hb.1, fun h => ?_⟩
    have := hb.2 h
    omega

/-- Witness of C17 as amended: the left key held with the timer at 150 and a frame of 100 ms. -/
theorem das_repeat_spec_witness :
    shiftState.piece = some { Piece.new 6 with x := 5, y := 7 } ∧
    (shiftState.keys.rotateCW && !shiftState.prevKeys.rotateCW) = false ∧
    (shiftState.keys.rotateCCW && !shiftState.prevKeys.rotateCCW) = false ∧
    (shiftState.keys.hold && !shiftState.prevKeys.hold) = false ∧
    (handleInput stackRand shiftState 100 =
      (horizontalInput shiftState 100).bind (fun s2 =>
        (softDropInput stackRand s2 100).map (fun s3 => { s3 with prevKeys := s3.keys })) ∧
    (shiftState.keys.left = true → shiftState.keys.right = false →
      shiftState.prevKeys.left = true →
      horizontalInput shiftState 100 =
        some { moveTimes (-1) (repeatCount (shiftState.leftTimer + 100))
            { shiftState with rightTimer := 0, leftTimer := shiftState.leftTimer + 100 } with
          leftTimer := shiftState.leftTimer + 100 -
            30 * repeatCount (shiftState.leftTimer + 100) }) ∧
    (shiftState.keys.right = true → shiftState.keys.left = false →
      shiftState.prevKeys.right = true →
      horizontalInput shiftState 100 =
        some { moveTimes 1 (repeatCount (shiftState.rightTimer + 100))
            { shiftState with leftTimer := 0, rightTimer := shiftState.rightTimer + 100 } with
          rightTimer := shiftState.rightTimer + 100 -
            30 * repeatCount (shiftState.rightTimer + 100) }) ∧
    (∀ t : Int,
      (t ≤ 190 → repeatCount t = 0) ∧
      (t > 190 → 1 ≤ repeatCount t ∧ 30 * ((repeatCount t : Int) - 1) < t - 190 ∧
        t - 190 ≤ 30 * repeatCount t ∧
        160 < t - 30 * repeatCount t ∧ t - 30 * repeatCount t ≤ 190))) :=
  ⟨rfl, rfl, rfl, rfl,
    das_repeat_spec stackRand shiftState 100 { Piece.new 6 with x := 5, y := 7 }
      rfl rfl rfl rfl⟩

/-- Witness of C18: both keys held with the left timer at 175. -/
theorem both_keys_cancel_witness :
    bothKeysState.piece = some { Piece.new 6 with x := 5, y := 7 } ∧
    bothKeysState.keys.left = true ∧ bothKeysState.keys.right = true ∧
    (bothKeysState.keys.rotateCW && !bothKeysState.prevKeys.rotateCW) = false ∧
    (bothKeysState.keys.rotateCCW && !bothKeysState.prevKeys.rotateCCW) = false ∧
    (bothKeysState.keys.hold && !bothKeysState.prevKeys.hold) = false ∧
    (horizontalInput bothKeysState 100 =
      some { bothKeysState with leftTimer := 0, rightTimer := 0 } ∧
    handleInput stackRand bothKeysState 100 =
      (softDropInput stackRand { bothKeysState with leftTimer := 0, rightTimer := 0 } 100).map
        (fun s3 => { s3 with prevKeys := s3.keys }) ∧
    (∀ s1, handleInput stackRand bothKeysState 100 = some s1 →
      s1.leftTimer = 0 ∧ s1.rightTimer = 0) ∧
    (bothKeysState.keys.down = false →
      handleInput stackRand bothKeysState 100 =
        some { bothKeysState with
          leftTimer := 0, rightTimer := 0, downTimer := 0, prevKeys := bothKeysState.keys })) :=
  ⟨rfl, rfl, rfl, rfl, rfl, rfl,
    both_keys_cancel stackRand bothKeysState 100 { Piece.new 6 with x := 5, y := 7 }
      rfl rfl rfl rfl rfl rfl⟩

/-! ## The key snapshot and drop -/

/-- The hold-press run passes its check. -/
theorem snapshotRun_check : (start stackRand Game.new).any snapshotCheck = true := by
  decide

/-- C19 fails on the code. After `start`, a frame with the hold key newly pressed ends in
the hold branch of `handleInput`, which returns before the snapshot is updated: the
key flags show hold, the snapshot still shows no key. With hold and rotateCW held down
over three frames the snapshot never catches up, so the rotation press edge fires again
in every frame: the piece spawned in the first frame has been rotated twice after the
third. -/
theorem hold_press_keeps_old_snapshot :
    ∃ s0 s1 s3, start stackRand Game.new = some s0 ∧
      handleInput stackRand { s0 with keys := keysHold } 10 = some s1 ∧
      s1.keys = keysHold ∧ s1.prevKeys = noKeys ∧ s1.prevKeys ≠ s1.keys ∧
      runTicks stackRand s0
        [(keysHoldRotate, 10), (keysHoldRotate, 10), (keysHoldRotate, 10)] = some s3 ∧
      s3.keys = keysHoldRotate ∧ s3.prevKeys = noKeys ∧
      s3.piece = some { spawnedI with shape := rotateCWShape (rotateCWShape spawnedI.shape) } := by
  have key := snapshotRun_check
  cases h0 : start stackRand Game.new with
  | none => rw [h0] at key; exact absurd key (by decide)
  | some s0 =>
    rw [h0] at key
    simp only [Option.any_some] at key
    unfold snapshotCheck at key
    cases h1 : handleInput stackRand { s0 with keys := keysHold } 10 with
    | none => simp [h1] at key
    | some s1 =>
      cases h3 : runTicks stackRand s0
          [(keysHoldRotate, 10), (keysHoldRotate, 10), (keysHoldRotate, 10)] with
      | none => simp [h1, h3] at key
      | some s3 =>
        simp only [h1, h3, Bool.and_eq_true, beq_iff_eq] at key
        obtain ⟨⟨k1, k2⟩, ⟨k3, k4⟩, k5⟩ := key
        refine ⟨s0, s1, s3, rfl, h1, k1, k2, ?_, h3, k3, k4, k5⟩
        rw [k1, k2]
        decide

/-- The cells of the T piece on the floor lie on the board. -/
theorem floorPiece_inside :
    ∀ y x : Nat, matGet floorPiece.shape y x > 0 →
      0 ≤ floorPiece.x + x ∧ floorPiece.x + x < 10 ∧ floorPiece.y + y < 20 := by
  intro y x h
  have hd : MatDims floorPiece.shape 3 3 := square_dims (by unfold Square; decide)
  obtain ⟨hy, hx⟩ := matGet_pos_inside hd h
  have ex : floorPiece.x = 5 := rfl
  have ey : floorPiece.y = 18 := rfl
  have hy2 : y ≠ 2 := by
    intro h2
    subst h2
    interval_cases x <;> exact absurd h (by decide)
  omega

/-- C14. On a grid of 20 rows of 10 cells, with an active piece `p` whose non-empty cells
lie in columns 0..9 and in rows below 20: when `p` is valid one row lower, `drop` moves it
down one row, sets `dropCounter` to 0 and changes nothing else, the grid included;
otherwise the row is restored and `drop` is `lock` followed by setting `dropCounter` to
0, where `lock` merges the piece, clears the lines, updates the statistics when lines
were cleared, and spawns. The merge of `lock` writes every non-empty cell of `p` that is
not above the board inside the grid, which keeps its 20 rows of 10 cells. Every state
`drop` returns has `dropCounter` 0, and `drop` does return a state when there is a next
piece and at most 4 lines are cleared. -/
theorem drop_spec (rand : Nat → Fin 7) (s : Game) (p : Piece) (hp : s.piece = some p)
    (hg : GridOk s.grid)
    (hin : ∀ y x : Nat, matGet p.shape y x > 0 →
      0 ≤ p.x + x ∧ p.x + x < 10 ∧ p.y + y < 20) :
    (isValid s.grid { p with y := p.y + 1 } = true →
      drop rand s = some { s with piece := some { p with y := p.y + 1 }, dropCounter := 0 }) ∧
    (isValid s.grid { p with y := p.y + 1 } = false →
      drop rand s = (lock rand s).map (fun s1 => { s1 with dropCounter := 0 })) ∧
    lock rand s =
      ((if (clearLines (merge s.grid p)).2 > 0 then
          updateStats { s with grid := (clearLines (merge s.grid p)).1 }
            (clearLines (merge s.grid p)).2
        else some { s with grid := (clearLines (merge s.grid p)).1 }).bind
        (spawnPiece rand)) ∧
    (GridOk (merge s.grid p) ∧
      ∀ y x : Nat, matGet p.shape y x > 0 → 0 ≤ p.y + y →
        cellAt (merge s.grid p) (p.y + y) (p.x + x) = p.typeId) ∧
    (∀ s1, drop rand s = some s1 → s1.dropCounter = 0) ∧
    (s.nextPiece ≠ none → (clearLines (merge s.grid p)).2 ≤ 4 →
      ∃ s1, drop rand s = some s1 ∧ s1.dropCounter = 0) := by
  have hback : ({ s with piece := some { p with y := p.y + 1 - 1 } } : Game) = s := by
    have : p.y + 1 - 1 = p.y := by omega
    rw [this]
    cases s
    simp_all
  have hlock : lock rand s =
      ((if (clearLines (merge s.grid p)).2 > 0 then
          updateStats { s with grid := (clearLines (merge s.grid p)).1 }
            (clearLines (merge s.grid p)).2
        else some { s with grid := (clearLines (merge s.grid p)).1 }).bind
        (spawnPiece rand)) := by
    unfold lock
    simp only [hp]
    split <;> rename_i h <;> simp [h]
  have hinv : isValid s.grid { p with y := p.y + 1 } = false →
      drop rand s = (lock rand s).map (fun s1 => { s1 with dropCounter := 0 }) := by
    intro hv
    unfold drop
    simp only [hp, hv, Bool.not_false, if_true]
    rw [hback]
    cases lock rand s <;> rfl
  have hval : isValid s.grid { p with y := p.y + 1 } = true →
      drop rand s = some { s with piece := some { p with y := p.y + 1 }, dropCounter := 0 } := by
    intro hv
    unfold drop
    simp [hp, hv]
  have hzero : ∀ s1, drop rand s = some s1 → s1.dropCounter = 0 := by
    intro s1 h1
    by_cases hv : isValid s.grid { p with y := p.y + 1 } = true
    · rw [hval hv] at h1
      simp at h1
      subst h1
      rfl
    · have hf : isValid s.grid { p with y := p.y + 1 } = false := by simpa using hv
      rw [hinv hf] at h1
      cases hl : lock rand s with
      | none => rw [hl] at h1; simp at h1
      | some s2 => rw [hl] at h1; simp at h1; subst h1; rfl
  have hd := gridOk_dims hg
  have hmerge : GridOk (merge s.grid p) ∧
      ∀ y x : Nat, matGet p.shape y x > 0 → 0 ≤ p.y + y →
        cellAt (merge s.grid p) (p.y + y) (p.x + x) = p.typeId := by
    refine ⟨dims_gridOk (merge_dims s.grid p hd), ?_⟩
    intro y x hc hy
    obtain ⟨h1, h2, h3⟩ := hin y x hc
    unfold cellAt
    refine (merge_get s.grid p hd _ _ (by omega) (by omega)).1 ⟨y, x, hc, ?_, ?_⟩ <;> omega
  refine ⟨hval, hinv, hlock, hmerge, hzero, ?_⟩
  intro hnext h4
  by_cases hv : isValid s.grid { p with y := p.y + 1 } = true
  · exact ⟨_, hval hv, rfl⟩
  · have hf : isValid s.grid { p with y := p.y + 1 } = false := by simpa using hv
    have hsome : ∃ s2, lock rand s = some s2 := by
      rw [hlock]
      have hstats : ∃ s2, (if (clearLines (merge s.grid p)).2 > 0 then
          updateStats { s with grid := (clearLines (merge s.grid p)).1 }
            (clearLines (merge s.grid p)).2
        else some { s with grid := (clearLines (merge s.grid p)).1 }) = some s2 ∧
          s2.nextPiece = s.nextPiece := by
        split
        · rename_i hpos
          generalize (clearLines (merge s.grid p)).2 = n at hpos h4
          have hn : n = 1 ∨ n = 2 ∨ n = 3 ∨ n = 4 := by omega
          rcases hn with h | h | h | h <;> subst h <;> simp [updateStats, points]
        · exact ⟨_, rfl, rfl⟩
      obtain ⟨s2, hs2, hn2⟩ := hstats
      rw [hs2]
      simp only [Option.some_bind]
      cases hnp : s2.nextPiece with
      | none => rw [hn2] at hnp; exact absurd hnp hnext
      | some np =>
        unfold spawnPiece
        simp only [hnp]
        split <;> exact ⟨_, rfl⟩
    obtain ⟨s2, hs2⟩ := hsome
    refine ⟨{ s2 with dropCounter := 0 }, ?_, rfl⟩
    rw [hinv hf, hs2]
    rfl

/-- Witness of C14: a T piece resting on the floor of the empty grid, which `drop` locks. -/
theorem drop_spec_witness :
    floorState.piece = some floorPiece ∧ GridOk floorState.grid ∧
    (∀ y x : Nat, matGet floorPiece.shape y x > 0 →
      0 ≤ floorPiece.x + x ∧ floorPiece.x + x < 10 ∧ floorPiece.y + y < 20) ∧
    ((isValid floorState.grid { floorPiece with y := floorPiece.y + 1 } = true →
      drop stackRand floorState =
        some { floorState with
          piece := some { floorPiece with y := floorPiece.y + 1 }, dropCounter := 0 }) ∧
    (isValid floorState.grid { floorPiece with y := floorPiece.y + 1 } = false →
      drop stackRand floorState =
        (lock stackRand floorState).map (fun s1 => { s1 with dropCounter := 0 })) ∧
    lock stackRand floorState =
      ((if (clearLines (merge floorState.grid floorPiece)).2 > 0 then
          updateStats
            { floorState with grid := (clearLines (merge floorState.grid floorPiece)).1 }
            (clearLines (merge floorState.grid floorPiece)).2
        else some
          { floorState with grid := (clearLines (merge floorState.grid floorPiece)).1 }).bind
        (spawnPiece stackRand)) ∧
    (GridOk (merge floorState.grid floorPiece) ∧
      ∀ y x : Nat, matGet floorPiece.shape y x > 0 → 0 ≤ floorPiece.y + y →
        cellAt (merge floorState.grid floorPiece) (floorPiece.y + y) (floorPiece.x + x) =
          floorPiece.typeId) ∧
    (∀ s1, drop stackRand floorState = some s1 → s1.dropCounter = 0) ∧
    (floorState.nextPiece ≠ none →
      (clearLines (merge floorState.grid floorPiece)).2 ≤ 4 →
      ∃ s1, drop stackRand floorState = some s1 ∧ s1.dropCounter = 0)) :=
  ⟨rfl, by decide, floorPiece_inside,
    drop_spec stackRand floorState floorPiece rfl (by decide) floorPiece_inside⟩

/-! ## Engine invariants and the board invariant -/

/-- The left repeat loop keeps an engine invariant. -/
theorem engineInv_leftRepeat {rand : Nat → Fin 7} {P : Game → Prop} (hP : EngineInv rand P)
    (fuel : Nat) : ∀ {s s1 : Game}, leftRepeat fuel s = some s1 → P s → P s1 := by
  induction fuel with
  | zero =>
    intro s s1 h hs
    unfold leftRepeat at h
    split at h <;> simp at h
    subst h; exact hs
  | succ fuel ih =>
    intro s s1 h hs
    unfold leftRepeat at h
    split at h
    · split at h
      · simp at h
      · rename_i r hr
        refine ih h (hP.frame ?_ (hP.move hr hs))
        simp [SameCore]
    · simp at h; subst h; exact hs

/-- The right repeat loop keeps an engine invariant. -/
theorem engineInv_rightRepeat {rand : Nat → Fin 7} {P : Game → Prop} (hP : EngineInv rand P)
    (fuel : Nat) : ∀ {s s1 : Game}, rightRepeat fuel s = some s1 → P s → P s1 := by
  induction fuel with
  | zero =>
    intro s s1 h hs
    unfold rightRepeat at h
    split at h <;> simp at h
    subst h; exact hs
  | succ fuel ih =>
    intro s s1 h hs
    unfold rightRepeat at h
    split at h
    · split at h
      · simp at h
      · rename_i r hr
        refine ih h (hP.frame ?_ (hP.move hr hs))
        simp [SameCore]
    · simp at h; subst h; exact hs

/-- The soft-drop repeat loop keeps an engine invariant. -/
theorem engineInv_downRepeat {rand : Nat → Fin 7} {P : Game → Prop} (hP : EngineInv rand P)
    (fuel : Nat) : ∀ {s s1 : Game}, downRepeat rand fuel s = some s1 → P s → P s1 := by
  induction fuel with
  | zero =>
    intro s s1 h hs
    unfold downRepeat at h
    split at h <;> simp at h
    subst h; exact hs
  | succ fuel ih =>
    intro s s1 h hs
    unfold downRepeat at h
    split at h
    · split at h
      · simp at h
      · rename_i s2 hs2
        refine ih h (hP.frame ?_ (hP.drop hs2 hs))
        simp [SameCore]
    · simp at h; subst h; exact hs

/-- The horizontal block keeps an engine invariant. -/
theorem engineInv_horizontalInput {rand : Nat → Fin 7} {P : Game → Prop}
    (hP : EngineInv rand P) {s s1 : Game} {dt : Int} (h : horizontalInput s dt = some s1)
    (hs : P s) : P s1 := by
  unfold horizontalInput at h
  dsimp only at h
  split at h
  · simp at h; subst h; exact hP.frame (by simp [SameCore]) hs
  · split at h
    · split at h
      · split at h
        · simp at h
        · rename_i r hr
          simp at h; subst h
          refine hP.frame ?_ (hP.move hr (hP.frame ?_ hs)) <;> simp [SameCore]
      · split at h
        · exact engineInv_leftRepeat hP _ h (hP.frame (by simp [SameCore]) hs)
        · simp at h; subst h; exact hP.frame (by simp [SameCore]) hs
    · split at h
      · split at h
        · split at h
          · simp at h
          · rename_i r hr
            simp at h; subst h
            refine hP.frame ?_ (hP.move hr (hP.frame ?_ hs)) <;> simp [SameCore]
        · split at h
          · exact engineInv_rightRepeat hP _ h (hP.frame (by simp [SameCore]) hs)
          · simp at h; subst h; exact hP.frame (by simp [SameCore]) hs
      · simp at h; subst h; exact hP.frame (by simp [SameCore]) hs

/-- The soft-drop block keeps an engine invariant. -/
theorem engineInv_softDropInput {rand : Nat → Fin 7} {P : Game → Prop}
    (hP : EngineInv rand P) {s s1 : Game} {dt : Int} (h : softDropInput rand s dt = some s1)
    (hs : P s) : P s1 := by
  unfold softDropInput at h
  dsimp only at h
  split at h
  · split at h
    · split at h
      · simp at h
      · rename_i s2 hs2
        simp at h; subst h
        exact hP.frame (by simp [SameCore]) (hP.drop hs2 hs)
    · split at h
      · exact engineInv_downRepeat hP _ h (hP.frame (by simp [SameCore]) hs)
      · simp at h; subst h; exact hP.frame (by simp [SameCore]) hs
  · simp at h; subst h; exact hP.frame (by simp [SameCore]) hs

/-- The rotation block keeps an engine invariant. -/
theorem engineInv_rotateInput {rand : Nat → Fin 7} {P : Game → Prop}
    (hP : EngineInv rand P) {s s1 : Game} (h : rotateInput s = some s1) (hs : P s) : P s1 := by
  unfold rotateInput at h
  split at h
  · simp at h
  · rename_i s2 hs2
    have h2 : P s2 := by
      split at hs2
      · exact hP.rotate hs2 hs
      · simp at hs2; subst hs2; exact hs
    split at h
    · exact hP.rotate h h2
    · simp at h; subst h; exact h2

/-- `handleInput` keeps an engine invariant. -/
theorem engineInv_handleInput {rand : Nat → Fin 7} {P : Game → Prop}
    (hP : EngineInv rand P) {s s1 : Game} {dt : Int} (h : handleInput rand s dt = some s1)
    (hs : P s) : P s1 := by
  unfold handleInput at h
  split at h
  · simp at h; subst h; exact hs
  · split at h
    · simp at h
    · rename_i s2 hs2
      have h2 := engineInv_rotateInput hP hs2 hs
      split at h
      · exact hP.hold h h2
      · split at h
        · simp at h
        · rename_i s3 hs3
          have h3 := engineInv_horizontalInput hP hs3 h2
          split at h
          · simp at h
          · rename_i s4 hs4
            simp at h; subst h
            exact hP.frame (by simp [SameCore]) (engineInv_softDropInput hP hs4 h3)

/-- `update` keeps an engine invariant. -/
theorem engineInv_update {rand : Nat → Fin 7} {P : Game → Prop}
    (hP : EngineInv rand P) {s s1 : Game} {dt : Int} (h : update rand s dt = some s1)
    (hs : P s) : P s1 := by
  unfold update at h
  dsimp only at h
  split at h
  · simp at h; subst h; exact hs
  · split at h
    · simp at h
    · rename_i s2 hs2
      have h2 := engineInv_handleInput hP hs2 hs
      split at h
      · exact hP.drop h (hP.frame (by simp [SameCore]) h2)
      · simp at h; subst h; exact hP.frame (by simp [SameCore]) h2

/-- A frame keeps an engine invariant. -/
theorem engineInv_tick {rand : Nat → Fin 7} {P : Game → Prop}
    (hP : EngineInv rand P) {s s1 : Game} {keys : Keys} {dt : Int}
    (h : tick rand s keys dt = some s1) (hs : P s) : P s1 :=
  engineInv_update hP h (hP.frame (by simp [SameCore]) hs)

/-- An engine invariant that holds after `start` holds in every reachable state. -/
theorem engineInv_reachable {rand : Nat → Fin 7} {P : Game → Prop}
    (hP : EngineInv rand P) (hstart : ∀ s0 s : Game, start rand s0 = some s → P s)
    {s : Game} (h : Reachable rand s) : P s := by
  induction h with
  | start s0 s hs => exact hstart s0 s hs
  | tick s s1 keys dt _ ht ih => exact engineInv_tick hP ht ih
  | pause s _ ih =>
    unfold togglePause
    split
    · exact ih
    · exact hP.frame (by simp [SameCore]) ih

/-- A valid piece lies inside the board columns and above the floor. -/
theorem isValid_inside {grid : Grid} {p : Piece} (h : isValid grid p = true) :
    PieceInside p := by
  intro y x hc
  by_contra hcon
  have hf : isValid grid p = false := by
    unfold isValid
    rw [isValidRows_false_iff]
    refine ⟨y, x, by simpa [matGet] using hc, ?_⟩
    unfold CellBad
    simp only [Nat.zero_add]
    omega
  rw [h] at hf
  exact absurd hf (by decide)

/-- A well-formed piece at `(3, 0)` lies in columns 3..6 and rows 0..3. -/
theorem pieceOk_inside_spawn {p : Piece} (h : PieceOk p) (y0 : Int) (hy : y0 = 0) :
    PieceInside { p with x := 3, y := y0 } := by
  intro y x hc
  have hd := square_dims h.2.2.2
  have := matGet_pos_inside hd hc
  have h4 := h.2.2.1
  simp only
  omega

/-- `new Piece(t)` is well formed for `t` in 1..7. -/
theorem pieceNew_ok (t : Nat) (h1 : 1 ≤ t) (h7 : t ≤ 7) : PieceOk (Piece.new t) := by
  have : t = 1 ∨ t = 2 ∨ t = 3 ∨ t = 4 ∨ t = 5 ∨ t = 6 ∨ t = 7 := by omega
  rcases this with h | h | h | h | h | h | h <;> subst h <;> unfold PieceOk Square <;> decide

/-- `createPiece` makes a well-formed piece. -/
theorem createPiece_ok (rand : Nat → Fin 7) (n : Nat) : PieceOk (createPiece rand n) :=
  pieceNew_ok _ (by omega) (by have := (rand n).isLt; omega)

/-- A rotation keeps a piece well formed. -/
theorem rotateDir_ok {p : Piece} (h : PieceOk p) (dir : Int) : PieceOk (rotateDir p dir) := by
  obtain ⟨h1, h2, h3, _⟩ := h
  unfold rotateDir
  split
  · exact ⟨h1, h2, by simp only [Piece.rotateCW]; rw [rotateCWShape_length]; exact h3,
      rotateCWShape_square _⟩
  · exact ⟨h1, h2, by simp only [Piece.rotateCCW]; rw [rotateCCWShape_length]; exact h3,
      rotateCCWShape_square _⟩

/-- Well-formedness does not depend on the position. -/
theorem pieceOk_moved {p : Piece} (h : PieceOk p) (x y : Int) :
    PieceOk { p with x := x, y := y } := h

/-- The wall-kick loop leaves the piece as it was or commits a rotation whose clone was
valid at the kicked column. -/
theorem rotateKicks_result (grid : Grid) (p clone : Piece) (dir : Int) (ks : List Int) :
    rotateKicks grid p clone dir ks = p ∨
      ∃ k, rotateKicks grid p clone dir ks = rotateDir { p with x := p.x + k } dir ∧
        isValid grid { clone with x := clone.x + k } = true := by
  induction ks with
  | nil => left; rfl
  | cons k ks ih =>
    rw [rotateKicks]
    by_cases hv : isValid grid { clone with x := clone.x + k } = true
    · right
      exact ⟨k, by simp [hv], hv⟩
    · have hback : ({ clone with x := clone.x + k - k } : Piece) = clone := by
        have : clone.x + k - k = clone.x := by omega
        rw [this]
      simp only [hv, Bool.false_eq_true, if_false]
      rw [hback]
      exact ih

/-- `rotate` changes the active piece only, and leaves it as it was or valid. -/
theorem rotate_result {s s1 : Game} {dir : Int} {p : Piece} (hp : s.piece = some p)
    (h : rotate s dir = some s1) :
    ∃ q, s1 = { s with piece := some q } ∧
      (q = p ∨ (isValid s.grid q = true ∧ ∃ k, q = { rotateDir p dir with x := p.x + k })) := by
  unfold rotate at h
  simp only [hp, Piece.clone] at h
  split at h
  · rename_i hv
    simp at h; subst h
    refine ⟨_, rfl, Or.inr ⟨hv, 0, ?_⟩⟩
    have := (rotateDir_fields p dir).1
    rw [add_zero, ← this]
  · simp at h; subst h
    refine ⟨_, rfl, ?_⟩
    rcases rotateKicks_result s.grid p (rotateDir p dir) dir kicks with h1 | ⟨k, h1, h2⟩
    · left; exact h1
    · right
      rw [h1, rotateDir_withX]
      have hx := (rotateDir_fields p dir).1
      rw [hx] at h2
      exact ⟨h2, k, rfl⟩

/-- With cell values in 0..7 every read gives at most 7. -/
theorem cellsOk_get {grid : Grid} (h : CellsOk grid) (i j : Nat) : matGet grid i j ≤ 7 := by
  unfold matGet
  rw [List.getD_eq_getElem?_getD, List.getD_eq_getElem?_getD]
  cases hr : grid[i]? with
  | none => simp
  | some row =>
    simp only [Option.getD_some]
    cases hv : row[j]? with
    | none => simp
    | some v =>
      simp only [Option.getD_some]
      exact h row (List.getElem?_mem hr) v (List.getElem?_mem hv)

/-- When every read gives at most 7 the cell values are in 0..7. -/
theorem cellsOk_of_get {grid : Grid} (h : ∀ i j, matGet grid i j ≤ 7) : CellsOk grid := by
  intro row hrow v hv
  obtain ⟨i, hi, rfl⟩ := List.getElem_of_mem hrow
  obtain ⟨j, hj, rfl⟩ := List.getElem_of_mem hv
  have := h i j
  unfold matGet at this
  simpa [List.getD_eq_getElem?_getD, List.getElem?_eq_getElem hi,
    List.getElem?_eq_getElem hj] using this

/-- `merge` of a piece with type id at most 7 keeps the cell values in 0..7. -/
theorem merge_cellsOk {grid : Grid} {p : Piece} (hg : GridOk grid) (hc : CellsOk grid)
    (hp : p.typeId ≤ 7) : CellsOk (merge grid p) := by
  apply cellsOk_of_get
  intro i j
  have hd := gridOk_dims hg
  by_cases hin : i < 20 ∧ j < 10
  · have hw := merge_get grid p hd i j hin.1 hin.2
    by_cases hex : ∃ y x, matGet p.shape y x > 0 ∧ p.y + (y : Int) = i ∧ p.x + (x : Int) = j
    · rw [hw.1 hex]; exact hp
    · rw [hw.2 hex]; exact cellsOk_get hc i j
  · rw [matGet_outside (merge_dims grid p hd) i j (by omega)]
    omega

/-- `clearLines` keeps the cell values in 0..7. -/
theorem clearLines_cellsOk {grid : Grid} (hc : CellsOk grid) : CellsOk (clearLines grid).1 := by
  rw [clearLines_grid]
  intro row hrow v hv
  rcases List.mem_append.1 hrow with h | h
  · rw [List.eq_of_mem_replicate h] at hv
    have : v = 0 := List.eq_of_mem_replicate hv
    omega
  · exact hc row (List.mem_filter.1 h).1 v hv

/-- The board invariant does not depend on timers, key flags or the pause flag. -/
theorem boardInv_frame {s s1 : Game} (h : SameCore s s1) (hs : BoardInv s) : BoardInv s1 := by
  obtain ⟨h1, h2, h3, h4, _⟩ := h
  unfold BoardInv
  rw [h1, h2, h3, h4]
  exact hs

/-- `move` keeps the board invariant. -/
theorem boardInv_move {s : Game} {dx dy : Int} {r : Game × Bool}
    (h : move s dx dy = some r) (hs : BoardInv s) : BoardInv r.1 := by
  obtain ⟨g1, g2, g3, g4, g5⟩ := hs
  unfold move at h
  cases hp : s.piece with
  | none => simp [hp] at h
  | some p =>
    simp only [hp] at h
    have hok := (g3 p hp).1
    split at h
    · simp at h; subst h
      refine ⟨g1, g2, ?_, g4, g5⟩
      intro q hq
      simp at hq; subst hq
      exact g3 p hp
    · rename_i hv
      simp at h; subst h
      refine ⟨g1, g2, ?_, g4, g5⟩
      intro q hq
      simp at hq; subst hq
      exact ⟨hok, isValid_inside (by simpa using hv)⟩

/-- `rotate` keeps the board invariant. -/
theorem boardInv_rotate {s s1 : Game} {dir : Int} (h : rotate s dir = some s1)
    (hs : BoardInv s) : BoardInv s1 := by
  obtain ⟨g1, g2, g3, g4, g5⟩ := hs
  cases hp : s.piece with
  | none => simp [rotate, hp] at h
  | some p =>
    obtain ⟨q, rfl, hq⟩ := rotate_result hp h
    refine ⟨g1, g2, ?_, g4, g5⟩
    intro q1 hq1
    simp at hq1; subst hq1
    rcases hq with rfl | ⟨hv, k, rfl⟩
    · exact g3 _ hp
    · exact ⟨rotateDir_ok (g3 p hp).1 dir, isValid_inside hv⟩

/-- `spawnPiece` establishes the board invariant from a good grid and good next and held
pieces. -/
theorem boardInv_spawnPiece {rand : Nat → Fin 7} {s s1 : Game}
    (h : spawnPiece rand s = some s1) (g1 : GridOk s.grid) (g2 : CellsOk s.grid)
    (g4 : ∀ p, s.nextPiece = some p → PieceOk p) (g5 : ∀ p, s.holdPiece = some p → PieceOk p) :
    BoardInv s1 := by
  unfold spawnPiece at h
  cases hn : s.nextPiece with
  | none => simp [hn] at h
  | some np =>
    simp only [hn] at h
    have hok := g4 np hn
    have key : BoardInv { s with
        piece := some { np with x := 3, y := 0 },
        nextPiece := some (createPiece rand s.draws),
        draws := s.draws + 1, canHold := true } := by
      refine ⟨g1, g2, ?_, ?_, g5⟩
      · intro q hq
        simp at hq; subst hq
        exact ⟨hok, pieceOk_inside_spawn hok 0 rfl⟩
      · intro q hq
        simp at hq; subst hq
        exact createPiece_ok rand s.draws
    split at h
    · simp at h; subst h
      exact key
    · simp at h; subst h; exact key

/-- `holdCurrentPiece` keeps the board invariant. -/
theorem boardInv_hold {rand : Nat → Fin 7} {s s1 : Game}
    (h : holdCurrentPiece rand s = some s1) (hs : BoardInv s) : BoardInv s1 := by
  obtain ⟨g1, g2, g3, g4, g5⟩ := hs
  unfold holdCurrentPiece at h
  split at h
  · simp at h; subst h; exact ⟨g1, g2, g3, g4, g5⟩
  · split at h
    · split at h
      · simp at h
      · rename_i p hp
        split at h
        · simp at h
        · rename_i s2 hs2
          simp at h; subst h
          have h2 : BoardInv s2 := by
            refine boardInv_spawnPiece hs2 g1 g2 g4 ?_
            intro q hq
            simp at hq; subst hq
            exact (g3 p hp).1
          exact h2
    · rename_i hd hhold
      split at h
      · simp at h
      · rename_i p hp
        simp at h; subst h
        refine ⟨g1, g2, ?_, g4, ?_⟩
        · intro q hq
          simp at hq; subst hq
          exact ⟨g5 hd hhold, pieceOk_inside_spawn (g5 hd hhold) 0 rfl⟩
        · intro q hq
          simp at hq; subst hq
          exact (g3 p hp).1

/-- `updateStats` keeps the board invariant. -/
theorem boardInv_updateStats {s s1 : Game} {n : Int} (h : updateStats s n = some s1)
    (hs : BoardInv s) : BoardInv s1 := by
  unfold updateStats at h
  split at h
  · simp at h
  · simp at h; subst h; exact hs

/-- `lock` keeps the board invariant. -/
theorem boardInv_lock {rand : Nat → Fin 7} {s s1 : Game} (h : lock rand s = some s1)
    (hs : BoardInv s) : BoardInv s1 := by
  obtain ⟨g1, g2, g3, g4, g5⟩ := hs
  unfold lock at h
  cases hp : s.piece with
  | none => simp [hp] at h
  | some p =>
    simp only [hp] at h
    have hm1 : GridOk (merge s.grid p) := dims_gridOk (merge_dims s.grid p (gridOk_dims g1))
    have hm2 : CellsOk (merge s.grid p) := merge_cellsOk g1 g2 (g3 p hp).1.2.1
    have hc1 : GridOk (clearLines (merge s.grid p)).1 := (clearLines_spec _ hm1).2.2
    have hc2 : CellsOk (clearLines (merge s.grid p)).1 := clearLines_cellsOk hm2
    have hcl : BoardInv { s with grid := (clearLines (merge s.grid p)).1 } :=
      ⟨hc1, hc2, g3, g4, g5⟩
    split at h
    · simp at h
    · rename_i s2 hs2
      have h2 : BoardInv s2 := by
        split at hs2
        · refine boardInv_updateStats hs2 ?_
          simp only [hp] at hcl ⊢
          exact hcl
        · simp at hs2; subst hs2
          simp only [hp] at hcl ⊢
          exact hcl
      exact boardInv_spawnPiece h h2.1 h2.2.1 h2.2.2.2.1 h2.2.2.2.2

/-- `drop` keeps the board invariant. -/
theorem boardInv_drop {rand : Nat → Fin 7} {s s1 : Game} (h : drop rand s = some s1)
    (hs : BoardInv s) : BoardInv s1 := by
  unfold drop at h
  cases hp : s.piece with
  | none => simp [hp] at h
  | some p =>
    simp only [hp] at h
    split at h
    · split at h
      · simp at h
      · rename_i s2 hs2
        simp at h; subst h
        have hpre : BoardInv { s with piece := some { p with y := p.y + 1 - 1 } } := by
          have e : p.y + 1 - 1 = p.y := by omega
          rw [e]
          obtain ⟨g1, g2, g3, g4, g5⟩ := hs
          refine ⟨g1, g2, ?_, g4, g5⟩
          intro q hq
          simp at hq; subst hq
          exact g3 p hp
        exact boardInv_frame (by simp [SameCore]) (boardInv_lock hs2 hpre)
    · rename_i hv
      simp at h; subst h
      obtain ⟨g1, g2, g3, g4, g5⟩ := hs
      refine ⟨g1, g2, ?_, g4, g5⟩
      intro q hq
      simp at hq; subst hq
      exact ⟨(g3 p hp).1, isValid_inside (by simpa using hv)⟩

/-- The board invariant is an engine invariant. -/
theorem boardInv_engine (rand : Nat → Fin 7) : EngineInv rand BoardInv :=
  { frame := boardInv_frame, move := boardInv_move, rotate := boardInv_rotate,
    hold := boardInv_hold, drop := boardInv_drop }

/-- The board invariant holds after `start`. -/
theorem boardInv_start {rand : Nat → Fin 7} (s0 s : Game) (h : start rand s0 = some s) :
    BoardInv s := by
  unfold start at h
  have hg : GridOk getEmptyGrid := by decide
  refine boardInv_spawnPiece h hg ?_ ?_ ?_
  · intro row hrow v hv
    have hr : row = emptyRow := List.eq_of_mem_replicate hrow
    rw [hr] at hv
    have : v = 0 := List.eq_of_mem_replicate hv
    omega
  · intro q hq
    simp [reset] at hq; subst hq
    exact createPiece_ok rand s0.draws
  · intro q hq
    simp [reset] at hq

/-- C16. In every reachable state the grid has exactly 20 rows of exactly 10 cells and
every cell holds a value in 0..7, so every non-empty cell a piece-type id in 1..7.
The active piece has a type id in 1..7 and its non-empty cells lie in columns 0..9 and
in rows below 20, so every `merge` the engine makes writes inside the grid. -/
theorem reachable_grid_ok (rand : Nat → Fin 7) (s : Game) (h : Reachable rand s) :
    s.grid.length = 20 ∧ (∀ row ∈ s.grid, row.length = 10) ∧
    (∀ row ∈ s.grid, ∀ v ∈ row, v ≤ 7 ∧ (v ≠ 0 → 1 ≤ v ∧ v ≤ 7)) ∧
    (∀ p, s.piece = some p → 1 ≤ p.typeId ∧ p.typeId ≤ 7 ∧
      ∀ y x : Nat, matGet p.shape y x > 0 → 0 ≤ p.x + x ∧ p.x + x < 10 ∧ p.y + y < 20) := by
  have hi := engineInv_reachable (boardInv_engine rand) boardInv_start h
  obtain ⟨g1, g2, g3, _, _⟩ := hi
  refine ⟨g1.1, g1.2, ?_, fun p hp => ⟨(g3 p hp).1.1, (g3 p hp).1.2.1, (g3 p hp).2⟩⟩
  intro row hrow v hv
  have := g2 row hrow v hv
  exact ⟨this, fun hne => ⟨by omega, this⟩⟩

/-- Witness of C16: the state after `start` from the constructor state. -/
theorem reachable_grid_ok_witness :
    ∃ s : Game, start stackRand Game.new = some s ∧ Reachable stackRand s ∧
      s.grid.length = 20 ∧ (∀ row ∈ s.grid, row.length = 10) ∧
      (∀ row ∈ s.grid, ∀ v ∈ row, v ≤ 7 ∧ (v ≠ 0 → 1 ≤ v ∧ v ≤ 7)) ∧
      (∀ p, s.piece = some p → 1 ≤ p.typeId ∧ p.typeId ≤ 7 ∧
        ∀ y x : Nat, matGet p.shape y x > 0 → 0 ≤ p.x + x ∧ p.x + x < 10 ∧ p.y + y < 20) :=
  ⟨_, rfl, Reachable.start Game.new _ rfl,
    reachable_grid_ok stackRand _ (Reachable.start Game.new _ rfl)⟩

/-! ## Start, and rotations as inverses -/

/-- Each of the seven piece types is valid at `(3, 0)` on the empty grid. -/
theorem spawn_valid_on_empty (t : Fin 7) :
    isValid getEmptyGrid { Piece.new (t.val + 1) with x := 3, y := 0 } = true := by
  revert t
  decide

/-- C21. From every prior state and for every generated piece types, `reset` followed by
`spawnPiece` returns a state in which every grid cell is 0, the score is 0, `lines` is 0,
the level is 1, the drop interval is 1000, `gameOver` and `isPaused` are false, no piece
is held, `canHold` is true, a next piece with type id in 1..7 is present, and the active
piece is a fresh piece of a type in 1..7 at `(3, 0)` that satisfies `isValid`. -/
theorem start_spec (rand : Nat → Fin 7) (s0 : Game) :
    ∃ s active next, start rand s0 = some s ∧
      s.grid = getEmptyGrid ∧ (∀ row ∈ s.grid, ∀ v ∈ row, v = 0) ∧
      s.score = 0 ∧ s.lines = 0 ∧ s.level = 1 ∧ s.dropInterval = 1000 ∧
      s.gameOver = false ∧ s.isPaused = false ∧ s.holdPiece = none ∧ s.canHold = true ∧
      s.nextPiece = some next ∧ 1 ≤ next.typeId ∧ next.typeId ≤ 7 ∧
      s.piece = some active ∧ active.x = 3 ∧ active.y = 0 ∧
      1 ≤ active.typeId ∧ active.typeId ≤ 7 ∧ active = { Piece.new active.typeId with x := 3 } ∧
      isValid s.grid active = true := by
  have hv := spawn_valid_on_empty (rand s0.draws)
  have h7 := (rand s0.draws).isLt
  have h7b := (rand (s0.draws + 1)).isLt
  refine ⟨{ reset rand s0 with
      piece := some { Piece.new ((rand s0.draws).val + 1) with x := 3, y := 0 },
      nextPiece := some (createPiece rand (s0.draws + 1)),
      draws := s0.draws + 1 + 1, canHold := true },
    { Piece.new ((rand s0.draws).val + 1) with x := 3, y := 0 },
    createPiece rand (s0.draws + 1), ?_, ?_⟩
  · unfold start spawnPiece reset
    simp only [createPiece]
    rw [if_neg (by simp only [hv]; decide)]
  · refine ⟨rfl, ?_, rfl, rfl, rfl, rfl, rfl, rfl, rfl, rfl, rfl, ?_, ?_, rfl, rfl, rfl, ?_, ?_,
      rfl, hv⟩
    · intro row hrow v hv
      have hr : row = emptyRow := List.eq_of_mem_replicate hrow
      rw [hr] at hv
      exact List.eq_of_mem_replicate hv
    · simp [createPiece, Piece.new]
    · simp only [createPiece, Piece.new]; omega
    · simp [Piece.new]
    · simp only [Piece.new]; omega

/-- The number of non-empty cells of a row as a sum over its indices. -/
theorem countP_eq_sum_range (l : List Nat) :
    l.countP (fun v => v > 0) =
      ∑ j in Finset.range l.length, if l.getD j 0 > 0 then 1 else 0 := by
  induction l with
  | nil => rfl
  | cons a l ih =>
    rw [List.length_cons, Finset.sum_range_succ', List.countP_cons, ih]
    simp

/-- A sum over the rows of a matrix as a sum over the row indices. -/
theorem map_sum_eq_sum_range (m : List (List Nat)) (g : List Nat → Nat) :
    (m.map g).sum = ∑ i in Finset.range m.length, g (m.getD i []) := by
  induction m with
  | nil => rfl
  | cons a m ih =>
    rw [List.length_cons, Finset.sum_range_succ', List.map_cons, List.sum_cons, ih]
    simp [add_comm]

/-- The number of non-empty cells of an `N` by `N` matrix as a double sum over the indices. -/
theorem cellCount_eq_sum {m : List (List Nat)} {N : Nat} (h : MatDims m N N) :
    cellCount m =
      ∑ i in Finset.range N, ∑ j in Finset.range N, if matGet m i j > 0 then 1 else 0 := by
  unfold cellCount
  rw [map_sum_eq_sum_range, h.1]
  apply Finset.sum_congr rfl
  intro i hi
  rw [countP_eq_sum_range, h.2 i (Finset.mem_range.1 hi)]
  rfl

/-- `rotateCW` keeps the number of non-empty cells of a square matrix. -/
theorem rotateCWShape_count (shape : Shape) (h : Square shape) :
    cellCount (rotateCWShape shape) = cellCount shape := by
  rw [cellCount_eq_sum (rotateCWShape_dims shape), cellCount_eq_sum (square_dims h)]
  have e : ∀ i ∈ Finset.range shape.length, ∀ j ∈ Finset.range shape.length,
      (if matGet (rotateCWShape shape) i j > 0 then 1 else 0) =
        (fun b a => if matGet shape b a > 0 then 1 else 0) (shape.length - 1 - j) i := by
    intro i hi j hj
    rw [rotateCWShape_get shape i j (Finset.mem_range.1 hi) (Finset.mem_range.1 hj)]
  rw [Finset.sum_congr rfl (fun i hi => Finset.sum_congr rfl (e i hi))]
  rw [Finset.sum_comm]
  rw [Finset.sum_range_reflect
    (fun b => ∑ a in Finset.range shape.length, if matGet shape b a > 0 then 1 else 0)]

/-- `rotateCCW` keeps the number of non-empty cells of a square matrix. -/
theorem rotateCCWShape_count (shape : Shape) (h : Square shape) :
    cellCount (rotateCCWShape shape) = cellCount shape := by
  rw [cellCount_eq_sum (rotateCCWShape_dims shape), cellCount_eq_sum (square_dims h)]
  have e : ∀ i ∈ Finset.range shape.length, ∀ j ∈ Finset.range shape.length,
      (if matGet (rotateCCWShape shape) i j > 0 then 1 else 0) =
        (fun b a => if matGet shape b a > 0 then 1 else 0) j (shape.length - 1 - i) := by
    intro i hi j hj
    rw [rotateCCWShape_get shape i j (Finset.mem_range.1 hi) (Finset.mem_range.1 hj)]
  rw [Finset.sum_congr rfl (fun i hi => Finset.sum_congr rfl (e i hi))]
  rw [Finset.sum_comm]
  apply Finset.sum_congr rfl
  intro j _
  rw [Finset.sum_range_reflect (fun a => if matGet shape j a > 0 then 1 else 0)]

/-- `rotateCCW` after `rotateCW` gives a square matrix back. -/
theorem rotateCCW_rotateCW (shape : Shape) (h : Square shape) :
    rotateCCWShape (rotateCWShape shape) = shape := by
  have l1 := rotateCWShape_length shape
  have d2 := rotateCCWShape_dims (rotateCWShape shape)
  rw [l1] at d2
  apply mat_ext d2 (square_dims h)
  intro i j hi hj
  rw [rotateCCWShape_get _ i j (by omega) (by omega), l1,
    rotateCWShape_get _ _ _ (by omega) (by omega)]
  congr 1
  omega

/-- `rotateCW` after `rotateCCW` gives a square matrix back. -/
theorem rotateCW_rotateCCW (shape : Shape) (h : Square shape) :
    rotateCWShape (rotateCCWShape shape) = shape := by
  have l1 := rotateCCWShape_length shape
  have d2 := rotateCWShape_dims (rotateCCWShape shape)
  rw [l1] at d2
  apply mat_ext d2 (square_dims h)
  intro i j hi hj
  rw [rotateCWShape_get _ i j (by omega) (by omega), l1,
    rotateCCWShape_get _ _ _ (by omega) (by omega)]
  congr 1
  omega

/-- C23. For a piece whose shape is a square matrix, `rotateCW` followed by `rotateCCW` gives
the piece back, and so does `rotateCCW` followed by `rotateCW`; both rotations keep the
number of non-empty cells of the shape. -/
theorem rotate_inverse (p : Piece) (hsq : Square p.shape) :
    p.rotateCW.rotateCCW = p ∧ p.rotateCCW.rotateCW = p ∧
    cellCount p.rotateCW.shape = cellCount p.shape ∧
    cellCount p.rotateCCW.shape = cellCount p.shape := by
  refine ⟨?_, ?_, rotateCWShape_count _ hsq, rotateCCWShape_count _ hsq⟩
  · cases p
    simp only [Piece.rotateCW, Piece.rotateCCW, Piece.mk.injEq, true_and, and_true]
    exact rotateCCW_rotateCW _ hsq
  · cases p
    simp only [Piece.rotateCW, Piece.rotateCCW, Piece.mk.injEq, true_and, and_true]
    exact rotateCW_rotateCCW _ hsq

/-- Witness of C23: the L piece. -/
theorem rotate_inverse_witness :
    Square (Piece.new 3).shape ∧
    ((Piece.new 3).rotateCW.rotateCCW = Piece.new 3 ∧
    (Piece.new 3).rotateCCW.rotateCW = Piece.new 3 ∧
    cellCount (Piece.new 3).rotateCW.shape = cellCount (Piece.new 3).shape ∧
    cellCount (Piece.new 3).rotateCCW.shape = cellCount (Piece.new 3).shape) :=
  ⟨by unfold Square; decide, rotate_inverse (Piece.new 3) (by unfold Square; decide)⟩

/-! ## At most four lines per lock, and the engine never fails -/

/-- A row is not full exactly when one of its cells is empty. -/
theorem rowFull_false_iff (row : List Nat) :
    rowFull row = false ↔ ∃ j, j < row.length ∧ row.getD j 0 = 0 := by
  unfold rowFull
  constructor
  · intro h
    have : ¬ (row.all (fun value => value != 0) = true) := by rw [h]; decide
    rw [List.all_eq_true] at this
    push_neg at this
    obtain ⟨v, hv, hv0⟩ := this
    obtain ⟨j, hj, rfl⟩ := List.getElem_of_mem hv
    refine ⟨j, hj, ?_⟩
    rw [List.getD_eq_getElem?_getD, List.getElem?_eq_getElem hj]
    simpa using hv0
  · rintro ⟨j, hj, h0⟩
    rw [List.getD_eq_getElem?_getD, List.getElem?_eq_getElem hj] at h0
    simp only [Option.getD_some] at h0
    rw [Bool.eq_false_iff]
    intro hall
    rw [List.all_eq_true] at hall
    have := hall _ (List.getElem_mem hj)
    rw [h0] at this
    exact absurd this (by decide)

/-- When every element that passes a test sits at an index in a window of `k` indices, at
most `k` elements pass the test. -/
theorem countP_le_of_window {α : Type} (l : List α) (q : α → Bool) (a k : Nat)
    (h : ∀ i (hi : i < l.length), q (l.get ⟨i, hi⟩) = true → a ≤ i ∧ i < a + k) :
    l.countP q ≤ k := by
  have e1 : l = l.take a ++ l.drop a := (List.take_append_drop a l).symm
  have e2 : l.drop a = (l.drop a).take k ++ (l.drop a).drop k :=
    (List.take_append_drop k (l.drop a)).symm
  have z1 : (l.take a).countP q = 0 := by
    rw [List.countP_eq_zero]
    intro x hx
    obtain ⟨i, hi, rfl⟩ := List.getElem_of_mem hx
    have hia : i < a := by simp at hi; omega
    have hil : i < l.length := by simp at hi; omega
    intro hq
    rw [List.getElem_take] at hq
    have := h i hil hq
    omega
  have z2 : ((l.drop a).drop k).countP q = 0 := by
    rw [List.countP_eq_zero]
    intro x hx
    obtain ⟨i, hi, rfl⟩ := List.getElem_of_mem hx
    intro hq
    rw [List.getElem_drop, List.getElem_drop] at hq
    have hil : a + (k + i) < l.length := by simp at hi; omega
    have := h (a + (k + i)) hil hq
    omega
  have z3 : ((l.drop a).take k).countP q ≤ k :=
    le_trans (List.countP_le_length q) (by simp)
  rw [e1, List.countP_append, e2, List.countP_append, z1, z2]
  omega

/-- A row of the grid outside the four rows from `p.y` on is not full after `merge` when no
row was full before: `merge` leaves its empty cell alone. -/
theorem merge_row_untouched {grid : Grid} {p : Piece} (hg : GridOk grid) (hn : NoFullRow grid)
    (hp : PieceOk p) (i : Nat) (hi : i < 20) (hout : ¬ (p.y ≤ i ∧ (i : Int) < p.y + 4)) :
    rowFull ((merge grid p).getD i []) = false := by
  have hd := gridOk_dims hg
  have hd1 := merge_dims grid p hd
  have hrow : grid.getD i [] ∈ grid := by
    have hl : i < grid.length := by rw [hg.1]; exact hi
    rw [List.getD_eq_getElem?_getD, List.getElem?_eq_getElem hl]
    exact List.getElem_mem hl
  obtain ⟨j, hj, h0⟩ := (rowFull_false_iff _).1 (hn _ hrow)
  rw [hd.2 i hi] at hj
  rw [rowFull_false_iff]
  refine ⟨j, by rw [hd1.2 i hi]; exact hj, ?_⟩
  have hw := (merge_get grid p hd i j hi hj).2 (by
    rintro ⟨y, x, hc, h1, _⟩
    have := matGet_pos_inside (square_dims hp.2.2.2) hc
    have h4 := hp.2.2.1
    apply hout
    omega)
  unfold matGet at hw
  rw [hw]
  exact h0

/-- After `merge` into a grid without full rows at most 4 rows are full. -/
theorem merge_full_rows_le {grid : Grid} {p : Piece} (hg : GridOk grid) (hn : NoFullRow grid)
    (hp : PieceOk p) : (merge grid p).countP rowFull ≤ 4 := by
  have hd1 := merge_dims grid p (gridOk_dims hg)
  apply countP_le_of_window _ _ p.y.toNat 4
  intro i hi hq
  have hi20 : i < 20 := by rw [← hd1.1]; exact hi
  by_contra hcon
  have hout : ¬ (p.y ≤ i ∧ (i : Int) < p.y + 4) := by
    intro hc
    apply hcon
    omega
  have := merge_row_untouched hg hn hp i hi20 hout
  rw [List.getD_eq_getElem?_getD, List.getElem?_eq_getElem hi] at this
  simp only [Option.getD_some] at this
  rw [List.get_eq_getElem] at hq
  rw [this] at hq
  exact absurd hq (by decide)

/-- `clearLines` leaves no full row. -/
theorem clearLines_noFullRow (grid : Grid) : NoFullRow (clearLines grid).1 := by
  rw [clearLines_grid]
  intro row hrow
  rcases List.mem_append.1 hrow with h | h
  · rw [List.eq_of_mem_replicate h]; decide
  · have := (List.mem_filter.1 h).2
    simpa using this

/-- The count `clearLines` returns after `merge` into a grid without full rows lies in 0..4. -/
theorem clearLines_le_four {grid : Grid} {p : Piece} (hg : GridOk grid) (hn : NoFullRow grid)
    (hp : PieceOk p) :
    0 ≤ (clearLines (merge grid p)).2 ∧ (clearLines (merge grid p)).2 ≤ 4 := by
  have hm : GridOk (merge grid p) := dims_gridOk (merge_dims grid p (gridOk_dims hg))
  rw [(clearLines_spec _ hm).1]
  have := merge_full_rows_le hg hn hp
  omega

/-- The statistics invariant does not depend on timers, key flags or the pause flag. -/
theorem statsInv_frame {s s1 : Game} (h : SameCore s s1) (hs : StatsInv s) : StatsInv s1 := by
  obtain ⟨_, _, _, _, _, h6, h7, _, h9, _, _⟩ := h
  unfold StatsInv
  rw [h6, h7, h9]
  exact hs

/-- The play invariant does not depend on timers, key flags or the pause flag. -/
theorem playInv_frame {s s1 : Game} (h : SameCore s s1) (hs : PlayInv s) : PlayInv s1 := by
  obtain ⟨a1, a2, a3, a4, a5, a6⟩ := hs
  have hb := boardInv_frame h a1
  have hst := statsInv_frame h a3
  obtain ⟨h1, h2, h3, _, h5, _⟩ := h
  refine ⟨hb, ?_, hst, ?_, ?_, ?_⟩
  · rw [h1]; exact a2
  · rw [h5]; exact a4
  · rw [h2]; exact a5
  · rw [h3]; exact a6

/-- `move` changes the active piece only. -/
theorem move_result {s : Game} {dx dy : Int} {r : Game × Bool} (h : move s dx dy = some r) :
    ∃ q, r.1 = { s with piece := some q } := by
  unfold move at h
  cases hp : s.piece with
  | none => simp [hp] at h
  | some p =>
    simp only [hp] at h
    split at h <;> simp at h <;> subst h <;> exact ⟨_, rfl⟩

/-- The play invariant after a change of the active piece that keeps the board invariant. -/
theorem playInv_setPiece {s : Game} {q : Piece} (hs : PlayInv s)
    (hb : BoardInv { s with piece := some q }) : PlayInv { s with piece := some q } :=
  ⟨hb, hs.2.1, hs.2.2.1, hs.2.2.2.1, ⟨q, rfl⟩, hs.2.2.2.2.2⟩

/-- Under the play invariant `move` returns a state and keeps the invariant. -/
theorem move_playInv {s : Game} (dx dy : Int) (hs : PlayInv s) :
    ∃ r, move s dx dy = some r ∧ PlayInv r.1 := by
  obtain ⟨p, hp⟩ := hs.2.2.2.2.1
  obtain ⟨r, _, hm, _⟩ := move_some hp dx dy
  refine ⟨r, hm, ?_⟩
  have hb := boardInv_move hm hs.1
  obtain ⟨q, hq⟩ := move_result hm
  rw [hq] at hb ⊢
  exact playInv_setPiece hs hb

/-- Under the play invariant `rotate` returns a state and keeps the invariant. -/
theorem rotate_playInv {s : Game} (dir : Int) (hs : PlayInv s) :
    ∃ s1, rotate s dir = some s1 ∧ PlayInv s1 := by
  obtain ⟨p, hp⟩ := hs.2.2.2.2.1
  have hex : ∃ s1, rotate s dir = some s1 := by
    unfold rotate
    simp only [hp]
    split <;> exact ⟨_, rfl⟩
  obtain ⟨s1, h1⟩ := hex
  refine ⟨s1, h1, ?_⟩
  have hb := boardInv_rotate h1 hs.1
  obtain ⟨q, hq, _⟩ := rotate_result hp h1
  rw [hq] at hb ⊢
  exact playInv_setPiece hs hb

/-- Under the play invariant `spawnPiece` returns a state and keeps the invariant, the
score and the grid. -/
theorem spawnPiece_playInv (rand : Nat → Fin 7) {s : Game} (hs : PlayInv s) :
    ∃ s1, spawnPiece rand s = some s1 ∧ PlayInv s1 ∧ s1.score = s.score ∧
      s1.grid = s.grid := by
  obtain ⟨a1, a2, a3, a4, _, ⟨np, hn⟩⟩ := hs
  have hex : ∃ s1, spawnPiece rand s = some s1 ∧ s1.grid = s.grid ∧ s1.score = s.score ∧
      (∃ p, s1.piece = some p) ∧ (∃ n, s1.nextPiece = some n) := by
    unfold spawnPiece
    simp only [hn]
    split <;> exact ⟨_, rfl, rfl, rfl, ⟨_, rfl⟩, ⟨_, rfl⟩⟩
  obtain ⟨s1, h1, hg, hsc, hp1, hn1⟩ := hex
  refine ⟨s1, h1, ⟨boardInv_spawnPiece h1 a1.1 a1.2.1 a1.2.2.2.1 a1.2.2.2.2, ?_,
    (spawnPiece_stats h1 a3).1, ?_, hp1, hn1⟩, hsc, hg⟩
  · rw [hg]; exact a2
  · rw [hsc]; exact a4

/-- The state `updateStats(n)` returns when `points[n]` is an entry of the table. -/
theorem updateStats_eq (s : Game) (n pts : Int)
    (hl : (if 0 ≤ n then points[n.toNat]? else none) = some pts) :
    updateStats s n =
      some { s with
        lines := s.lines + n, score := s.score + pts * s.level,
        level := (s.lines + n) / 10 + 1,
        dropInterval := max 100 (1000 - ((s.lines + n) / 10 + 1 - 1) * 100) } := by
  unfold updateStats
  rw [hl]

/-- For `n` in 1..4 the lookup `points[n]` is defined and not negative. -/
theorem points_lookup (n : Int) (h1 : 1 ≤ n) (h4 : n ≤ 4) :
    ∃ pts, (if 0 ≤ n then points[n.toNat]? else none) = some pts ∧
      points[n.toNat]? = some pts ∧ 0 ≤ pts := by
  have hn : n = 1 ∨ n = 2 ∨ n = 3 ∨ n = 4 := by omega
  rcases hn with h | h | h | h <;> subst h
  · exact ⟨100, rfl, rfl, by omega⟩
  · exact ⟨300, rfl, rfl, by omega⟩
  · exact ⟨500, rfl, rfl, by omega⟩
  · exact ⟨800, rfl, rfl, by omega⟩

/-- Under the play invariant `updateStats(n)` with `n` in 1..4 returns a state, adds
`points[n]` times the level to the score and keeps the invariant. -/
theorem updateStats_playInv {s : Game} {n : Int} (hs : PlayInv s) (h1 : 1 ≤ n) (h4 : n ≤ 4) :
    ∃ s1 pts, updateStats s n = some s1 ∧ points[n.toNat]? = some pts ∧ 0 ≤ pts ∧
      s1.score = s.score + pts * s.level ∧ PlayInv s1 := by
  obtain ⟨a1, a2, a3, a4, a5, a6⟩ := hs
  have hlev : 1 ≤ s.level := by
    have := a3.2.1
    have : 0 ≤ s.lines / 10 := Int.ediv_nonneg a3.1 (by omega)
    omega
  obtain ⟨pts, hl, hl2, hp0⟩ := points_lookup n h1 h4
  have hu := updateStats_eq s n pts hl
  refine ⟨_, pts, hu, hl2, hp0, rfl, boardInv_updateStats hu a1, a2,
    (updateStats_step (by omega) hu a3).1, ?_, a5, a6⟩
  have : 0 ≤ pts * s.level := Int.mul_nonneg hp0 (by omega)
  show 0 ≤ s.score + pts * s.level
  omega

/-- Under the play invariant `lock` clears between 0 and 4 lines, returns a state, keeps
the invariant and does not lower the score. -/
theorem lock_playInv (rand : Nat → Fin 7) {s : Game} {p : Piece} (hs : PlayInv s)
    (hp : s.piece = some p) :
    0 ≤ (clearLines (merge s.grid p)).2 ∧ (clearLines (merge s.grid p)).2 ≤ 4 ∧
    ∃ s1, lock rand s = some s1 ∧ PlayInv s1 ∧ s.score ≤ s1.score := by
  obtain ⟨a1, a2, a3, a4, a5, a6⟩ := hs
  obtain ⟨g1, g2, g3, g4, g5⟩ := a1
  have hpok := (g3 p hp).1
  have hb := clearLines_le_four g1 a2 hpok
  refine ⟨hb.1, hb.2, ?_⟩
  have hm1 : GridOk (merge s.grid p) := dims_gridOk (merge_dims s.grid p (gridOk_dims g1))
  have hm2 : CellsOk (merge s.grid p) := merge_cellsOk g1 g2 hpok.2.1
  have hcl : PlayInv { s with grid := (clearLines (merge s.grid p)).1 } :=
    ⟨⟨(clearLines_spec _ hm1).2.2, clearLines_cellsOk hm2, g3, g4, g5⟩,
      clearLines_noFullRow _, a3, a4, a5, a6⟩
  unfold lock
  simp only [hp]
  by_cases hpos : (clearLines (merge s.grid p)).2 > 0
  · obtain ⟨s2, pts, hu, _, hp0, hsc, hi2⟩ := updateStats_playInv hcl (by omega) hb.2
    have hlev : 1 ≤ s.level := by
      have := a3.2.1
      have : 0 ≤ s.lines / 10 := Int.ediv_nonneg a3.1 (by omega)
      omega
    obtain ⟨s3, h3, hi3, hsc3, _⟩ := spawnPiece_playInv rand hi2
    simp only [hp] at hu
    rw [if_pos hpos, hu]
    refine ⟨s3, h3, hi3, ?_⟩
    rw [hsc3, hsc]
    have : 0 ≤ pts * s.level := Int.mul_nonneg hp0 (by omega)
    show s.score ≤ s.score + pts * s.level
    omega
  · obtain ⟨s3, h3, hi3, hsc3, _⟩ := spawnPiece_playInv rand hcl
    simp only [hp] at h3
    rw [if_neg hpos]
    refine ⟨s3, h3, hi3, ?_⟩
    rw [hsc3]

/-- Under the play invariant `drop` returns a state and keeps the invariant. -/
theorem drop_playInv (rand : Nat → Fin 7) {s : Game} (hs : PlayInv s) :
    ∃ s1, drop rand s = some s1 ∧ PlayInv s1 := by
  obtain ⟨p, hp⟩ := hs.2.2.2.2.1
  unfold drop
  simp only [hp]
  by_cases hv : isValid s.grid { p with y := p.y + 1 } = true
  · simp only [hv, Bool.not_true, Bool.false_eq_true, if_false]
    refine ⟨_, rfl, ?_⟩
    have hb : BoardInv { s with piece := some { p with y := p.y + 1 } } := by
      obtain ⟨g1, g2, g3, g4, g5⟩ := hs.1
      refine ⟨g1, g2, ?_, g4, g5⟩
      intro q hq
      simp at hq; subst hq
      exact ⟨(g3 p hp).1, isValid_inside hv⟩
    exact playInv_frame (by simp [SameCore]) (playInv_setPiece hs hb)
  · have hf : isValid s.grid { p with y := p.y + 1 } = false := by simpa using hv
    simp only [hf, Bool.not_false, if_true]
    have hback : ({ s with piece := some { p with y := p.y + 1 - 1 } } : Game) = s := by
      have : p.y + 1 - 1 = p.y := by omega
      rw [this]
      cases s
      simp_all
    rw [hback]
    obtain ⟨_, _, s1, h1, hi1, _⟩ := lock_playInv rand hs hp
    rw [h1]
    exact ⟨_, rfl, playInv_frame (by simp [SameCore]) hi1⟩

/-- `spawnPiece` keeps the grid and the score and leaves an active and a next piece. -/
theorem spawnPiece_fields {rand : Nat → Fin 7} {s s1 : Game}
    (h : spawnPiece rand s = some s1) :
    s1.grid = s.grid ∧ s1.score = s.score ∧ (∃ p, s1.piece = some p) ∧
      (∃ n, s1.nextPiece = some n) := by
  unfold spawnPiece at h
  cases hn : s.nextPiece with
  | none => simp [hn] at h
  | some np =>
    simp only [hn] at h
    split at h <;> simp at h <;> subst h <;> exact ⟨rfl, rfl, ⟨_, rfl⟩, ⟨_, rfl⟩⟩

/-- `holdCurrentPiece` keeps the grid and the score and leaves an active and a next piece. -/
theorem hold_fields {rand : Nat → Fin 7} {s s1 : Game}
    (h : holdCurrentPiece rand s = some s1) (hp : ∃ p, s.piece = some p)
    (hn : ∃ n, s.nextPiece = some n) :
    s1.grid = s.grid ∧ s1.score = s.score ∧ (∃ p, s1.piece = some p) ∧
      (∃ n, s1.nextPiece = some n) := by
  unfold holdCurrentPiece at h
  split at h
  · simp at h; subst h; exact ⟨rfl, rfl, hp, hn⟩
  · split at h
    · split at h
      · simp at h
      · split at h
        · simp at h
        · rename_i s2 hs2
          simp at h; subst h
          have := spawnPiece_fields hs2
          exact ⟨this.1, this.2.1, this.2.2.1, this.2.2.2⟩
    · split at h
      · simp at h
      · simp at h; subst h; exact ⟨rfl, rfl, ⟨_, rfl⟩, hn⟩

/-- Under the play invariant `holdCurrentPiece` returns a state and keeps the invariant. -/
theorem hold_playInv (rand : Nat → Fin 7) {s : Game} (hs : PlayInv s) :
    ∃ s1, holdCurrentPiece rand s = some s1 ∧ PlayInv s1 := by
  obtain ⟨p, hp⟩ := hs.2.2.2.2.1
  have hex : ∃ s1, holdCurrentPiece rand s = some s1 := by
    unfold holdCurrentPiece
    split
    · exact ⟨_, rfl⟩
    · split
      · simp only [hp]
        have hpre : PlayInv { s with holdPiece := some { p with y := 0 } } := by
          obtain ⟨⟨g1, g2, g3, g4, g5⟩, a2, a3, a4, a5, a6⟩ := hs
          refine ⟨⟨g1, g2, g3, g4, ?_⟩, a2, a3, a4, a5, a6⟩
          intro q hq
          simp at hq; subst hq
          exact (g3 p hp).1
        obtain ⟨s2, h2, _⟩ := spawnPiece_playInv rand hpre
        simp only [hp] at h2
        rw [h2]
        exact ⟨_, rfl⟩
      · simp only [hp]
        exact ⟨_, rfl⟩
  obtain ⟨s1, h1⟩ := hex
  obtain ⟨f1, f2, f3, f4⟩ := hold_fields h1 hs.2.2.2.2.1 hs.2.2.2.2.2
  refine ⟨s1, h1, boardInv_hold h1 hs.1, ?_, (holdCurrentPiece_stats h1 hs.2.2.1).1, ?_, f3, f4⟩
  · rw [f1]; exact hs.2.1
  · rw [f2]; exact hs.2.2.2.1

/-- Under the play invariant the left repeat loop returns a state and keeps the invariant. -/
theorem leftRepeat_playInv (fuel : Nat) : ∀ s : Game, PlayInv s → s.leftTimer ≤ fuel →
    ∃ s1, leftRepeat fuel s = some s1 ∧ PlayInv s1 := by
  induction fuel with
  | zero =>
    intro s hs hf
    have hn : ¬ s.leftTimer > dasDelay + arrDelay := by unfold dasDelay arrDelay; omega
    exact ⟨s, by rw [leftRepeat, if_neg hn], hs⟩
  | succ fuel ih =>
    intro s hs hf
    rw [leftRepeat]
    by_cases hc : s.leftTimer > dasDelay + arrDelay
    · rw [if_pos hc]
      obtain ⟨r, hm, hr⟩ := move_playInv (-1) 0 hs
      have ht := (move_timers hm).1
      rw [hm]
      simp only []
      refine ih _ (playInv_frame (by simp [SameCore]) hr) ?_
      simp only [ht]
      unfold dasDelay arrDelay at hc
      unfold arrDelay
      push_cast at hf
      omega
    · rw [if_neg hc]
      exact ⟨s, rfl, hs⟩

/-- Under the play invariant the right repeat loop returns a state and keeps the invariant. -/
theorem rightRepeat_playInv (fuel : Nat) : ∀ s : Game, PlayInv s → s.rightTimer ≤ fuel →
    ∃ s1, rightRepeat fuel s = some s1 ∧ PlayInv s1 := by
  induction fuel with
  | zero =>
    intro s hs hf
    have hn : ¬ s.rightTimer > dasDelay + arrDelay := by unfold dasDelay arrDelay; omega
    exact ⟨s, by rw [rightRepeat, if_neg hn], hs⟩
  | succ fuel ih =>
    intro s hs hf
    rw [rightRepeat]
    by_cases hc : s.rightTimer > dasDelay + arrDelay
    · rw [if_pos hc]
      obtain ⟨r, hm, hr⟩ := move_playInv 1 0 hs
      have ht := (move_timers hm).2.1
      rw [hm]
      simp only []
      refine ih _ (playInv_frame (by simp [SameCore]) hr) ?_
      simp only [ht]
      unfold dasDelay arrDelay at hc
      unfold arrDelay
      push_cast at hf
      omega
    · rw [if_neg hc]
      exact ⟨s, rfl, hs⟩

/-- Under the play invariant the soft-drop repeat loop returns a state and keeps the
invariant. -/
theorem downRepeat_playInv (rand : Nat → Fin 7) (fuel : Nat) :
    ∀ s : Game, PlayInv s → s.downTimer ≤ fuel →
      ∃ s1, downRepeat rand fuel s = some s1 ∧ PlayInv s1 := by
  induction fuel with
  | zero =>
    intro s hs hf
    have hn : ¬ s.downTimer > downInterval := by unfold downInterval; omega
    exact ⟨s, by rw [downRepeat, if_neg hn], hs⟩
  | succ fuel ih =>
    intro s hs hf
    rw [downRepeat]
    by_cases hc : s.downTimer > downInterval
    · rw [if_pos hc]
      obtain ⟨s2, hd, h2⟩ := drop_playInv rand hs
      have ht := drop_downTimer hd
      rw [hd]
      simp only []
      refine ih _ (playInv_frame (by simp [SameCore]) h2) ?_
      simp only [ht]
      unfold downInterval at hc
      unfold downInterval
      push_cast at hf
      omega
    · rw [if_neg hc]
      exact ⟨s, rfl, hs⟩

/-- Under the play invariant the horizontal block returns a state and keeps the invariant. -/
theorem horizontalInput_playInv {s : Game} (dt : Int) (hs : PlayInv s) :
    ∃ s1, horizontalInput s dt = some s1 ∧ PlayInv s1 := by
  unfold horizontalInput
  dsimp only
  split
  · exact ⟨_, rfl, playInv_frame (by simp [SameCore]) hs⟩
  · split
    · split
      · obtain ⟨r, hm, hr⟩ := move_playInv (s := { s with rightTimer := 0 }) (-1) 0
          (playInv_frame (by simp [SameCore]) hs)
        rw [hm]
        exact ⟨_, rfl, playInv_frame (by simp [SameCore]) hr⟩
      · split
        · rename_i hT
          refine leftRepeat_playInv _ _ (playInv_frame (by simp [SameCore]) hs) ?_
          unfold dasDelay at hT
          simp only [] at hT ⊢
          omega
        · exact ⟨_, rfl, playInv_frame (by simp [SameCore]) hs⟩
    · split
      · split
        · obtain ⟨r, hm, hr⟩ := move_playInv (s := { s with leftTimer := 0 }) 1 0
            (playInv_frame (by simp [SameCore]) hs)
          rw [hm]
          exact ⟨_, rfl, playInv_frame (by simp [SameCore]) hr⟩
        · split
          · rename_i hT
            refine rightRepeat_playInv _ _ (playInv_frame (by simp [SameCore]) hs) ?_
            unfold dasDelay at hT
            simp only [] at hT ⊢
            omega
          · exact ⟨_, rfl, playInv_frame (by simp [SameCore]) hs⟩
      · exact ⟨_, rfl, playInv_frame (by simp [SameCore]) hs⟩

/-- Under the play invariant the soft-drop block returns a state and keeps the invariant. -/
theorem softDropInput_playInv (rand : Nat → Fin 7) {s : Game} (dt : Int) (hs : PlayInv s) :
    ∃ s1, softDropInput rand s dt = some s1 ∧ PlayInv s1 := by
  unfold softDropInput
  dsimp only
  split
  · split
    · obtain ⟨s2, hd, h2⟩ := drop_playInv rand hs
      rw [hd]
      exact ⟨_, rfl, playInv_frame (by simp [SameCore]) h2⟩
    · split
      · rename_i hT
        refine downRepeat_playInv rand _ _ (playInv_frame (by simp [SameCore]) hs) ?_
        unfold downInterval at hT
        simp only [] at hT ⊢
        omega
      · exact ⟨_, rfl, playInv_frame (by simp [SameCore]) hs⟩
  · exact ⟨_, rfl, playInv_frame (by simp [SameCore]) hs⟩

/-- Under the play invariant the rotation block returns a state and keeps the invariant. -/
theorem rotateInput_playInv {s : Game} (hs : PlayInv s) :
    ∃ s1, rotateInput s = some s1 ∧ PlayInv s1 := by
  unfold rotateInput
  have h1 : ∃ s1, (if (s.keys.rotateCW && !s.prevKeys.rotateCW) = true then rotate s 1
      else some s) = some s1 ∧ PlayInv s1 := by
    split
    · exact rotate_playInv 1 hs
    · exact ⟨s, rfl, hs⟩
  obtain ⟨s1, e1, i1⟩ := h1
  rw [e1]
  simp only []
  split
  · exact rotate_playInv (-1) i1
  · exact ⟨s1, rfl, i1⟩

/-- Under the play invariant `handleInput` returns a state and keeps the invariant. -/
theorem handleInput_playInv (rand : Nat → Fin 7) {s : Game} (dt : Int) (hs : PlayInv s) :
    ∃ s1, handleInput rand s dt = some s1 ∧ PlayInv s1 := by
  obtain ⟨p, hp⟩ := hs.2.2.2.2.1
  unfold handleInput
  simp only [hp]
  obtain ⟨s1, e1, i1⟩ := rotateInput_playInv hs
  rw [e1]
  simp only []
  split
  · exact hold_playInv rand i1
  · obtain ⟨s2, e2, i2⟩ := horizontalInput_playInv dt i1
    rw [e2]
    simp only []
    obtain ⟨s3, e3, i3⟩ := softDropInput_playInv rand dt i2
    rw [e3]
    exact ⟨_, rfl, playInv_frame (by simp [SameCore]) i3⟩

/-- Under the play invariant `update` returns a state and keeps the invariant. -/
theorem update_playInv (rand : Nat → Fin 7) {s : Game} (dt : Int) (hs : PlayInv s) :
    ∃ s1, update rand s dt = some s1 ∧ PlayInv s1 := by
  unfold update
  dsimp only
  split
  · exact ⟨s, rfl, hs⟩
  · obtain ⟨s1, e1, i1⟩ := handleInput_playInv rand dt hs
    rw [e1]
    simp only []
    split
    · exact drop_playInv rand (playInv_frame (by simp [SameCore]) i1)
    · exact ⟨_, rfl, playInv_frame (by simp [SameCore]) i1⟩

/-- Under the play invariant a frame returns a state and keeps the invariant. -/
theorem tick_playInv (rand : Nat → Fin 7) {s : Game} (keys : Keys) (dt : Int)
    (hs : PlayInv s) : ∃ s1, tick rand s keys dt = some s1 ∧ PlayInv s1 :=
  update_playInv rand dt (playInv_frame (by simp [SameCore]) hs)

/-- The play invariant holds after `start`. -/
theorem start_playInv {rand : Nat → Fin 7} {s0 s : Game} (h : start rand s0 = some s) :
    PlayInv s := by
  have hb := boardInv_start s0 s h
  have hst := start_stats h
  unfold start at h
  obtain ⟨f1, f2, f3, f4⟩ := spawnPiece_fields h
  refine ⟨hb, ?_, hst, ?_, f3, f4⟩
  · rw [f1]
    intro row hrow
    have hr : row = emptyRow := List.eq_of_mem_replicate hrow
    rw [hr]
    decide
  · rw [f2]
    show (0 : Int) ≤ 0
    omega

/-- The play invariant is an engine invariant. -/
theorem playInv_engine (rand : Nat → Fin 7) : EngineInv rand PlayInv where
  frame := playInv_frame
  move := by
    intro s dx dy r h hs
    obtain ⟨r1, h1, i1⟩ := move_playInv dx dy hs
    rw [h] at h1
    cases h1
    exact i1
  rotate := by
    intro s s1 dir h hs
    obtain ⟨s2, h2, i2⟩ := rotate_playInv dir hs
    rw [h] at h2
    cases h2
    exact i2
  hold := by
    intro s s1 h hs
    obtain ⟨s2, h2, i2⟩ := hold_playInv rand hs
    rw [h] at h2
    cases h2
    exact i2
  drop := by
    intro s s1 h hs
    obtain ⟨s2, h2, i2⟩ := drop_playInv rand hs
    rw [h] at h2
    cases h2
    exact i2

/-- The play invariant holds in every reachable state. -/
theorem reachable_playInv {rand : Nat → Fin 7} {s : Game} (h : Reachable rand s) :
    PlayInv s :=
  engineInv_reachable (playInv_engine rand) (fun _ _ hs => start_playInv hs) h

/-- C22. In every reachable state the play invariant holds: no row of the grid is full, the
score is not negative, an active and a next piece are present. `move`, `rotate`,
`holdCurrentPiece` and `drop` keep the invariant, so it holds wherever `lock` is called.
Under the invariant a call of `lock` finds no full row outside the four rows from `p.y`
on after the merge, so at most 4 rows are full, `clearLines` returns a value in 0..4,
`updateStats` is called only with `n` in 1..4, where `points[n]` is defined, and `lock`
returns a state that satisfies the invariant with a score that is not negative and not
lower than before. Hence every frame from a reachable state returns a state: no lookup
is undefined. -/
theorem lock_clears_at_most_four (rand : Nat → Fin 7) :
    (∀ s : Game, Reachable rand s →
      PlayInv s ∧ (∀ row ∈ s.grid, rowFull row = false) ∧ 0 ≤ s.score) ∧
    EngineInv rand PlayInv ∧
    (∀ (s : Game) (p : Piece), PlayInv s → s.piece = some p →
      (∀ i : Nat, i < 20 → ¬ (p.y ≤ i ∧ (i : Int) < p.y + 4) →
        rowFull ((merge s.grid p).getD i []) = false) ∧
      (merge s.grid p).countP rowFull ≤ 4 ∧
      0 ≤ (clearLines (merge s.grid p)).2 ∧ (clearLines (merge s.grid p)).2 ≤ 4 ∧
      ((clearLines (merge s.grid p)).2 > 0 →
        ∃ pts, points[(clearLines (merge s.grid p)).2.toNat]? = some pts ∧ 0 ≤ pts) ∧
      ∃ s1, lock rand s = some s1 ∧ PlayInv s1 ∧ s.score ≤ s1.score ∧ 0 ≤ s1.score) ∧
    (∀ (s : Game) (keys : Keys) (deltaTime : Int), Reachable rand s →
      ∃ s1, tick rand s keys deltaTime = some s1 ∧ 0 ≤ s1.score) := by
  refine ⟨?_, playInv_engine rand, ?_, ?_⟩
  · intro s hs
    have hi := reachable_playInv hs
    exact ⟨hi, hi.2.1, hi.2.2.2.1⟩
  · intro s p hs hp
    have hpok := (hs.1.2.2.1 p hp).1
    have hb := clearLines_le_four hs.1.1 hs.2.1 hpok
    obtain ⟨_, _, s1, h1, i1, hsc⟩ := lock_playInv rand hs hp
    refine ⟨fun i hi hout => merge_row_untouched hs.1.1 hs.2.1 hpok i hi hout,
      merge_full_rows_le hs.1.1 hs.2.1 hpok, hb.1, hb.2, ?_, s1, h1, i1, hsc, i1.2.2.2.1⟩
    intro hpos
    obtain ⟨pts, _, hl, hp0⟩ := points_lookup _ (by omega) hb.2
    exact ⟨pts, hl, hp0⟩
  · intro s keys deltaTime hs
    obtain ⟨s1, h1, i1⟩ := tick_playInv rand keys deltaTime (reachable_playInv hs)
    exact ⟨s1, h1, i1.2.2.2.1⟩

/-- Witness of C22: the state after `start` from the constructor state, and a frame of
1001 ms with the down key pressed. -/
theorem lock_clears_at_most_four_witness :
    ∃ s : Game, start stackRand Game.new = some s ∧ Reachable stackRand s ∧
      PlayInv s ∧ (∀ row ∈ s.grid, rowFull row = false) ∧ 0 ≤ s.score ∧
      ∃ s1, tick stackRand s keysDown 1001 = some s1 ∧ 0 ≤ s1.score :=
  ⟨_, rfl, Reachable.start Game.new _ rfl,
    ((lock_clears_at_most_four stackRand).1 _ (Reachable.start Game.new _ rfl)).1,
    ((lock_clears_at_most_four stackRand).1 _ (Reachable.start Game.new _ rfl)).2.1,
    ((lock_clears_at_most_four stackRand).1 _ (Reachable.start Game.new _ rfl)).2.2,
    (lock_clears_at_most_four stackRand).2.2.2 _ keysDown 1001
      (Reachable.start Game.new _ rfl)⟩

end NeonTetris
